import Mathlib

/-!
# Virtual schemas: the plan builder of `pkg/sql/virtual_schema.go`

A shallow embedding of `virtualDefEntry.getPlanInfo` and of the closures it
builds (`validateRow`, `addRowIfPassesFilter`, the span loop of the
constrained scan), of `virtualSchemaTable.initVirtualTableDesc` and of the
registry built by `NewVirtualSchemaHolder`, with theorems about them.

Conventions of the embedding.

* A Go `error` is a value of `Err`; a Go run-time panic (index out of range,
  call of a nil function) ends the computation and is recorded as
  `Err.runtimePanic`, which is not an assertion error.
* A population routine is a collaborator: it is represented by the rows it
  offers to its `addRow` callback, in order, and by what it returns when every
  `addRow` call returned nil.  When `addRow` returns an error the routine stops
  and returns that error.  An error of a collaborator's own is a value
  `Err.external`, distinct from the errors this file creates.
* The row source built by `setupGenerator` is represented by its drained
  content: the rows pushed to the consumer, in order, and the error (if any)
  that ended the scan, together with a record of the routine invocations and
  of the span set the constraint is left with.
* `initVirtualTableDesc` and `NewVirtualSchemaHolder` are embedded with the
  statement parser as a parameter.  A Go map that is ranged over is the list of
  its key-value pairs in the order of the visit; a Go map that is built is the
  list of its assignments, the latest first, and a lookup finds the latest
  assignment to the key.
-/

namespace VirtualSchema

/-! ## Errors -/

/-- Go error values met by the plan builder. -/
inductive Err where
  /-- An `errors.AssertionFailedf` error. -/
  | assertionFailed (msg : String)
  /-- A `pgerror.New` error with its code. -/
  | pgerror (code : String) (msg : String)
  /-- An `errors.WithHint` wrapper. -/
  | withHint (e : Err) (hint : String)
  /-- An error value returned by a collaborator (database lookup, routine). -/
  | external (msg : String)
  /-- A Go run-time panic. -/
  | runtimePanic (msg : String)
  /-- An `errors.Errorf` or `errors.New` error. -/
  | plain (msg : String)
  /-- An `errors.NewAssertionErrorWithWrappedErrf` error around `cause`. -/
  | assertionWrapped (cause : Err) (msg : String)
  /-- An `unimplemented.NewWithIssueDetailf` error. -/
  | unimplemented (issue : Nat) (detail : String) (msg : String)
  deriving DecidableEq

/-- Whether the error is an assertion failure. -/
def Err.isAssertion : Err → Bool
  | .assertionFailed _ => true
  | .assertionWrapped _ _ => true
  | _ => false

/-- The code `pgcode.UndefinedObject`. -/
def UndefinedObject : String := "42704"

/-- The `errInvalidDbPrefix` variable. -/
def errInvalidDbPrefix : Err :=
  .withHint
    (.pgerror UndefinedObject "cannot access virtual schema in anonymous database")
    "verify that the current database is set"

/-- The function `newInvalidVirtualSchemaError`. -/
def newInvalidVirtualSchemaError : Err :=
  .assertionFailed "virtualSchema cannot have both the populate and generator functions defined"

/-- The function `newInvalidVirtualDefEntryError`. -/
def newInvalidVirtualDefEntryError : Err :=
  .assertionFailed "virtualDefEntry.virtualDef must be a virtualSchemaTable"

/-! ## Datums and types -/

/-- Modelled from the spec: the type of a column or datum (`types.T`, package
`types` is not under src/), reduced to its family. -/
inductive Typ where
  | IntFamily
  | StringFamily
  | UnknownFamily
  | AnyFamily
  deriving DecidableEq

/-- Modelled from the spec: `types.T.Equivalent`, the equivalence of a datum's
resolved type with a declared column type: the families agree, or one of the
two is the wildcard family. -/
def Typ.Equivalent (t other : Typ) : Bool :=
  if t = .AnyFamily ∨ other = .AnyFamily then true else decide (t = other)

/-- Modelled from the spec: a value of a row (`tree.Datum`, package `tree` is
not under src/): NULL, an integer or a string. -/
inductive Datum where
  | DNull
  | DInt (v : Int)
  | DString (s : String)
  deriving DecidableEq

/-- Modelled from the spec: `Datum.ResolvedType`. -/
def Datum.ResolvedType : Datum → Typ
  | .DNull => .UnknownFamily
  | .DInt _ => .IntFamily
  | .DString _ => .StringFamily

/-- Modelled from the spec: `Datum.Compare`, a total order on datums in which
NULL sorts first; the result is -1, 0 or 1. -/
def Datum.Compare : Datum → Datum → Int
  | .DNull, .DNull => 0
  | .DNull, _ => -1
  | _, .DNull => 1
  | .DInt a, .DInt b => if a < b then -1 else if a = b then 0 else 1
  | .DInt _, .DString _ => -1
  | .DString _, .DInt _ => 1
  | .DString a, .DString b => if a < b then -1 else if a = b then 0 else 1

/-- A row: `tree.Datums`. -/
abbrev Row := List Datum

/-! ## Descriptors -/

/-- The fields of `sqlbase.ColumnDescriptor` that are read. -/
structure ColumnDescriptor where
  ID : Nat
  Name : String
  Typ : Typ
  Nullable : Bool
  deriving DecidableEq

/-- The fields of `sqlbase.IndexDescriptor` that are read or written. -/
structure IndexDescriptor where
  ID : Nat
  ColumnIDs : List Nat
  StoreColumnIDs : List Nat := []
  StoreColumnNames : List String := []
  deriving DecidableEq

/-- The fields of `sqlbase.TableDescriptor` that are read or written;
`Indexes` holds the secondary indexes. -/
structure TableDescriptor where
  Name : String
  ID : Nat
  Columns : List ColumnDescriptor
  Indexes : List IndexDescriptor := []
  deriving DecidableEq

/-- The fields of `sqlbase.DatabaseDescriptor` that are read. -/
structure DatabaseDescriptor where
  Name : String
  ID : Nat
  deriving DecidableEq

/-- A `sqlbase.ResultColumn`. -/
structure ResultColumn where
  Name : String
  Typ : Typ
  deriving DecidableEq

/-- The `sqlbase.ResultColumns` slice. -/
abbrev ResultColumns := List ResultColumn

/-- The lookup `columnIdxMap[id]` on the map built by
`TableDescriptor.ColumnIdxMap`: the ordinal of the last column with that id,
and 0 (the zero value of a Go map lookup) when there is none. -/
def columnIdxMapFrom (id : Nat) : Nat → List ColumnDescriptor → Nat → Nat
  | _, [], found => found
  | i, col :: rest, found =>
    columnIdxMapFrom id (i + 1) rest (if col.ID = id then i else found)

/-- The map `table.ColumnIdxMap()`, as a function of the column id. -/
def TableDescriptor.ColumnIdxMap (desc : TableDescriptor) (id : Nat) : Nat :=
  columnIdxMapFrom id 0 desc.Columns 0

/-! ## Constraints (package `opt/constraint`) -/

/-- Modelled from the spec: `constraint.SpanBoundary`, whether a boundary of a
span is inclusive or exclusive (package `opt/constraint` is not under src/). -/
inductive SpanBoundary where
  | IncludeBoundary
  | ExcludeBoundary
  deriving DecidableEq

/-- Modelled from the spec: `constraint.KeyExtension`, how a key that is a
prefix of another one compares with it. -/
inductive KeyExtension where
  | ExtendLow
  | ExtendHigh
  deriving DecidableEq

/-- Modelled from the spec: `KeyExtension.ToCmp`. -/
def KeyExtension.ToCmp : KeyExtension → Int
  | .ExtendLow => -1
  | .ExtendHigh => 1

/-- Modelled from the spec: `constraint.Key`, a composite key, one datum per
column (all columns ascending); the empty key is the unbounded one. -/
abbrev Key := List Datum

/-- Modelled from the spec: `constraint.MakeCompositeKey`. -/
def MakeCompositeKey (vals : List Datum) : Key := vals

/-- Modelled from the spec: `Key.Compare`, the lexicographic comparison of two
keys, a key that is a prefix of the other being extended downwards or
upwards. -/
def Key.Compare : Key → Key → KeyExtension → KeyExtension → Int
  | [], [], kext, lext => if kext = lext then 0 else kext.ToCmp
  | [], _ :: _, kext, _ => kext.ToCmp
  | _ :: _, [], _, lext => - lext.ToCmp
  | a :: k, b :: l, kext, lext =>
    if a.Compare b ≠ 0 then a.Compare b else Key.Compare k l kext lext

/-- Modelled from the spec: `constraint.Span`, a range of keys with inclusive
or exclusive boundaries. -/
structure Span where
  start : Key
  startBoundary : SpanBoundary
  end_ : Key
  endBoundary : SpanBoundary
  deriving DecidableEq

/-- Modelled from the spec: `Span.Init`. -/
def Span.Init (start : Key) (startBoundary : SpanBoundary) (endKey : Key)
    (endBoundary : SpanBoundary) : Span :=
  { start := start, startBoundary := startBoundary, end_ := endKey, endBoundary := endBoundary }

/-- Modelled from the spec: `Span.StartKey`. -/
def Span.StartKey (sp : Span) : Key := sp.start

/-- Modelled from the spec: `Span.EndKey`. -/
def Span.EndKey (sp : Span) : Key := sp.end_

/-- Modelled from the spec: `Span.startExt`, an inclusive start boundary
extends the start key downwards. -/
def Span.startExt (sp : Span) : KeyExtension :=
  match sp.startBoundary with
  | .IncludeBoundary => .ExtendLow
  | .ExcludeBoundary => .ExtendHigh

/-- Modelled from the spec: `Span.endExt`, an inclusive end boundary extends
the end key upwards. -/
def Span.endExt (sp : Span) : KeyExtension :=
  match sp.endBoundary with
  | .IncludeBoundary => .ExtendHigh
  | .ExcludeBoundary => .ExtendLow

/-- Modelled from the spec: `Span.CompareStarts`. -/
def Span.CompareStarts (sp other : Span) : Int :=
  Key.Compare sp.start other.start sp.startExt other.startExt

/-- Modelled from the spec: `Span.CompareEnds`. -/
def Span.CompareEnds (sp other : Span) : Int :=
  Key.Compare sp.end_ other.end_ sp.endExt other.endExt

/-- Modelled from the spec: a span "reduces to a single point key"
(`Span.HasSingleKey`): both keys are present, of the same length, inclusive,
and equal datum by datum. -/
def Span.HasSingleKey (sp : Span) : Bool :=
  let l := sp.start.length
  if l = 0 ∨ l ≠ sp.end_.length then false
  else if sp.startBoundary ≠ .IncludeBoundary ∨ sp.endBoundary ≠ .IncludeBoundary then false
  else (List.zip sp.start sp.end_).all fun ab => decide (ab.1.Compare ab.2 = 0)

/-- Modelled from the spec: `Span.IsUnconstrained`, the span that allows every
key. -/
def Span.IsUnconstrained (sp : Span) : Bool :=
  let startUnconstrained :=
    sp.start.isEmpty ||
      (decide (sp.start = [Datum.DNull]) && decide (sp.startBoundary = .IncludeBoundary))
  let endUnconstrained := sp.end_.isEmpty
  startUnconstrained && endUnconstrained

/-- Modelled from the spec: whether the span `sp` lies within the span `cSpan`:
it starts no earlier and ends no later. -/
def Span.Contains (cSpan sp : Span) : Bool :=
  decide (sp.CompareStarts cSpan ≥ 0) && decide (sp.CompareEnds cSpan ≤ 0)

/-- Modelled from the spec: `constraint.Constraint`, "an ordered set of
disjoint ranges" over the key of an index. -/
structure Constraint where
  Spans : List Span
  deriving DecidableEq

/-- Modelled from the spec: `Constraint.IsUnconstrained`, the constraint is
"marked unconstrained" when it is the single span that allows every key. -/
def Constraint.IsUnconstrained (c : Constraint) : Bool :=
  match c.Spans with
  | [sp] => sp.IsUnconstrained
  | _ => false

/-- Modelled from the spec: `Constraint.ContainsSpan`, the constraint has a
span that contains the given span. -/
def Constraint.ContainsSpan (c : Constraint) (sp : Span) : Bool :=
  c.Spans.any fun cSpan => cSpan.Contains sp

/-- Modelled from the spec: `Spans.Truncate`, keep the first `newLength` spans. -/
def Constraint.Truncate (c : Constraint) (newLength : Nat) : Constraint :=
  { c with Spans := c.Spans.take newLength }

/-! ## Table definitions and their routines -/

/-- The part of `planner` that is used: the database lookup
`LogicalSchemaAccessor().GetDatabaseDesc` with `Required: true`. -/
structure planner where
  GetDatabaseDesc : String → Except String DatabaseDescriptor

/-- What a bulk population routine does when it is called: the rows it offers
to `addRow`, in order, and the error of its own it returns at the end (nil
when `none`). -/
structure PopulateRun where
  rows : List Row
  err : Option String

/-- What the population routine of a virtual index does when it is called:
the rows it offers to `addRow`, in order, and its results `(matched, err)`. -/
structure IndexRun where
  rows : List Row
  matched : Bool
  err : Option String

/-- The drained content of a `virtualTableGenerator`: the rows `next` returns,
in order, until it is exhausted (`err = none`) or returns an error. -/
structure virtualTableGenerator where
  rows : List Row
  err : Option String

/-- The struct `virtualIndex`; the field `partial` is named `isPartial`. -/
structure virtualIndex where
  populate : Datum → planner → Option DatabaseDescriptor → IndexRun
  isPartial : Bool

/-- The struct `virtualSchemaTable`; a nil function is `none`. -/
structure virtualSchemaTable where
  schema : String
  comment : String
  populate : Option (planner → Option DatabaseDescriptor → PopulateRun)
  indexes : List virtualIndex
  generator : Option (planner → Option DatabaseDescriptor → Except String virtualTableGenerator)

/-- The struct `virtualSchemaView`. -/
structure virtualSchemaView where
  schema : String
  resultColumns : ResultColumns

/-- The interface `virtualSchemaDef` with its two implementations. -/
inductive virtualSchemaDef where
  | table (t : virtualSchemaTable)
  | view (v : virtualSchemaView)

/-- The struct `virtualDefEntry`. -/
structure virtualDefEntry where
  virtualDef : virtualSchemaDef
  desc : TableDescriptor
  comment : String
  validWithNoDatabaseContext : Bool

/-- The method `virtualSchemaTable.getIndex`: `&t.indexes[id-2]`, where `id` is
an unsigned 32-bit integer; `none` is the index-out-of-range panic. -/
def virtualSchemaTable.getIndex (t : virtualSchemaTable) (id : Nat) : Option virtualIndex :=
  t.indexes[(id + 2 ^ 32 - 2) % 2 ^ 32]?

/-! ## Row sources -/

/-- One invocation of a collaborator routine during a scan, with the rows the
callback received from it and what the routine returned. -/
inductive Call where
  | index (constraintDatum : Datum) (received : List Row) (matched : Bool) (err : Option Err)
  | populate (received : List Row) (err : Option Err)
  deriving DecidableEq

/-- The drained content of a generator built by `setupGenerator`, or of the one
returned by a streaming routine: the rows handed to the consumer, the error
that ended the scan, the routines invoked and the constraint afterwards. -/
structure Scan where
  rows : List Row
  err : Option Err
  calls : List Call
  idxConstraint : Option Constraint
  deriving DecidableEq

/-- The node built by `p.newVirtualTableNode(columns, next, cleanup)`. -/
structure virtualTableNode where
  columns : ResultColumns
  scan : Scan
  deriving DecidableEq

/-- The type `virtualTableConstructor` (the context argument is dropped). -/
abbrev virtualTableConstructor := planner → String → Except Err virtualTableNode

/-- The panic of an indexing expression that is out of range. -/
def panicIndexOutOfRange : Err := .runtimePanic "runtime error: index out of range"

/-- The panic of a call through a nil function value. -/
def panicNilFunc : Err :=
  .runtimePanic "runtime error: invalid memory address or nil pointer dereference"

/-- A routine offering `rows` one by one to the callback `addRow`: the rows
pushed to the consumer, the rows the callback received, and the first error
the callback returned, at which the routine stops. -/
def feedRows (addRow : Row → Except Err (List Row)) :
    List Row → List Row × List Row × Option Err
  | [] => ([], [], none)
  | row :: rest =>
    match addRow row with
    | .error err => ([], [row], some err)
    | .ok pushed =>
      let r := feedRows addRow rest
      (pushed ++ r.1, row :: r.2.1, r.2.2)

/-- The result of a routine: the error of its callback if there was one, else
its own. -/
def routineErr (callbackErr : Option Err) (own : Option String) : Option Err :=
  match callbackErr with
  | some err => some err
  | none => own.map Err.external

/-! ## `getPlanInfo` -/

/-- Modelled from the spec: the rendering of a type in an error message. -/
def Typ.String : Typ → String
  | .IntFamily => "int"
  | .StringFamily => "string"
  | .UnknownFamily => "unknown"
  | .AnyFamily => "anyelement"

/-- The loop of `validateRow` over the columns, position by position: the
first list is what is left of `e.desc.Columns` (name, type and nullability of
column `i`), the second what is left of the row. -/
def validateColumns (tableName : String) : List ColumnDescriptor → List Datum → Except Err Unit
  | col :: cols, datum :: datums =>
    if datum = Datum.DNull then
      if !col.Nullable then
        .error (.assertionFailed
          ("column " ++ tableName ++ "." ++ col.Name ++ " not nullable, but found NULL value"))
      else validateColumns tableName cols datums
    else if !datum.ResolvedType.Equivalent col.Typ then
      .error (.assertionFailed
        ("datum column \"" ++ col.Name ++ "\" expected to be type " ++ col.Typ.String ++
          "; found type " ++ datum.ResolvedType.String))
    else validateColumns tableName cols datums
  | _, _ => .ok ()

/-- The error of `validateRow` for a row of `r` values on `c` columns. -/
def errRowCount (r c : Nat) : Err :=
  .assertionFailed s!"datum row count and column count differ: {r} vs {c}"

/-- The closure `validateRow` of `getPlanInfo`; `columns` is built from
`e.desc.Columns`, one result column per descriptor column. -/
def validateRow (e : virtualDefEntry) (datums : Row) : Except Err Unit :=
  let r := datums.length
  let c := e.desc.Columns.length
  if r ≠ c then .error (errRowCount r c)
  else validateColumns e.desc.Name e.desc.Columns datums

/-- The loop of `addRowIfPassesFilter` that fills `indexKeyDatums`:
`indexKeyDatums[i] = datums[columnIdxMap[id]]`; `none` is the
index-out-of-range panic. -/
def indexKeyDatums (table : TableDescriptor) (datums : Row) : List Nat → Option (List Datum)
  | [] => some []
  | id :: ids =>
    match datums[table.ColumnIdxMap id]? with
    | none => none
    | some d =>
      match indexKeyDatums table datums ids with
      | none => none
      | some ds => some (d :: ds)

/-- The closure `addRowIfPassesFilter` of the constrained scan, for the
constraint in its current state: the rows pushed, or the error. -/
def addRowIfPassesFilter (e : virtualDefEntry) (table : TableDescriptor)
    (index : IndexDescriptor) (idxConstraint : Constraint) (datums : Row) :
    Except Err (List Row) :=
  match indexKeyDatums table datums index.ColumnIDs with
  | none => .error panicIndexOutOfRange
  | some keyDatums =>
    let key := MakeCompositeKey keyDatums
    let span := Span.Init key .IncludeBoundary key .IncludeBoundary
    if idxConstraint.ContainsSpan span then
      match validateRow e datums with
      | .error err => .error err
      | .ok _ => .ok [datums]
    else .ok []

/-- The worker of the unconstrained scan: `def.populate` with a callback that
validates each row and pushes it. -/
def unconstrainedWorker (e : virtualDefEntry) (d : virtualSchemaTable) (p : planner)
    (dbDesc : Option DatabaseDescriptor) (idxConstraint : Option Constraint) : Scan :=
  match d.populate with
  | none => { rows := [], err := some panicNilFunc, calls := [], idxConstraint := idxConstraint }
  | some populate =>
    let run := populate p dbDesc
    let fed := feedRows
      (fun row =>
        match validateRow e row with
        | .error err => .error err
        | .ok _ => .ok [row])
      run.rows
    let err := routineErr fed.2.2 run.err
    { rows := fed.1, err := err, calls := [.populate fed.2.1 err],
      idxConstraint := idxConstraint }

/-- The end of the worker of the constrained scan, after the loop was left by
`break` at `currentConstraint`: the span set is truncated to its first
`currentConstraint + 1` spans and `def.populate` runs with
`addRowIfPassesFilter`. -/
def fallbackScan (e : virtualDefEntry) (table : TableDescriptor) (index : IndexDescriptor)
    (d : virtualSchemaTable) (p : planner) (dbDesc : Option DatabaseDescriptor)
    (idxConstraint : Constraint) (currentConstraint : Nat) : Scan :=
  let truncated := idxConstraint.Truncate (currentConstraint + 1)
  match d.populate with
  | none =>
    { rows := [], err := some panicNilFunc, calls := [], idxConstraint := some truncated }
  | some populate =>
    let run := populate p dbDesc
    let fed := feedRows (addRowIfPassesFilter e table index truncated) run.rows
    let err := routineErr fed.2.2 run.err
    { rows := fed.1, err := err, calls := [.populate fed.2.1 err],
      idxConstraint := some truncated }

/-- The rows and calls of a point lookup, put in front of what follows it. -/
def Scan.after (rows : List Row) (call : Call) (s : Scan) : Scan :=
  { s with rows := rows ++ s.rows, calls := call :: s.calls }

/-- The worker of the constrained scan from the head of its loop to its end;
the argument is `currentConstraint + 1`, so that `0` is the exit of the loop
with `currentConstraint < 0`. -/
def constrainedLoop (e : virtualDefEntry) (table : TableDescriptor) (index : IndexDescriptor)
    (d : virtualSchemaTable) (p : planner) (dbDesc : Option DatabaseDescriptor)
    (idxConstraint : Constraint) : Nat → Scan
  | 0 => { rows := [], err := none, calls := [], idxConstraint := some idxConstraint }
  | currentConstraint + 1 =>
    match idxConstraint.Spans[currentConstraint]? with
    | none =>
      { rows := [], err := some panicIndexOutOfRange, calls := [],
        idxConstraint := some idxConstraint }
    | some span =>
      if span.StartKey.length > 1 then
        { rows := [],
          err := some (.assertionFailed
            "programming error: can't push down composite constraints into vtables"),
          calls := [], idxConstraint := some idxConstraint }
      else if !span.HasSingleKey then
        fallbackScan e table index d p dbDesc idxConstraint currentConstraint
      else
        match span.StartKey[0]? with
        | none =>
          { rows := [], err := some panicIndexOutOfRange, calls := [],
            idxConstraint := some idxConstraint }
        | some constraintDatum =>
          match d.getIndex index.ID with
          | none =>
            { rows := [], err := some panicIndexOutOfRange, calls := [],
              idxConstraint := some idxConstraint }
          | some virtualIndex =>
            let run := virtualIndex.populate constraintDatum p dbDesc
            let fed := feedRows (addRowIfPassesFilter e table index idxConstraint) run.rows
            let err := routineErr fed.2.2 run.err
            let call := Call.index constraintDatum fed.2.1 run.matched err
            match err with
            | some err =>
              { rows := fed.1, err := some err, calls := [call],
                idxConstraint := some idxConstraint }
            | none =>
              if !run.matched && virtualIndex.isPartial then
                (fallbackScan e table index d p dbDesc idxConstraint currentConstraint).after
                  fed.1 call
              else
                (constrainedLoop e table index d p dbDesc idxConstraint currentConstraint).after
                  fed.1 call

/-- The worker of the constrained scan: the loop starts at
`idxConstraint.Spans.Count() - 1`. -/
def constrainedWorker (e : virtualDefEntry) (table : TableDescriptor) (index : IndexDescriptor)
    (d : virtualSchemaTable) (p : planner) (dbDesc : Option DatabaseDescriptor)
    (idxConstraint : Constraint) : Scan :=
  constrainedLoop e table index d p dbDesc idxConstraint idxConstraint.Spans.length

/-- The columns computed by `getPlanInfo`: name and type of every column of
`e.desc`. -/
def resultColumns (e : virtualDefEntry) : ResultColumns :=
  e.desc.Columns.map fun col => { Name := col.Name, Typ := col.Typ }

/-- The first step of the constructor: the database descriptor of `dbName`,
nil for the empty name when the entry is valid with no database context. -/
def resolveDatabase (e : virtualDefEntry) (p : planner) (dbName : String) :
    Except Err (Option DatabaseDescriptor) :=
  if dbName ≠ "" then
    match p.GetDatabaseDesc dbName with
    | .error err => .error (.external err)
    | .ok dbDesc => .ok (some dbDesc)
  else if !e.validWithNoDatabaseContext then .error errInvalidDbPrefix
  else .ok none

/-- The error of a constrained scan on the index with id 1. -/
def errConstrainPrimary (e : virtualDefEntry) : Err :=
  .assertionFailed
    ("programming error: can't constrain scan on primary virtual index of table " ++
      e.desc.Name)

/-- The `switch` of the constructor, once `dbDesc` is known. -/
def planVirtualDef (e : virtualDefEntry) (table : TableDescriptor) (index : IndexDescriptor)
    (idxConstraint : Option Constraint) (p : planner) (dbDesc : Option DatabaseDescriptor) :
    Except Err virtualTableNode :=
  let columns := resultColumns e
  match e.virtualDef with
  | .table d =>
    if d.generator.isSome && d.populate.isSome then .error newInvalidVirtualSchemaError
    else
      match d.generator with
      | some generator =>
        match generator p dbDesc with
        | .error err => .error (.external err)
        | .ok next =>
          .ok { columns := columns,
                scan := { rows := next.rows, err := next.err.map Err.external, calls := [],
                          idxConstraint := idxConstraint } }
      | none =>
        match idxConstraint with
        | none =>
          .ok { columns := columns, scan := unconstrainedWorker e d p dbDesc idxConstraint }
        | some c =>
          let constrainedScan := !c.IsUnconstrained
          if !constrainedScan then
            .ok { columns := columns, scan := unconstrainedWorker e d p dbDesc idxConstraint }
          else if index.ID = 1 then .error (errConstrainPrimary e)
          else
            .ok { columns := columns, scan := constrainedWorker e table index d p dbDesc c }
  | .view _ => .error newInvalidVirtualDefEntryError

/-- The method `virtualDefEntry.getPlanInfo`: the columns and the deferred
constructor. -/
def getPlanInfo (e : virtualDefEntry) (table : TableDescriptor) (index : IndexDescriptor)
    (idxConstraint : Option Constraint) : ResultColumns × virtualTableConstructor :=
  (resultColumns e,
    fun p dbName =>
      match resolveDatabase e p dbName with
      | .error err => .error err
      | .ok dbDesc => planVirtualDef e table index idxConstraint p dbDesc)

/-! ## Descriptor initialisation (`initVirtualTableDesc`) -/

/-- The fields of `tree.ColumnTableDef` that are read; `HasDefaultExpr` is the
result of the method of that name. -/
structure ColumnTableDef where
  Name : String
  Typ : Typ
  Nullable : Bool
  HasDefaultExpr : Bool
  deriving DecidableEq

/-- The fields of `tree.IndexTableDef` that are read: the indexed columns. -/
structure IndexTableDef where
  Name : String
  Columns : List String
  deriving DecidableEq

/-- An element of `create.Defs`: the dynamic types the code tells apart, and
any other one. -/
inductive TableDef where
  | ColumnTableDef (d : ColumnTableDef)
  | IndexTableDef (d : IndexTableDef)
  | UniqueConstraintTableDef (d : IndexTableDef)
  | other
  deriving DecidableEq

/-- The statement `tree.CreateTable`. -/
structure CreateTable where
  Table : String
  Defs : List TableDef
  deriving DecidableEq

/-- The statement `tree.CreateView`. -/
structure CreateView where
  Name : String
  ColumnNames : List String
  AsSource : String
  deriving DecidableEq

/-- The dynamic type of `stmt.AST`. -/
inductive Statement where
  | CreateTable (create : CreateTable)
  | CreateView (create : CreateView)
  | other
  deriving DecidableEq

/-- The functions of other packages that the registry builder calls and that
are taken as given: the statement parser, and the construction of a view
descriptor. -/
structure Collaborators where
  ParseOne : String → Except String Statement
  overrideColumnNames : ResultColumns → List String → ResultColumns
  makeViewTableDesc : String → String → Nat → Nat → ResultColumns →
    Except String TableDescriptor

/-- Modelled from the spec: the columns `MakeTableDesc` builds, "in parse
order with sequential ids" from `next` on (the function is not under src/). -/
def makeColumns : Nat → List TableDef → List ColumnDescriptor
  | _, [] => []
  | next, .ColumnTableDef d :: rest =>
    { ID := next, Name := d.Name, Typ := d.Typ, Nullable := d.Nullable } ::
      makeColumns (next + 1) rest
  | next, _ :: rest => makeColumns next rest

/-- Modelled from the spec: the ids of the columns named in an index
definition; a name that is no column of the table is an error. -/
def resolveColumnIDs (columns : List ColumnDescriptor) : List String → Except String (List Nat)
  | [] => .ok []
  | name :: names =>
    match columns.find? fun col => col.Name = name with
    | none => .error ("column \"" ++ name ++ "\" does not exist")
    | some col =>
      match resolveColumnIDs columns names with
      | .error err => .error err
      | .ok ids => .ok (col.ID :: ids)

/-- Modelled from the spec: the secondary indexes `MakeTableDesc` builds, one
per index definition, in declaration order, with ids from `next` on
("secondary indexes start at id 2"). -/
def makeIndexes (columns : List ColumnDescriptor) :
    Nat → List TableDef → Except String (List IndexDescriptor)
  | _, [] => .ok []
  | next, .IndexTableDef d :: rest =>
    match resolveColumnIDs columns d.Columns with
    | .error err => .error err
    | .ok ids =>
      match makeIndexes columns (next + 1) rest with
      | .error err => .error err
      | .ok idxs => .ok ({ ID := next, ColumnIDs := ids } :: idxs)
  | next, _ :: rest => makeIndexes columns next rest

/-- Modelled from the spec: `MakeTableDesc`, which resolves a parsed table
definition into a descriptor: the columns in parse order with sequential ids
from 1, the secondary indexes in declaration order with ids from 2. -/
def MakeTableDesc (create : CreateTable) (parentSchemaID id : Nat) :
    Except String TableDescriptor :=
  let _ := parentSchemaID
  let columns := makeColumns 1 create.Defs
  match makeIndexes columns 2 create.Defs with
  | .error err => .error err
  | .ok indexes =>
    .ok { Name := create.Table, ID := id, Columns := columns, Indexes := indexes }

/-- The error for a column with a default expression. -/
def errDefaultExpr (create : CreateTable) (d : ColumnTableDef) : Err :=
  .plain ("virtual tables are not allowed to use default exprs because bootstrapping: " ++
    create.Table ++ ":" ++ d.Name)

/-- The error for a unique constraint. -/
def errUniqueConstraint : Err :=
  .plain "virtual tables are not allowed to have unique constraints"

/-- The error for a definition without columns. -/
def errEmptyTable : Err := .plain "can't have empty virtual tables"

/-- The panic for an index on more than one column. -/
def panicCompositeIndex : Err :=
  .runtimePanic "we don't know how to deal with virtual composite indexes yet"

/-- The panic of a failed type assertion `stmt.AST.(*tree.CreateTable)`. -/
def panicTypeAssertion : Err := .runtimePanic "interface conversion: wrong dynamic type"

/-- The first loop of `initVirtualTableDesc`, over what is left of
`create.Defs`: the error of the first offending definition, or
`firstColDef`. -/
def checkDefs (create : CreateTable) :
    List TableDef → Option ColumnTableDef → Except Err (Option ColumnTableDef)
  | [], firstColDef => .ok firstColDef
  | .ColumnTableDef d :: rest, firstColDef =>
    if d.HasDefaultExpr then .error (errDefaultExpr create d)
    else checkDefs create rest (if firstColDef.isNone then some d else firstColDef)
  | .UniqueConstraintTableDef _ :: _, _ => .error errUniqueConstraint
  | _ :: rest, firstColDef => checkDefs create rest firstColDef

/-- The loop `EACHCOLUMN` for one index: the two slices `StoreColumnIDs` and
`StoreColumnNames` and the variable `outputIdx`, over what is left of
`mutDesc.Columns`; `none` is the index-out-of-range panic of a write past the
end of the slices. -/
def storeLoop (indexColumnIDs : List Nat) :
    List ColumnDescriptor → List Nat → List String → Nat → Option (List Nat × List String)
  | [], ids, names, _ => some (ids, names)
  | col :: columns, ids, names, outputIdx =>
    if indexColumnIDs.any (fun id => decide (col.ID = id)) then
      storeLoop indexColumnIDs columns ids names outputIdx
    else if outputIdx < ids.length ∧ outputIdx < names.length then
      storeLoop indexColumnIDs columns (ids.set outputIdx col.ID)
        (names.set outputIdx col.Name) (outputIdx + 1)
    else none

/-- The body of the loop over `mutDesc.Indexes` for one index. -/
def storeColumns (columns : List ColumnDescriptor) (idx : IndexDescriptor) :
    Except Err IndexDescriptor :=
  if idx.ColumnIDs.length > 1 then .error panicCompositeIndex
  else if columns.length < idx.ColumnIDs.length then
    .error (.runtimePanic "makeslice: len out of range")
  else
    let n := columns.length - idx.ColumnIDs.length
    match storeLoop idx.ColumnIDs columns (List.replicate n 0) (List.replicate n "") 0 with
    | none => .error panicIndexOutOfRange
    | some stored => .ok { idx with StoreColumnIDs := stored.1, StoreColumnNames := stored.2 }

/-- The loop over `mutDesc.Indexes`. -/
def storeAllIndexes (columns : List ColumnDescriptor) :
    List IndexDescriptor → Except Err (List IndexDescriptor)
  | [] => .ok []
  | idx :: rest =>
    match storeColumns columns idx with
    | .error err => .error err
    | .ok idx' =>
      match storeAllIndexes columns rest with
      | .error err => .error err
      | .ok rest' => .ok (idx' :: rest')

/-- The method `virtualSchemaTable.initVirtualTableDesc`. -/
def virtualSchemaTable.initVirtualTableDesc (t : virtualSchemaTable) (sql : Collaborators)
    (parentSchemaID id : Nat) : Except Err TableDescriptor :=
  match sql.ParseOne t.schema with
  | .error err => .error (.external err)
  | .ok (.CreateTable create) =>
    match checkDefs create create.Defs none with
    | .error err => .error err
    | .ok none => .error errEmptyTable
    | .ok (some _) =>
      match MakeTableDesc create parentSchemaID id with
      | .error err => .error (.external err)
      | .ok mutDesc =>
        match storeAllIndexes mutDesc.Columns mutDesc.Indexes with
        | .error err => .error err
        | .ok indexes => .ok { mutDesc with Indexes := indexes }
  | .ok _ => .error panicTypeAssertion

/-- The method `virtualSchemaView.initVirtualTableDesc`. -/
def virtualSchemaView.initVirtualTableDesc (v : virtualSchemaView) (sql : Collaborators)
    (parentSchemaID id : Nat) : Except Err TableDescriptor :=
  match sql.ParseOne v.schema with
  | .error err => .error (.external err)
  | .ok (.CreateView create) =>
    let columns :=
      if create.ColumnNames.length ≠ 0 then
        sql.overrideColumnNames v.resultColumns create.ColumnNames
      else v.resultColumns
    match sql.makeViewTableDesc create.Name create.AsSource parentSchemaID id columns with
    | .error err => .error (.external err)
    | .ok mutDesc => .ok mutDesc
  | .ok _ => .error panicTypeAssertion

/-- The method `getSchema` of the interface `virtualSchemaDef`. -/
def virtualSchemaDef.getSchema : virtualSchemaDef → String
  | .table t => t.schema
  | .view v => v.schema

/-- The method `getComment` of the interface `virtualSchemaDef`. -/
def virtualSchemaDef.getComment : virtualSchemaDef → String
  | .table t => t.comment
  | .view _ => ""

/-- The method `initVirtualTableDesc` of the interface `virtualSchemaDef`. -/
def virtualSchemaDef.initVirtualTableDesc (d : virtualSchemaDef) (sql : Collaborators)
    (parentSchemaID id : Nat) : Except Err TableDescriptor :=
  match d with
  | .table t => t.initVirtualTableDesc sql parentSchemaID id
  | .view v => v.initVirtualTableDesc sql parentSchemaID id

/-! ## The registry (`VirtualSchemaHolder`) -/

/-- A Go map as the list of its assignments, the latest first. -/
abbrev GoMap (K V : Type) := List (K × V)

/-- The lookup `m[k]`: the value of the latest assignment to `k`, `none` when
the key is absent. -/
def GoMap.get {K V : Type} [DecidableEq K] : GoMap K V → K → Option V
  | [], _ => none
  | (k', v) :: m, k => if k' = k then some v else GoMap.get m k

/-- The assignment `m[k] = v`. -/
def GoMap.set {K V : Type} (m : GoMap K V) (k : K) (v : V) : GoMap K V := (k, v) :: m

/-- The struct `virtualSchema`. The map `tableDefs` is the list of its
key-value pairs in the order in which `range` visits them in the run at hand,
the set `allTableNames` is the list of its members, a nil `tableValidator` is
`none`, and a validator returns its error (`none` is nil). -/
structure virtualSchema where
  name : String
  allTableNames : List String
  tableDefs : List (Nat × virtualSchemaDef)
  tableValidator : Option (TableDescriptor → Option String)
  validWithNoDatabaseContext : Bool

/-- The struct `virtualSchemaEntry`. -/
structure virtualSchemaEntry where
  desc : DatabaseDescriptor
  defs : GoMap String virtualDefEntry
  orderedDefNames : List String
  allTableNames : List String

/-- The struct `VirtualSchemaHolder`. -/
structure VirtualSchemaHolder where
  entries : GoMap String virtualSchemaEntry
  defsByID : GoMap Nat virtualDefEntry
  orderedNames : List String

/-- The comparison `a <= b` of two Go strings, on their characters: the first
position at which they differ decides, and a proper beginning of a string
comes before it. (Go compares bytes; on UTF-8 text the order of the code
points is the same.) -/
def lexLe : List Char → List Char → Bool
  | [], _ => true
  | _ :: _, [] => false
  | a :: as, b :: bs =>
    if a < b then true else if b < a then false else lexLe as bs

/-- The order `sort.Strings` sorts by. -/
def stringLe (a b : String) : Prop := lexLe a.data b.data = true

instance stringLe.decidable : DecidableRel stringLe :=
  fun a b => inferInstanceAs (Decidable (lexLe a.data b.data = true))

/-- The call `sort.Strings(names)` of the Go standard library: the slice is
rearranged into increasing order. -/
def sortStrings (names : List String) : List String := names.insertionSort stringLe

/-- The function `initVirtualDatabaseDesc`. -/
def initVirtualDatabaseDesc (id : Nat) (name : String) : DatabaseDescriptor :=
  { Name := name, ID := id }

/-- What `NewVirtualSchemaHolder` does with an error of `initVirtualTableDesc`:
a returned error is wrapped, a panic goes on unwrapped. -/
def wrapInitError (def_ : virtualSchemaDef) : Err → Err
  | .runtimePanic msg => .runtimePanic msg
  | err => .assertionWrapped err ("failed to initialize " ++ def_.getSchema)

/-- The loop of `NewVirtualSchemaHolder` over what is left of
`schema.tableDefs`; the state is the map `defs`, the map `vs.defsByID` and the
slice `orderedDefNames`. -/
def registerDefs (sql : Collaborators) (schemaID : Nat) (schema : virtualSchema) :
    List (Nat × virtualSchemaDef) →
    GoMap String virtualDefEntry × GoMap Nat virtualDefEntry × List String →
    Except Err (GoMap String virtualDefEntry × GoMap Nat virtualDefEntry × List String)
  | [], state => .ok state
  | (id, def_) :: rest, (defs, defsByID, orderedDefNames) =>
    match def_.initVirtualTableDesc sql schemaID id with
    | .error err => .error (wrapInitError def_ err)
    | .ok tableDesc =>
      match schema.tableValidator.bind fun validate => validate tableDesc with
      | some err => .error (.assertionWrapped (.external err) "programmer error")
      | none =>
        let entry : virtualDefEntry :=
          { virtualDef := def_,
            desc := tableDesc,
            validWithNoDatabaseContext := schema.validWithNoDatabaseContext,
            comment := def_.getComment }
        registerDefs sql schemaID schema rest
          (defs.set tableDesc.Name entry, defsByID.set tableDesc.ID entry,
            orderedDefNames ++ [tableDesc.Name])

/-- The loop of `NewVirtualSchemaHolder` over what is left of
`virtualSchemas`; `vs.orderedNames[order] = dbName` with `order++` fills the
slice from the left, which is written as an append. -/
def registerSchemas (sql : Collaborators) :
    List (Nat × virtualSchema) → VirtualSchemaHolder → Except Err VirtualSchemaHolder
  | [], vs => .ok vs
  | (schemaID, schema) :: rest, vs =>
    let dbName := schema.name
    let dbDesc := initVirtualDatabaseDesc schemaID dbName
    match registerDefs sql schemaID schema schema.tableDefs ([], vs.defsByID, []) with
    | .error err => .error err
    | .ok (defs, defsByID, orderedDefNames) =>
      registerSchemas sql rest
        { entries := vs.entries.set dbName
            { desc := dbDesc,
              defs := defs,
              orderedDefNames := sortStrings orderedDefNames,
              allTableNames := schema.allTableNames },
          defsByID := defsByID,
          orderedNames := vs.orderedNames ++ [dbName] }

/-- The function `NewVirtualSchemaHolder`; the package variable
`virtualSchemas` is a parameter, given as the list of its key-value pairs in
the order in which `range` visits them. -/
def NewVirtualSchemaHolder (sql : Collaborators) (virtualSchemas : List (Nat × virtualSchema)) :
    Except Err VirtualSchemaHolder :=
  match registerSchemas sql virtualSchemas { entries := [], defsByID := [], orderedNames := [] } with
  | .error err => .error err
  | .ok vs => .ok { vs with orderedNames := sortStrings vs.orderedNames }

/-- The method `getEntries`. -/
def VirtualSchemaHolder.getEntries (vs : VirtualSchemaHolder) : GoMap String virtualSchemaEntry :=
  vs.entries

/-- The method `getSchemaNames`. -/
def VirtualSchemaHolder.getSchemaNames (vs : VirtualSchemaHolder) : List String :=
  vs.orderedNames

/-- The method `getVirtualSchemaEntry`; `none` is `ok = false`. -/
def VirtualSchemaHolder.getVirtualSchemaEntry (vs : VirtualSchemaHolder) (name : String) :
    Option virtualSchemaEntry :=
  vs.entries.get name

/-- A `tree.TableName`, with the results of its methods `Schema` and `Table`. -/
structure TableName where
  Schema : String
  Table : String
  deriving DecidableEq

/-- The code `pgcode.UndefinedTable`. -/
def UndefinedTable : String := "42P01"

/-- Modelled from the spec: `sqlbase.NewUndefinedRelationError`, the
"undefined relation" error for a table name (the function is not under
src/). -/
def NewUndefinedRelationError (tn : TableName) : Err :=
  .pgerror UndefinedTable ("relation \"" ++ tn.Schema ++ "." ++ tn.Table ++ "\" does not exist")

/-- Modelled from the spec: the variable `sqlbase.ErrDescriptorNotFound`, the
descriptor-not-found error (declared outside src/). -/
def ErrDescriptorNotFound : Err := .plain "descriptor not found"

/-- The method `getVirtualTableEntry`; the result `none` is the empty entry
`virtualDefEntry{}`. -/
def VirtualSchemaHolder.getVirtualTableEntry (vs : VirtualSchemaHolder) (tn : TableName) :
    Except Err (Option virtualDefEntry) :=
  match vs.getVirtualSchemaEntry tn.Schema with
  | some db =>
    let tableName := tn.Table
    match db.defs.get tableName with
    | some t => .ok (some t)
    | none =>
      if tableName ∈ db.allTableNames then
        .error (.unimplemented 8675 (tn.Schema ++ "." ++ tableName)
          ("virtual schema table not implemented: " ++ tn.Schema ++ "." ++ tableName))
      else .error (NewUndefinedRelationError tn)
  | none => .ok none

/-- The method `getVirtualTableEntryByID`. -/
def VirtualSchemaHolder.getVirtualTableEntryByID (vs : VirtualSchemaHolder) (id : Nat) :
    Except Err virtualDefEntry :=
  match vs.defsByID.get id with
  | none => .error ErrDescriptorNotFound
  | some entry => .ok entry

/-- The method `getVirtualTableDesc`; the result `none` is a nil descriptor,
the field `desc` of the empty entry. -/
def VirtualSchemaHolder.getVirtualTableDesc (vs : VirtualSchemaHolder) (tn : TableName) :
    Except Err (Option TableDescriptor) :=
  match vs.getVirtualTableEntry tn with
  | .error err => .error err
  | .ok t => .ok (t.map fun entry => entry.desc)

/-! ## Notions used in the statements -/

/-- The single-key span on the key `key`, as `addRowIfPassesFilter` builds it
from a row. -/
def keySpan (key : Key) : Span := Span.Init key .IncludeBoundary key .IncludeBoundary

/-- The rows the callback received during an invocation. -/
def Call.received : Call → List Row
  | .index _ received _ _ => received
  | .populate received _ => received

/-- The variable `constrainedScan` of the constructor:
`idxConstraint != nil && !idxConstraint.IsUnconstrained()`. -/
def constrainedScan (idxConstraint : Option Constraint) : Bool :=
  match idxConstraint with
  | none => false
  | some c => !c.IsUnconstrained

/-- The constraint that `addRowIfPassesFilter` checks during an invocation of
a constrained scan of `c`: `c` itself while an index routine runs, and the
constraint as the scan leaves it (truncated) while the fallback runs. -/
def filterInForce (c : Constraint) (after : Option Constraint) : Call → Constraint
  | .index _ _ _ _ => c
  | .populate _ _ => after.getD c

/-- The spans of a constraint on a one-column index are pairwise disjoint: no
value of the indexed column lies in two of them. -/
def Constraint.SpansDisjoint (c : Constraint) : Prop :=
  ∀ (i j : Nat) (si sj : Span), c.Spans[i]? = some si → c.Spans[j]? = some sj → i ≠ j →
    ∀ value : Datum,
      ¬ (si.Contains (keySpan [value]) = true ∧ sj.Contains (keySpan [value]) = true)

/-- Whether the value of the row in the column of ordinal `ord` lies in the
constraint. -/
def inConstraint (ord : Nat) (c : Constraint) (row : Row) : Bool :=
  match row[ord]? with
  | some value => c.ContainsSpan (keySpan [value])
  | none => false

/-- The error of the constrained scan on a span whose start key has more than
one column. -/
def errCompositeConstraint : Err :=
  .assertionFailed "programming error: can't push down composite constraints into vtables"

/-- Whether the point lookup of the index routine `vi` for `key`, during a
constrained scan of `c`, lets the loop go on to the next span: the routine
returns no error and it does not report a miss on a partial index. -/
def lookupContinues (e : virtualDefEntry) (table : TableDescriptor) (index : IndexDescriptor)
    (vi : virtualIndex) (p : planner) (dbDesc : Option DatabaseDescriptor) (c : Constraint)
    (key : Datum) : Bool :=
  (routineErr
      (feedRows (addRowIfPassesFilter e table index c) (vi.populate key p dbDesc).rows).2.2
      (vi.populate key p dbDesc).err).isNone &&
    ((vi.populate key p dbDesc).matched || !vi.isPartial)

/-- What the consumer of a row source sees: the columns, the rows in order,
and the error that ended the scan. -/
def virtualTableNode.source (node : virtualTableNode) : ResultColumns × List Row × Option Err :=
  (node.columns, node.scan.rows, node.scan.err)

/-- The error a routine returned from an invocation (nil when `none`). -/
def Call.err : Call → Option Err
  | .index _ _ _ err => err
  | .populate _ err => err

/-- Whether the invocation is one of an index routine. -/
def Call.isIndex : Call → Bool
  | .index _ _ _ _ => true
  | .populate _ _ => false

/-- Some column definition among `defs` has a default expression. -/
def hasDefaultExpr (defs : List TableDef) : Bool :=
  defs.any fun
    | .ColumnTableDef d => d.HasDefaultExpr
    | _ => false

/-- Some unique constraint is declared among `defs`. -/
def hasUniqueConstraint (defs : List TableDef) : Bool :=
  defs.any fun
    | .UniqueConstraintTableDef _ => true
    | _ => false

/-- Some column is defined among `defs`. -/
def hasColumn (defs : List TableDef) : Bool :=
  defs.any fun
    | .ColumnTableDef _ => true
    | _ => false

/-- Some index declared among `defs` covers more than one column. -/
def hasCompositeIndex (defs : List TableDef) : Bool :=
  defs.any fun
    | .IndexTableDef d => decide (d.Columns.length > 1)
    | _ => false

/-- The entries of the table definitions `defs` of a schema, in the order of
`defs`: one for each definition whose descriptor can be initialised. -/
def defEntries (sql : Collaborators) (schemaID : Nat) (schema : virtualSchema)
    (defs : List (Nat × virtualSchemaDef)) : List virtualDefEntry :=
  defs.filterMap fun (id, def_) =>
    match def_.initVirtualTableDesc sql schemaID id with
    | .error _ => none
    | .ok tableDesc =>
      some { virtualDef := def_,
             desc := tableDesc,
             validWithNoDatabaseContext := schema.validWithNoDatabaseContext,
             comment := def_.getComment }

/-- The entries of all table definitions of the schemas, schema by schema. -/
def holderEntries (sql : Collaborators) : List (Nat × virtualSchema) → List virtualDefEntry
  | [] => []
  | (schemaID, schema) :: rest =>
    defEntries sql schemaID schema schema.tableDefs ++ holderEntries sql rest

/-- The same schema with its maps visited in another order. -/
def virtualSchema.reordered (s s2 : virtualSchema) : Prop :=
  ∃ defs names, s.tableDefs.Perm defs ∧ s.allTableNames.Perm names ∧
    s2 = { s with tableDefs := defs, allTableNames := names }

/-- The same schemas, with the map of the schemas and the maps of each schema
visited in another order. -/
def reorderedSchemas (schemas schemas2 : List (Nat × virtualSchema)) : Prop :=
  ∃ mid, schemas.Perm mid ∧
    List.Forall₂ (fun a b => a.1 = b.1 ∧ a.2.reordered b.2) mid schemas2

/-- The entry of a table definition whose descriptor is `tableDesc`. -/
def entryOf (schema : virtualSchema) (def_ : virtualSchemaDef) (tableDesc : TableDescriptor) :
    virtualDefEntry :=
  { virtualDef := def_,
    desc := tableDesc,
    validWithNoDatabaseContext := schema.validWithNoDatabaseContext,
    comment := def_.getComment }

/-- The names of the tables registered in a schema, in the order of its
`tableDefs`. -/
def tableNames (sql : Collaborators) (schemaID : Nat) (schema : virtualSchema) : List String :=
  (defEntries sql schemaID schema schema.tableDefs).map fun e => e.desc.Name

/-- The schema entry built for a schema: its tables under their names, the
latest registered first. -/
def schemaEntryOf (sql : Collaborators) (schemaID : Nat) (schema : virtualSchema) :
    virtualSchemaEntry :=
  { desc := initVirtualDatabaseDesc schemaID schema.name,
    defs := (defEntries sql schemaID schema schema.tableDefs).reverse.map
      fun e => (e.desc.Name, e),
    orderedDefNames := sortStrings (tableNames sql schemaID schema),
    allTableNames := schema.allTableNames }

/-- Whether the span check of `addRowIfPassesFilter` lets a row through for
the constraint `c`: the row has a value in every column of the index and the
single-key span on these values is contained in `c`. -/
def passesFilter (table : TableDescriptor) (index : IndexDescriptor) (c : Constraint)
    (row : Row) : Bool :=
  match indexKeyDatums table row index.ColumnIDs with
  | some key => c.ContainsSpan (keySpan key)
  | none => false

/-- The rows the index routine of `index` offers when it is invoked for
`key` (none when the definition has no such routine). -/
def indexRows (d : virtualSchemaTable) (index : IndexDescriptor) (p : planner)
    (dbDesc : Option DatabaseDescriptor) (key : Datum) : List Row :=
  match d.getIndex index.ID with
  | some vi => (vi.populate key p dbDesc).rows
  | none => []

/-- The accepted rows of the point lookups for `keys`, lookup after lookup in
the order of `keys`, each lookup's rows in the order its routine offered
them. -/
def lookupsAccepted (table : TableDescriptor) (index : IndexDescriptor) (d : virtualSchemaTable)
    (c : Constraint) (p : planner) (dbDesc : Option DatabaseDescriptor) : List Datum → List Row
  | [] => []
  | key :: keys =>
    (indexRows d index p dbDesc key).filter (passesFilter table index c) ++
      lookupsAccepted table index d c p dbDesc keys

/-- The value an index routine was invoked with (`none` for an invocation of
the bulk routine). -/
def Call.constraintDatum : Call → Option Datum
  | .index key _ _ _ => some key
  | .populate _ _ => none

/-- What the index routine `vi` returns when the constrained scan of `c`
invokes it for `key`: `(matched, err)`. -/
def lookupResult (e : virtualDefEntry) (table : TableDescriptor) (index : IndexDescriptor)
    (vi : virtualIndex) (p : planner) (dbDesc : Option DatabaseDescriptor) (c : Constraint)
    (key : Datum) : Bool × Option Err :=
  ((vi.populate key p dbDesc).matched,
    routineErr
      (feedRows (addRowIfPassesFilter e table index c) (vi.populate key p dbDesc).rows).2.2
      (vi.populate key p dbDesc).err)

/-- The loop of the constrained scan of `c` gets to the span at position `i`:
every span after it is a single key whose point lookup lets the loop go on. -/
def reachesSpan (e : virtualDefEntry) (table : TableDescriptor) (index : IndexDescriptor)
    (d : virtualSchemaTable) (p : planner) (dbDesc : Option DatabaseDescriptor)
    (c : Constraint) (i : Nat) : Prop :=
  ∀ j, i < j → j < c.Spans.length →
    ∃ key vi, c.Spans[j]? = some (keySpan [key]) ∧ d.getIndex index.ID = some vi ∧
      lookupContinues e table index vi p dbDesc c key = true

/-- The loop of the constrained scan of `c`, once at the span of position `i`,
leaves for the fallback there: the span is not a single key (and its start key
has at most one column), or it is a single key for which a partial index
reports no match. -/
def bailsOutAt (e : virtualDefEntry) (table : TableDescriptor) (index : IndexDescriptor)
    (d : virtualSchemaTable) (p : planner) (dbDesc : Option DatabaseDescriptor)
    (c : Constraint) (i : Nat) : Prop :=
  (∃ span, c.Spans[i]? = some span ∧ ¬ span.StartKey.length > 1 ∧ span.HasSingleKey = false) ∨
  (∃ key vi, c.Spans[i]? = some (keySpan [key]) ∧ d.getIndex index.ID = some vi ∧
    vi.isPartial = true ∧ lookupResult e table index vi p dbDesc c key = (false, none))

/-! ## Concrete tables -/

namespace Sample

/-- The descriptor of a table `kv (k INT NOT NULL, v INT)`. -/
def kvDesc : TableDescriptor :=
  { Name := "kv", ID := 100,
    Columns := [
      { ID := 1, Name := "k", Typ := .IntFamily, Nullable := false },
      { ID := 2, Name := "v", Typ := .IntFamily, Nullable := true }] }

/-- The secondary index of `kv` on `k`, with id 2. -/
def kIndex : IndexDescriptor := { ID := 2, ColumnIDs := [1] }

/-- The primary access path of `kv`, with id 1. -/
def primaryIndex : IndexDescriptor := { ID := 1, ColumnIDs := [1] }

/-- A planner that knows the database `db`. -/
def testPlanner : planner :=
  { GetDatabaseDesc := fun name =>
      if name = "db" then .ok { Name := "db", ID := 50 }
      else .error "database does not exist" }

/-- The row `(k, v)` of integers. -/
def kvRow (k v : Int) : Row := [.DInt k, .DInt v]

/-- The single-key span `k = key`. -/
def pointSpan (key : Int) : Span :=
  Span.Init [.DInt key] .IncludeBoundary [.DInt key] .IncludeBoundary

/-- The range span `lo <= k <= hi`. -/
def rangeSpan (lo hi : Int) : Span :=
  Span.Init [.DInt lo] .IncludeBoundary [.DInt hi] .IncludeBoundary

/-- A bulk routine that emits the given rows and returns nil. -/
def emits (rows : List Row) : planner → Option DatabaseDescriptor → PopulateRun :=
  fun _ _ => { rows := rows, err := none }

/-- A table entry for `kv` with the given definition. -/
def kvEntry (d : virtualSchemaTable) (valid : Bool) : virtualDefEntry :=
  { virtualDef := .table d, desc := kvDesc, comment := "", validWithNoDatabaseContext := valid }

/-- A table definition with neither the bulk nor the streaming routine. -/
def neitherDef : virtualSchemaTable :=
  { schema := "CREATE TABLE kv (k INT NOT NULL, v INT)", comment := "",
    populate := none, indexes := [], generator := none }

/-- A table definition with both the bulk and the streaming routine. -/
def bothDef : virtualSchemaTable :=
  { schema := "CREATE TABLE kv (k INT NOT NULL, v INT)", comment := "",
    populate := some (emits [kvRow 1 10]), indexes := [],
    generator := some fun _ _ => .ok { rows := [kvRow 1 10], err := none } }

/-- A bulk-population definition of `kv` emitting `(1,10)` and `(2,20)`. -/
def bulkDef : virtualSchemaTable :=
  { schema := "CREATE TABLE kv (k INT NOT NULL, v INT)", comment := "",
    populate := some (emits [kvRow 1 10, kvRow 2 20]), indexes := [], generator := none }

/-- A streaming definition of `kv` whose generator yields a row of one value. -/
def streamingDef : virtualSchemaTable :=
  { schema := "CREATE TABLE kv (k INT NOT NULL, v INT)", comment := "",
    populate := none, indexes := [],
    generator := some fun _ _ => .ok { rows := [[.DInt 1]], err := none } }

/-- A bulk-population definition of `kv` with an index routine on `k` that
offers, for every key, the one-value row `(5)`. -/
def overEagerDef : virtualSchemaTable :=
  { schema := "CREATE TABLE kv (k INT NOT NULL, v INT, INDEX (k))", comment := "",
    populate := some (emits [kvRow 1 10]),
    indexes := [{ populate := fun _ _ _ => { rows := [[.DInt 5]], matched := true, err := none },
                  isPartial := false }],
    generator := none }

/-- An index routine on the first column that offers the rows of `rows` with
the requested key, and reports a match when there is one. -/
def lookupIn (rows : List Row) (isPartial : Bool) : virtualIndex :=
  { populate := fun key _ _ =>
      { rows := rows.filter fun row => decide (row[0]? = some key),
        matched := !(rows.filter fun row => decide (row[0]? = some key)).isEmpty,
        err := none },
    isPartial := isPartial }

/-- Rows of `kv` of which the first has a string in the integer column `v`. -/
def rowsWithInvalid : List Row := [[.DInt 2, .DString "x"], kvRow 1 10]

/-- A bulk-population definition of `kv` emitting `rowsWithInvalid`, with a
non-partial index on `k` that agrees with the bulk routine. -/
def invalidRowDef : virtualSchemaTable :=
  { schema := "CREATE TABLE kv (k INT NOT NULL, v INT, INDEX (k))", comment := "",
    populate := some (emits rowsWithInvalid),
    indexes := [lookupIn rowsWithInvalid false], generator := none }

/-- A bulk-population definition of `kv` emitting `(1,10)`, `(2,20)`, `(1,11)`,
with a non-partial index on `k` that agrees with the bulk routine. -/
def indexedDef : virtualSchemaTable :=
  { schema := "CREATE TABLE kv (k INT NOT NULL, v INT, INDEX (k))", comment := "",
    populate := some (emits [kvRow 1 10, kvRow 2 20, kvRow 1 11]),
    indexes := [lookupIn [kvRow 1 10, kvRow 2 20, kvRow 1 11] false], generator := none }

/-- A partial index routine that never finds anything. -/
def missingIndex : virtualIndex :=
  { populate := fun _ _ _ => { rows := [], matched := false, err := none },
    isPartial := true }

/-- A bulk-population definition of `kv` emitting `(1,10)` and `(3,30)`, with a
partial index on `k` whose routine reports no match. -/
def partialDef : virtualSchemaTable :=
  { schema := "CREATE TABLE kv (k INT NOT NULL, v INT, INDEX (k))", comment := "",
    populate := some (emits [kvRow 1 10, kvRow 3 30]),
    indexes := [missingIndex], generator := none }

/-- An index routine on the first column that offers the rows of `rows` with
the requested key and always reports that nothing matched. -/
def misreportingIndex (rows : List Row) : virtualIndex :=
  { populate := fun key _ _ =>
      { rows := rows.filter fun row => decide (row[0]? = some key),
        matched := false, err := none },
    isPartial := true }

/-- A bulk-population definition of `kv` emitting `(3,30)`, with a partial
index on `k` that emits the bulk routine's rows and reports no match. -/
def misreportDef : virtualSchemaTable :=
  { schema := "CREATE TABLE kv (k INT NOT NULL, v INT, INDEX (k))", comment := "",
    populate := some (emits [kvRow 3 30]),
    indexes := [misreportingIndex [kvRow 3 30]], generator := none }

/-- Rows of `kv` of which the first has a string in the integer column `v`
and a key between 5 and 9. -/
def rowsAborting : List Row := [[.DInt 6, .DString "x"], kvRow 7 70, kvRow 20 200]

/-- A bulk-population definition of `kv` emitting `rowsAborting`, with a
non-partial index on `k` that agrees with the bulk routine. -/
def abortingDef : virtualSchemaTable :=
  { schema := "CREATE TABLE kv (k INT NOT NULL, v INT, INDEX (k))", comment := "",
    populate := some (emits rowsAborting),
    indexes := [lookupIn rowsAborting false], generator := none }

/-- A bulk-population definition of `kv` emitting `(1,10)`, `(3,30)`, `(7,70)`,
`(3,31)`, with a partial index on `k` that agrees with the bulk routine. -/
def partialIndexedDef : virtualSchemaTable :=
  { schema := "CREATE TABLE kv (k INT NOT NULL, v INT, INDEX (k))", comment := "",
    populate := some (emits [kvRow 1 10, kvRow 3 30, kvRow 7 70, kvRow 3 31]),
    indexes := [lookupIn [kvRow 1 10, kvRow 3 30, kvRow 7 70, kvRow 3 31] true],
    generator := none }

/-- A span whose start key has two columns: `(1, 1) <= (k, v) <= (1, 9)`. -/
def compositeSpan : Span :=
  Span.Init [.DInt 1, .DInt 1] .IncludeBoundary [.DInt 1, .DInt 9] .IncludeBoundary

/-- A streaming definition of `kv` whose generator yields `(1,10)` and
`(2,20)`. -/
def generatorDef : virtualSchemaTable :=
  { schema := "CREATE TABLE kv (k INT NOT NULL, v INT, INDEX (k))", comment := "",
    populate := none, indexes := [lookupIn [kvRow 1 10, kvRow 2 20] false],
    generator := some fun _ _ => .ok { rows := [kvRow 1 10, kvRow 2 20], err := none } }

/-- The parsed form of `CREATE TABLE kv (k INT NOT NULL, v INT, INDEX (k))`. -/
def kvCreate : CreateTable :=
  { Table := "kv",
    Defs := [
      .ColumnTableDef { Name := "k", Typ := .IntFamily, Nullable := false,
                        HasDefaultExpr := false },
      .ColumnTableDef { Name := "v", Typ := .IntFamily, Nullable := true,
                        HasDefaultExpr := false },
      .IndexTableDef { Name := "kv_k_idx", Columns := ["k"] }] }

/-- The parsed form of `CREATE TABLE t (a INT, b INT, INDEX (a, b))`. -/
def compositeCreate : CreateTable :=
  { Table := "t",
    Defs := [
      .ColumnTableDef { Name := "a", Typ := .IntFamily, Nullable := true,
                        HasDefaultExpr := false },
      .ColumnTableDef { Name := "b", Typ := .IntFamily, Nullable := true,
                        HasDefaultExpr := false },
      .IndexTableDef { Name := "t_a_b_idx", Columns := ["a", "b"] }] }

/-- A parser that knows the statements used below, and a view constructor
that gives the view the id it is asked for. -/
def testSQL : Collaborators :=
  { ParseOne := fun text =>
      if text = "CREATE TABLE kv (k INT NOT NULL, v INT, INDEX (k))" then
        .ok (.CreateTable kvCreate)
      else if text = "CREATE TABLE t (a INT, b INT, INDEX (a, b))" then
        .ok (.CreateTable compositeCreate)
      else if text = "CREATE TABLE kv (k INT NOT NULL, v INT)" then
        .ok (.CreateTable { Table := "kv", Defs := kvCreate.Defs.take 2 })
      else if text = "CREATE TABLE other (k INT NOT NULL, v INT)" then
        .ok (.CreateTable { Table := "other", Defs := kvCreate.Defs.take 2 })
      else .error "syntax error",
    overrideColumnNames := fun columns _ => columns,
    makeViewTableDesc := fun name _ _ id columns =>
      .ok { Name := name, ID := id,
            Columns := columns.map fun c =>
              { ID := 1, Name := c.Name, Typ := c.Typ, Nullable := true } } }

/-- The definition of `kv` with the index on `k`. -/
def kvIndexedTable : virtualSchemaTable :=
  { schema := "CREATE TABLE kv (k INT NOT NULL, v INT, INDEX (k))", comment := "",
    populate := some (emits [kvRow 1 10]), indexes := [], generator := none }

/-- The definition of a table with an index on two columns. -/
def compositeTable : virtualSchemaTable :=
  { schema := "CREATE TABLE t (a INT, b INT, INDEX (a, b))", comment := "",
    populate := some (emits []), indexes := [], generator := none }

/-- The index of `kvIndexedTable` once its stored columns are filled in. -/
def kvStoredIndex : IndexDescriptor :=
  { ID := 2, ColumnIDs := [1], StoreColumnIDs := [2], StoreColumnNames := ["v"] }

/-- The descriptor that `kvIndexedTable` is initialised to under id 100. -/
def kvIndexedDesc : TableDescriptor :=
  { Name := "kv", ID := 100,
    Columns := [
      { ID := 1, Name := "k", Typ := .IntFamily, Nullable := false },
      { ID := 2, Name := "v", Typ := .IntFamily, Nullable := true }],
    Indexes := [kvStoredIndex] }

/-- The definition of `kv` without index. -/
def kvPlainTable : virtualSchemaTable :=
  { schema := "CREATE TABLE kv (k INT NOT NULL, v INT)", comment := "key-value pairs",
    populate := some (emits [kvRow 1 10]), indexes := [], generator := none }

/-- The definition of a second table, `other`. -/
def otherTable : virtualSchemaTable :=
  { schema := "CREATE TABLE other (k INT NOT NULL, v INT)", comment := "",
    populate := some (emits []), indexes := [], generator := none }

/-- The schema `pg_catalog` with the tables `other` and `kv`, visited in this
order; `pg_am` is listed but not defined. -/
def pgCatalog : virtualSchema :=
  { name := "pg_catalog", allTableNames := ["kv", "other", "pg_am"],
    tableDefs := [(101, .table otherTable), (100, .table kvPlainTable)],
    tableValidator := none, validWithNoDatabaseContext := true }

/-- The schema `information_schema` with the table `kv`. -/
def informationSchema : virtualSchema :=
  { name := "information_schema", allTableNames := ["kv"],
    tableDefs := [(102, .table kvPlainTable)],
    tableValidator := none, validWithNoDatabaseContext := false }

/-- Two schemas, `pg_catalog` visited first. -/
def twoSchemas : List (Nat × virtualSchema) := [(2, pgCatalog), (1, informationSchema)]

/-- The schemas of `twoSchemas` with every map visited in the opposite order. -/
def twoSchemasReversed : List (Nat × virtualSchema) :=
  [(1, { name := "information_schema", allTableNames := ["kv"],
         tableDefs := [(102, .table kvPlainTable)],
         tableValidator := none, validWithNoDatabaseContext := false }),
   (2, { name := "pg_catalog", allTableNames := ["pg_am", "other", "kv"],
         tableDefs := [(100, .table kvPlainTable), (101, .table otherTable)],
         tableValidator := none, validWithNoDatabaseContext := true })]

/-- A schema with two table definitions that are both named `kv`. -/
def sameNameSchemas : List (Nat × virtualSchema) :=
  [(1, { name := "s", allTableNames := ["kv"],
         tableDefs := [(100, .table kvPlainTable), (101, .table kvIndexedTable)],
         tableValidator := none, validWithNoDatabaseContext := true })]

/-- The schema of `sameNameSchemas` with its table definitions visited in the
opposite order. -/
def sameNameSchemasReversed : List (Nat × virtualSchema) :=
  [(1, { name := "s", allTableNames := ["kv"],
         tableDefs := [(101, .table kvIndexedTable), (100, .table kvPlainTable)],
         tableValidator := none, validWithNoDatabaseContext := true })]

/-- The database descriptor `testPlanner` resolves `db` to. -/
def dbDesc : Option DatabaseDescriptor := some { Name := "db", ID := 50 }

/-- The node of the constrained scan of `kv` with the definition `d`, on the
index `kIndex` and the constraint `c`, in the database `db`. -/
def scanNode (d : virtualSchemaTable) (c : Constraint) : virtualTableNode :=
  { columns := resultColumns (kvEntry d true),
    scan := constrainedWorker (kvEntry d true) kvDesc kIndex d testPlanner dbDesc c }

/-- An index routine that, invoked for the key 3, offers the row `(1,10)`, and
offers nothing for the other keys. -/
def strayIndex : virtualIndex :=
  { populate := fun key _ _ =>
      if key = .DInt 3 then { rows := [kvRow 1 10], matched := true, err := none }
      else { rows := [], matched := true, err := none },
    isPartial := false }

/-- A bulk-population definition of `kv` emitting `(1,10)` and `(3,30)`, with
the index routine `strayIndex` on `k`. -/
def strayDef : virtualSchemaTable :=
  { schema := "CREATE TABLE kv (k INT NOT NULL, v INT, INDEX (k))", comment := "",
    populate := some (emits [kvRow 1 10, kvRow 3 30]),
    indexes := [strayIndex], generator := none }

/-- A bulk-population definition of `kv` emitting `(3,'x')`, which the
validator rejects, and then `(3,30)`, with a partial index on `k` whose routine
reports no match. -/
def abortingPartialDef : virtualSchemaTable :=
  { schema := "CREATE TABLE kv (k INT NOT NULL, v INT, INDEX (k))", comment := "",
    populate := some (emits [[.DInt 3, .DString "x"], kvRow 3 30]),
    indexes := [missingIndex], generator := none }

/-- A bulk-population definition of `kv` emitting `(1,10)`, `(3,30)`, `(7,70)`,
`(3,31)`, with a partial index on `k` that only knows the row `(7,70)`. -/
def sparseIndexDef : virtualSchemaTable :=
  { schema := "CREATE TABLE kv (k INT NOT NULL, v INT, INDEX (k))", comment := "",
    populate := some (emits [kvRow 1 10, kvRow 3 30, kvRow 7 70, kvRow 3 31]),
    indexes := [lookupIn [kvRow 7 70] true],
    generator := none }

end Sample

/-! ## Lemmas -/

theorem validateColumns_error_isAssertion (name : String) :
    ∀ (cols : List ColumnDescriptor) (datums : List Datum) (err : Err),
      validateColumns name cols datums = .error err → err.isAssertion = true := by
  intro cols
  induction cols with
  | nil => intro datums err h; simp [validateColumns] at h
  | cons col cols ih =>
    intro datums err h
    cases datums with
    | nil => simp [validateColumns] at h
    | cons datum datums =>
      simp only [validateColumns] at h
      split_ifs at h with h1 h2 h3
      · cases h; rfl
      · exact ih _ _ h
      · cases h; rfl
      · exact ih _ _ h

theorem validateColumns_ok_iff (name : String) :
    ∀ (cols : List ColumnDescriptor) (datums : List Datum), datums.length = cols.length →
      (validateColumns name cols datums = .ok () ↔
        ∀ (i : Nat) (datum : Datum) (col : ColumnDescriptor),
          datums[i]? = some datum → cols[i]? = some col →
            (datum = Datum.DNull ∧ col.Nullable = true) ∨
            (datum ≠ Datum.DNull ∧ datum.ResolvedType.Equivalent col.Typ = true)) := by
  intro cols
  induction cols with
  | nil =>
    intro datums hlen
    cases datums with
    | nil => simp [validateColumns]
    | cons d ds => simp at hlen
  | cons col cols ih =>
    intro datums hlen
    cases datums with
    | nil => simp at hlen
    | cons datum datums =>
      have hlen2 : datums.length = cols.length := by simpa using hlen
      simp only [validateColumns]
      constructor
      · intro h i d c hd hc
        split_ifs at h with h1 h2 h3
        · cases i with
          | zero =>
            simp at hd hc; subst hd; subst hc
            left; exact ⟨h1, by simpa using h2⟩
          | succ j =>
            simp at hd hc
            exact (ih datums hlen2).1 h j d c hd hc
        · cases i with
          | zero =>
            simp at hd hc; subst hd; subst hc
            right; exact ⟨h1, by simpa using h3⟩
          | succ j =>
            simp at hd hc
            exact (ih datums hlen2).1 h j d c hd hc
      · intro h
        have h0 := h 0 datum col (by simp) (by simp)
        have hrest : ∀ (i : Nat) (d : Datum) (c : ColumnDescriptor),
            datums[i]? = some d → cols[i]? = some c →
              (d = Datum.DNull ∧ c.Nullable = true) ∨
              (d ≠ Datum.DNull ∧ d.ResolvedType.Equivalent c.Typ = true) := by
          intro i d c hd hc
          exact h (i + 1) d c (by simpa using hd) (by simpa using hc)
        rcases h0 with ⟨hn, hnul⟩ | ⟨hn, heq⟩
        · simp [hn, hnul]
          exact (ih datums hlen2).2 hrest
        · simp [hn, heq]
          exact (ih datums hlen2).2 hrest

theorem validateRow_ok_iff (e : virtualDefEntry) (datums : Row) :
    validateRow e datums = .ok () ↔
      datums.length = (resultColumns e).length ∧
        ∀ (i : Nat) (datum : Datum) (col : ColumnDescriptor) (rc : ResultColumn),
          datums[i]? = some datum → e.desc.Columns[i]? = some col →
            (resultColumns e)[i]? = some rc →
              (datum = Datum.DNull ∧ col.Nullable = true) ∨
              (datum ≠ Datum.DNull ∧ datum.ResolvedType.Equivalent rc.Typ = true) := by
  have hcols : ∀ (i : Nat) (col : ColumnDescriptor), e.desc.Columns[i]? = some col →
      (resultColumns e)[i]? = some { Name := col.Name, Typ := col.Typ } := by
    intro i col h
    simp [resultColumns, h]
  unfold validateRow
  by_cases hlen : datums.length = e.desc.Columns.length
  · simp only [hlen, ne_eq, not_true_eq_false, if_false]
    rw [validateColumns_ok_iff e.desc.Name e.desc.Columns datums hlen]
    constructor
    · intro h
      refine ⟨by simp [resultColumns], ?_⟩
      intro i datum col rc hd hc hrc
      rw [hcols i col hc] at hrc
      cases hrc
      exact h i datum col hd hc
    · rintro ⟨_, h⟩ i datum col hd hc
      exact h i datum col _ hd hc (hcols i col hc)
  · simp only [ne_eq, hlen, not_false_eq_true, if_true]
    constructor
    · intro h; cases h
    · rintro ⟨h, _⟩
      exact absurd (by simpa [resultColumns] using h) hlen

theorem validateRow_error_isAssertion (e : virtualDefEntry) (datums : Row) (err : Err)
    (hres : validateRow e datums = .error err) : err.isAssertion = true := by
  simp only [validateRow] at hres
  split_ifs at hres with hlen
  · cases hres; rfl
  · exact validateColumns_error_isAssertion _ _ _ _ hres

/-- C5: `validateRow` accepts a row exactly when its number of values is the
number of resolved columns and, position by position, the value is NULL in a
nullable column of the descriptor or is not NULL and has a resolved type
equivalent to the column's declared type; whenever it does not accept, what it
returns is an assertion error. -/
theorem validateRow_accepts_iff (e : virtualDefEntry) (datums : Row) :
    (validateRow e datums = .ok () ↔
      datums.length = (resultColumns e).length ∧
        ∀ (i : Nat) (datum : Datum) (col : ColumnDescriptor) (rc : ResultColumn),
          datums[i]? = some datum → e.desc.Columns[i]? = some col →
            (resultColumns e)[i]? = some rc →
              (datum = Datum.DNull ∧ col.Nullable = true) ∨
              (datum ≠ Datum.DNull ∧ datum.ResolvedType.Equivalent rc.Typ = true)) ∧
    (validateRow e datums ≠ .ok () →
      ∃ err, validateRow e datums = .error err ∧ err.isAssertion = true) := by
  refine ⟨validateRow_ok_iff e datums, ?_⟩
  intro hne
  cases hres : validateRow e datums with
  | ok u => cases u; exact absurd hres hne
  | error err => exact ⟨err, rfl, validateRow_error_isAssertion e datums err hres⟩

theorem planVirtualDef_ne_errInvalidDbPrefix (e : virtualDefEntry) (table : TableDescriptor)
    (index : IndexDescriptor) (idxConstraint : Option Constraint) (p : planner)
    (dbDesc : Option DatabaseDescriptor) :
    planVirtualDef e table index idxConstraint p dbDesc ≠ .error errInvalidDbPrefix := by
  unfold planVirtualDef
  cases hdef : e.virtualDef with
  | view v => simp [newInvalidVirtualDefEntryError, errInvalidDbPrefix]
  | table d =>
    by_cases hboth : (d.generator.isSome && d.populate.isSome) = true
    · simp [hboth, newInvalidVirtualSchemaError, errInvalidDbPrefix]
    · simp only [hboth]
      cases hg : d.generator with
      | some g => cases hr : g p dbDesc <;> simp [hr, errInvalidDbPrefix]
      | none =>
        cases idxConstraint with
        | none => simp
        | some c =>
          by_cases hc : c.IsUnconstrained = true
          · simp [hc]
          · by_cases hid : index.ID = 1
            · simp [hc, hid, errConstrainPrimary, errInvalidDbPrefix]
            · simp [hc, hid]

/-- C7: invoked with the empty database name, the constructor returns
`errInvalidDbPrefix`, the undefined-object error "cannot access virtual schema
in anonymous database" with the hint "verify that the current database is
set", exactly when the entry is not marked `validWithNoDatabaseContext`,
whatever the table definition, the index and the constraint are. -/
theorem anonymous_database_rejected_iff (e : virtualDefEntry) (table : TableDescriptor)
    (index : IndexDescriptor) (idxConstraint : Option Constraint) (p : planner) :
    ((getPlanInfo e table index idxConstraint).2 p "" = .error errInvalidDbPrefix ↔
      e.validWithNoDatabaseContext = false) ∧
    errInvalidDbPrefix =
      .withHint
        (.pgerror UndefinedObject "cannot access virtual schema in anonymous database")
        "verify that the current database is set" := by
  refine ⟨?_, rfl⟩
  cases hv : e.validWithNoDatabaseContext with
  | false => simp [getPlanInfo, resolveDatabase, hv]
  | true =>
    simp only [getPlanInfo, resolveDatabase, hv]
    simp
    exact planVirtualDef_ne_errInvalidDbPrefix e table index idxConstraint p none

/-- C8: for a table definition with both the bulk and the streaming routine
set, `getPlanInfo` returns its columns and a constructor, and the constructor,
once the database context is resolved, returns the assertion error
"virtualSchema cannot have both the populate and generator functions defined"
for every index and constraint; no row source is built and no routine runs. -/
theorem both_forms_rejected (e : virtualDefEntry) (d : virtualSchemaTable)
    (table : TableDescriptor) (index : IndexDescriptor) (idxConstraint : Option Constraint)
    (p : planner) (dbName : String) (dbDesc : Option DatabaseDescriptor)
    (hdef : e.virtualDef = .table d) (hpopulate : d.populate.isSome = true)
    (hgenerator : d.generator.isSome = true)
    (hdb : resolveDatabase e p dbName = .ok dbDesc) :
    (getPlanInfo e table index idxConstraint).1 = resultColumns e ∧
    (getPlanInfo e table index idxConstraint).2 p dbName
      = .error newInvalidVirtualSchemaError ∧
    newInvalidVirtualSchemaError = .assertionFailed
      "virtualSchema cannot have both the populate and generator functions defined" := by
  refine ⟨rfl, ?_, rfl⟩
  simp [getPlanInfo, hdb, planVirtualDef, hdef, hpopulate, hgenerator]

theorem both_forms_rejected_witness :
    (getPlanInfo (Sample.kvEntry Sample.bothDef true) Sample.kvDesc Sample.kIndex
        (some ⟨[Sample.pointSpan 1]⟩)).1 = resultColumns (Sample.kvEntry Sample.bothDef true) ∧
    (getPlanInfo (Sample.kvEntry Sample.bothDef true) Sample.kvDesc Sample.kIndex
        (some ⟨[Sample.pointSpan 1]⟩)).2 Sample.testPlanner "db"
      = .error newInvalidVirtualSchemaError ∧
    newInvalidVirtualSchemaError = .assertionFailed
      "virtualSchema cannot have both the populate and generator functions defined" :=
  both_forms_rejected (Sample.kvEntry Sample.bothDef true) Sample.bothDef Sample.kvDesc
    Sample.kIndex (some ⟨[Sample.pointSpan 1]⟩) Sample.testPlanner "db"
    (some { Name := "db", ID := 50 }) rfl rfl rfl rfl

/-- C9: for the table definition `neitherDef`, which has neither routine, the
constructor of an unconstrained scan returns a row source and no error;
draining it ends in the run-time panic of a call through a nil function, which
is not an assertion error. -/
theorem neither_form_not_rejected :
    ∃ node, (getPlanInfo (Sample.kvEntry Sample.neitherDef true) Sample.kvDesc
        Sample.primaryIndex none).2 Sample.testPlanner "db" = .ok node ∧
      node.scan.rows = [] ∧ node.scan.err = some panicNilFunc ∧
      panicNilFunc.isAssertion = false :=
  ⟨_, rfl, rfl, rfl, rfl⟩

/-- C10, as stated, fails: for the bulk-population table `bulkDef`, not marked
valid with no database context, the constraint `k = 1` and the access path
with index id 1, the constructor invoked with the empty database name returns
`errInvalidDbPrefix`, which is not the assertion error about the primary
virtual index. -/
theorem primary_index_error_after_database_check :
    (Constraint.mk [Sample.pointSpan 1]).IsUnconstrained = false ∧
    Sample.primaryIndex.ID = 1 ∧
    (getPlanInfo (Sample.kvEntry Sample.bulkDef false) Sample.kvDesc Sample.primaryIndex
        (some ⟨[Sample.pointSpan 1]⟩)).2 Sample.testPlanner "" = .error errInvalidDbPrefix ∧
    errInvalidDbPrefix ≠ errConstrainPrimary (Sample.kvEntry Sample.bulkDef false) :=
  ⟨by decide, rfl, rfl, by decide⟩

/-- C10, amended: for a table without streaming routine (so for every
bulk-population table) and an access path with index id 1, once the database
context is resolved, the constructor returns the assertion error
"programming error: can't constrain scan on primary virtual index of table
..." and no row source when the constraint is present and not unconstrained;
when the constraint is absent or unconstrained it returns the row source of
the unconstrained scan. -/
theorem primary_index_constraint_rejected (e : virtualDefEntry) (d : virtualSchemaTable)
    (table : TableDescriptor) (index : IndexDescriptor) (c : Constraint)
    (p : planner) (dbName : String) (dbDesc : Option DatabaseDescriptor)
    (hdef : e.virtualDef = .table d) (hgenerator : d.generator = none) (hid : index.ID = 1)
    (hdb : resolveDatabase e p dbName = .ok dbDesc) :
    (c.IsUnconstrained = false →
      (getPlanInfo e table index (some c)).2 p dbName = .error (errConstrainPrimary e)) ∧
    (c.IsUnconstrained = true →
      (getPlanInfo e table index (some c)).2 p dbName =
        .ok { columns := resultColumns e, scan := unconstrainedWorker e d p dbDesc (some c) }) ∧
    (getPlanInfo e table index none).2 p dbName =
      .ok { columns := resultColumns e, scan := unconstrainedWorker e d p dbDesc none } ∧
    errConstrainPrimary e = .assertionFailed
      ("programming error: can't constrain scan on primary virtual index of table " ++
        e.desc.Name) := by
  refine ⟨?_, ?_, ?_, ?_⟩
  · intro hc
    simp [getPlanInfo, hdb, planVirtualDef, hdef, hgenerator, hc, hid]
  · intro hc
    simp [getPlanInfo, hdb, planVirtualDef, hdef, hgenerator, hc]
  · simp [getPlanInfo, hdb, planVirtualDef, hdef, hgenerator]
  · rfl

theorem primary_index_constraint_rejected_witness :
    ((⟨[Sample.pointSpan 1]⟩ : Constraint).IsUnconstrained = false →
      (getPlanInfo (Sample.kvEntry Sample.bulkDef true) Sample.kvDesc Sample.primaryIndex
        (some ⟨[Sample.pointSpan 1]⟩)).2 Sample.testPlanner "db"
        = .error (errConstrainPrimary (Sample.kvEntry Sample.bulkDef true))) ∧
    ((⟨[Sample.pointSpan 1]⟩ : Constraint).IsUnconstrained = true →
      (getPlanInfo (Sample.kvEntry Sample.bulkDef true) Sample.kvDesc Sample.primaryIndex
        (some ⟨[Sample.pointSpan 1]⟩)).2 Sample.testPlanner "db" =
        .ok { columns := resultColumns (Sample.kvEntry Sample.bulkDef true),
              scan := unconstrainedWorker (Sample.kvEntry Sample.bulkDef true) Sample.bulkDef
                Sample.testPlanner (some { Name := "db", ID := 50 })
                (some ⟨[Sample.pointSpan 1]⟩) }) ∧
    (getPlanInfo (Sample.kvEntry Sample.bulkDef true) Sample.kvDesc Sample.primaryIndex
        none).2 Sample.testPlanner "db" =
      .ok { columns := resultColumns (Sample.kvEntry Sample.bulkDef true),
            scan := unconstrainedWorker (Sample.kvEntry Sample.bulkDef true) Sample.bulkDef
              Sample.testPlanner (some { Name := "db", ID := 50 }) none } ∧
    errConstrainPrimary (Sample.kvEntry Sample.bulkDef true) = .assertionFailed
      ("programming error: can't constrain scan on primary virtual index of table " ++
        (Sample.kvEntry Sample.bulkDef true).desc.Name) :=
  primary_index_constraint_rejected (Sample.kvEntry Sample.bulkDef true) Sample.bulkDef
    Sample.kvDesc Sample.primaryIndex ⟨[Sample.pointSpan 1]⟩ Sample.testPlanner "db"
    (some { Name := "db", ID := 50 }) rfl rfl rfl rfl

theorem Datum.Compare_eq_zero_iff (a b : Datum) : a.Compare b = 0 ↔ a = b := by
  cases a with
  | DNull => cases b <;> simp [Datum.Compare]
  | DInt x =>
    cases b with
    | DNull => simp [Datum.Compare]
    | DString y => simp [Datum.Compare]
    | DInt y =>
      simp only [Datum.Compare, Datum.DInt.injEq]
      split_ifs with h1 h2
      · constructor
        · intro h; cases h
        · intro h; omega
      · simp [h2]
      · constructor
        · intro h; cases h
        · intro h; exact absurd h h2
  | DString x =>
    cases b with
    | DNull => simp [Datum.Compare]
    | DInt y => simp [Datum.Compare]
    | DString y =>
      simp only [Datum.Compare, Datum.DString.injEq]
      split_ifs with h1 h2
      · constructor
        · intro h; cases h
        · intro h; exact absurd (h ▸ h1) (lt_irrefl _)
      · simp [h2]
      · constructor
        · intro h; cases h
        · intro h; exact absurd h h2


theorem singleKey_span_eq (span : Span) (key : Datum) (hsingle : span.HasSingleKey = true)
    (hlen : ¬ span.StartKey.length > 1) (hkey : span.StartKey[0]? = some key) :
    span = keySpan [key] := by
  obtain ⟨start, sb, en, eb⟩ := span
  simp only [Span.StartKey] at hlen hkey
  cases start with
  | nil => simp at hkey
  | cons k rest =>
    cases rest with
    | cons k2 rest2 => simp at hlen
    | nil =>
      simp at hkey
      subst hkey
      simp only [Span.HasSingleKey] at hsingle
      cases en with
      | nil => simp at hsingle
      | cons k2 rest2 =>
        cases rest2 with
        | cons k3 rest3 => simp at hsingle
        | nil =>
          cases sb <;> cases eb <;> simp at hsingle
          have := (Datum.Compare_eq_zero_iff _ _).1 hsingle
          subst this
          rfl

theorem keySpan_contains_iff (key d : Datum) :
    (keySpan [key]).Contains (keySpan [d]) = true ↔ d = key := by
  simp only [Span.Contains, keySpan, Span.Init, Span.CompareStarts, Span.CompareEnds,
    Span.startExt, Span.endExt, Key.Compare]
  constructor
  · intro h
    by_cases hc : d.Compare key = 0
    · exact (Datum.Compare_eq_zero_iff _ _).1 hc
    · simp [hc] at h
      omega
  · intro h
    subst h
    have : d.Compare d = 0 := (Datum.Compare_eq_zero_iff _ _).2 rfl
    simp [this]

theorem feedRows_pushed_of (f : Row → Except Err (List Row)) (P : Row → Prop)
    (h : ∀ row out, f row = .ok out → ∀ r ∈ out, P r) :
    ∀ rows, ∀ r ∈ (feedRows f rows).1, P r := by
  intro rows
  induction rows with
  | nil => intro r hr; simp [feedRows] at hr
  | cons row rest ih =>
    intro r hr
    simp only [feedRows] at hr
    cases hf : f row with
    | error err => simp [hf] at hr
    | ok out =>
      simp only [hf, List.mem_append] at hr
      rcases hr with hr | hr
      · exact h row out hf r hr
      · exact ih r hr

theorem feedRows_pushed_of_received (f : Row → Except Err (List Row)) :
    ∀ rows row out, row ∈ (feedRows f rows).2.1 → f row = .ok out →
      ∀ r ∈ out, r ∈ (feedRows f rows).1 := by
  intro rows
  induction rows with
  | nil => intro row out hr; simp [feedRows] at hr
  | cons r rest ih =>
    intro row out hr hf x hx
    simp only [feedRows] at hr ⊢
    cases hfr : f r with
    | error err2 =>
      simp only [hfr, List.mem_singleton] at hr
      subst hr
      rw [hfr] at hf
      cases hf
    | ok out2 =>
      simp only [hfr, List.mem_cons, List.mem_append] at hr ⊢
      rcases hr with hr | hr
      · subst hr
        rw [hfr] at hf
        cases hf
        exact Or.inl hx
      · exact Or.inr (ih row out hr hf x hx)

theorem feedRows_filter (f : Row → Except Err (List Row)) (q : Row → Bool) :
    ∀ rows, (∀ row ∈ rows, f row = .ok (if q row = true then [row] else [])) →
      feedRows f rows = (rows.filter q, rows, none) := by
  intro rows
  induction rows with
  | nil => intro _; rfl
  | cons r rest ih =>
    intro h
    have hr := h r (List.mem_cons_self _ _)
    have hrest := ih (fun row hrow => h row (List.mem_cons_of_mem _ hrow))
    simp only [feedRows, hr, hrest]
    by_cases hq : q r = true
    · simp [hq]
    · simp [hq]

theorem addRowIfPassesFilter_ok (e : virtualDefEntry) (table : TableDescriptor)
    (index : IndexDescriptor) (c : Constraint) (row : Row) (out : List Row)
    (h : addRowIfPassesFilter e table index c row = .ok out) :
    ∀ r ∈ out, r = row ∧ validateRow e row = .ok () ∧
      ∃ key, indexKeyDatums table row index.ColumnIDs = some key ∧
        c.ContainsSpan (keySpan key) = true := by
  intro r hr
  unfold addRowIfPassesFilter at h
  cases hk : indexKeyDatums table row index.ColumnIDs with
  | none => simp [hk] at h
  | some key =>
    simp only [hk, MakeCompositeKey] at h
    by_cases hc : c.ContainsSpan (Span.Init key .IncludeBoundary key .IncludeBoundary) = true
    · simp only [hc, if_true] at h
      cases hv : validateRow e row with
      | error err => simp [hv] at h
      | ok u =>
        simp only [hv] at h
        cases h
        simp at hr
        exact ⟨hr, rfl, key, rfl, hc⟩
    · simp only [hc] at h
      cases h
      simp at hr

theorem addRowIfPassesFilter_of_valid (e : virtualDefEntry) (table : TableDescriptor)
    (index : IndexDescriptor) (c : Constraint) (row : Row) (key : Key)
    (hv : validateRow e row = .ok ())
    (hk : indexKeyDatums table row index.ColumnIDs = some key) :
    addRowIfPassesFilter e table index c row =
      .ok (if c.ContainsSpan (keySpan key) = true then [row] else []) := by
  unfold addRowIfPassesFilter
  simp only [hk, MakeCompositeKey, hv, keySpan]
  split_ifs <;> rfl

theorem constrainedLoop_succ_cases (e : virtualDefEntry) (table : TableDescriptor)
    (index : IndexDescriptor) (d : virtualSchemaTable) (p : planner)
    (dbDesc : Option DatabaseDescriptor) (c : Constraint) (n : Nat) :
    (∃ err, constrainedLoop e table index d p dbDesc c (n + 1) =
        { rows := [], err := some err, calls := [], idxConstraint := some c }) ∨
    (∃ span, c.Spans[n]? = some span ∧ span.HasSingleKey = false ∧
      constrainedLoop e table index d p dbDesc c (n + 1) =
        fallbackScan e table index d p dbDesc c n) ∨
    (∃ key vi, c.Spans[n]? = some (keySpan [key]) ∧ d.getIndex index.ID = some vi ∧
      ((∃ err, routineErr
            (feedRows (addRowIfPassesFilter e table index c) (vi.populate key p dbDesc).rows).2.2
            (vi.populate key p dbDesc).err = some err ∧
          constrainedLoop e table index d p dbDesc c (n + 1) =
            { rows := (feedRows (addRowIfPassesFilter e table index c)
                (vi.populate key p dbDesc).rows).1,
              err := some err,
              calls := [Call.index key
                (feedRows (addRowIfPassesFilter e table index c)
                  (vi.populate key p dbDesc).rows).2.1
                (vi.populate key p dbDesc).matched (some err)],
              idxConstraint := some c }) ∨
       (routineErr
            (feedRows (addRowIfPassesFilter e table index c) (vi.populate key p dbDesc).rows).2.2
            (vi.populate key p dbDesc).err = none ∧
          (vi.populate key p dbDesc).matched = false ∧ vi.isPartial = true ∧
          constrainedLoop e table index d p dbDesc c (n + 1) =
            (fallbackScan e table index d p dbDesc c n).after
              (feedRows (addRowIfPassesFilter e table index c)
                (vi.populate key p dbDesc).rows).1
              (Call.index key
                (feedRows (addRowIfPassesFilter e table index c)
                  (vi.populate key p dbDesc).rows).2.1
                false none)) ∨
       (routineErr
            (feedRows (addRowIfPassesFilter e table index c) (vi.populate key p dbDesc).rows).2.2
            (vi.populate key p dbDesc).err = none ∧
          ((vi.populate key p dbDesc).matched = true ∨ vi.isPartial = false) ∧
          constrainedLoop e table index d p dbDesc c (n + 1) =
            (constrainedLoop e table index d p dbDesc c n).after
              (feedRows (addRowIfPassesFilter e table index c)
                (vi.populate key p dbDesc).rows).1
              (Call.index key
                (feedRows (addRowIfPassesFilter e table index c)
                  (vi.populate key p dbDesc).rows).2.1
                (vi.populate key p dbDesc).matched none)))) := by
  rw [constrainedLoop]
  cases hs : c.Spans[n]? with
  | none => exact Or.inl ⟨_, rfl⟩
  | some span =>
    dsimp only
    by_cases hlen : span.StartKey.length > 1
    · rw [if_pos hlen]; exact Or.inl ⟨_, rfl⟩
    · rw [if_neg hlen]
      cases hsk : span.HasSingleKey with
      | false => exact Or.inr (Or.inl ⟨span, rfl, hsk, rfl⟩)
      | true =>
        have hspan : ∀ key, span.StartKey[0]? = some key → span = keySpan [key] :=
          fun key hk => singleKey_span_eq span key hsk hlen hk
        rw [if_neg (by simp)]
        cases hk : span.StartKey[0]? with
        | none => exact Or.inl ⟨_, rfl⟩
        | some key =>
          dsimp only
          cases hvi : d.getIndex index.ID with
          | none => exact Or.inl ⟨_, rfl⟩
          | some vi =>
            dsimp only
            refine Or.inr (Or.inr ⟨key, vi, by rw [hspan key hk], rfl, ?_⟩)
            cases herr : routineErr
                (feedRows (addRowIfPassesFilter e table index c)
                  (vi.populate key p dbDesc).rows).2.2
                (vi.populate key p dbDesc).err with
            | some err => exact Or.inl ⟨err, rfl, rfl⟩
            | none =>
              dsimp only
              cases hm : (vi.populate key p dbDesc).matched with
              | true =>
                refine Or.inr (Or.inr ⟨rfl, Or.inl rfl, ?_⟩)
                rw [if_neg (by simp)]
              | false =>
                cases hp : vi.isPartial with
                | true =>
                  refine Or.inr (Or.inl ⟨rfl, rfl, rfl, ?_⟩)
                  rw [if_pos (by simp)]
                | false =>
                  refine Or.inr (Or.inr ⟨rfl, Or.inr rfl, ?_⟩)
                  rw [if_neg (by simp)]

theorem fallbackScan_rows_valid (e : virtualDefEntry) (table : TableDescriptor)
    (index : IndexDescriptor) (d : virtualSchemaTable) (p : planner)
    (dbDesc : Option DatabaseDescriptor) (c : Constraint) (n : Nat) :
    ∀ r ∈ (fallbackScan e table index d p dbDesc c n).rows, validateRow e r = .ok () := by
  intro r hr
  unfold fallbackScan at hr
  cases hp : d.populate with
  | none => simp [hp] at hr
  | some populate =>
    simp only [hp] at hr
    refine feedRows_pushed_of _ (fun r => validateRow e r = .ok ()) ?_ _ r hr
    intro row out hout x hx
    obtain ⟨hxr, hv, _⟩ := addRowIfPassesFilter_ok e table index _ row out hout x hx
    rw [hxr]; exact hv

theorem constrainedLoop_rows_valid (e : virtualDefEntry) (table : TableDescriptor)
    (index : IndexDescriptor) (d : virtualSchemaTable) (p : planner)
    (dbDesc : Option DatabaseDescriptor) (c : Constraint) :
    ∀ n, ∀ r ∈ (constrainedLoop e table index d p dbDesc c n).rows,
      validateRow e r = .ok () := by
  have hfed : ∀ rows, ∀ r ∈ (feedRows (addRowIfPassesFilter e table index c) rows).1,
      validateRow e r = .ok () := by
    intro rows
    refine feedRows_pushed_of _ (fun r => validateRow e r = .ok ()) ?_ rows
    intro row out hout x hx
    obtain ⟨hxr, hv, _⟩ := addRowIfPassesFilter_ok e table index _ row out hout x hx
    rw [hxr]; exact hv
  intro n
  induction n with
  | zero => intro r hr; simp [constrainedLoop] at hr
  | succ n ih =>
    intro r hr
    rcases constrainedLoop_succ_cases e table index d p dbDesc c n with
      ⟨err, h⟩ | ⟨span, _, _, h⟩ | ⟨key, vi, _, _, h⟩
    · rw [h] at hr; simp at hr
    · rw [h] at hr; exact fallbackScan_rows_valid e table index d p dbDesc c n r hr
    · rcases h with ⟨err, _, h⟩ | ⟨_, _, _, h⟩ | ⟨_, _, h⟩
      · rw [h] at hr; exact hfed _ r hr
      · rw [h] at hr
        simp only [Scan.after, List.mem_append] at hr
        rcases hr with hr | hr
        · exact hfed _ r hr
        · exact fallbackScan_rows_valid e table index d p dbDesc c n r hr
      · rw [h] at hr
        simp only [Scan.after, List.mem_append] at hr
        rcases hr with hr | hr
        · exact hfed _ r hr
        · exact ih r hr

theorem unconstrainedWorker_rows_valid (e : virtualDefEntry) (d : virtualSchemaTable)
    (p : planner) (dbDesc : Option DatabaseDescriptor) (idxConstraint : Option Constraint) :
    ∀ r ∈ (unconstrainedWorker e d p dbDesc idxConstraint).rows, validateRow e r = .ok () := by
  intro r hr
  unfold unconstrainedWorker at hr
  cases hp : d.populate with
  | none => simp [hp] at hr
  | some populate =>
    simp only [hp] at hr
    refine feedRows_pushed_of _ (fun r => validateRow e r = .ok ()) ?_ _ r hr
    intro row out hout x hx
    cases hv : validateRow e row with
    | error err => simp [hv] at hout
    | ok u =>
      simp only [hv] at hout
      cases hout
      simp at hx
      rw [hx]; exact hv

/-- What the constructor returns for a table without streaming routine, once
the database context is resolved. -/
theorem planVirtualDef_bulk (e : virtualDefEntry) (d : virtualSchemaTable)
    (table : TableDescriptor) (index : IndexDescriptor) (idxConstraint : Option Constraint)
    (p : planner) (dbDesc : Option DatabaseDescriptor) (node : virtualTableNode)
    (hdef : e.virtualDef = .table d) (hgen : d.generator = none)
    (hnode : planVirtualDef e table index idxConstraint p dbDesc = .ok node) :
    (constrainedScan idxConstraint = false ∧
      node.scan = unconstrainedWorker e d p dbDesc idxConstraint) ∨
    (∃ c, idxConstraint = some c ∧ c.IsUnconstrained = false ∧ index.ID ≠ 1 ∧
      node.scan = constrainedWorker e table index d p dbDesc c) := by
  unfold planVirtualDef at hnode
  simp only [hdef, hgen, Option.isSome_none, Bool.false_and, Bool.false_eq_true, if_false]
    at hnode
  cases idxConstraint with
  | none =>
    simp only [Except.ok.injEq] at hnode
    left; exact ⟨rfl, by rw [← hnode]⟩
  | some c =>
    simp only [Bool.not_not] at hnode
    cases hc : c.IsUnconstrained with
    | true =>
      simp only [hc, if_true, Except.ok.injEq] at hnode
      left; exact ⟨by simp [constrainedScan, hc], by rw [← hnode]⟩
    | false =>
      simp only [hc, Bool.false_eq_true, if_false] at hnode
      by_cases hid : index.ID = 1
      · simp [hid] at hnode
      · simp only [hid, if_false, Except.ok.injEq] at hnode
        right; exact ⟨c, rfl, hc, hid, by rw [← hnode]⟩

theorem getPlanInfo_ok (e : virtualDefEntry) (table : TableDescriptor)
    (index : IndexDescriptor) (idxConstraint : Option Constraint) (p : planner)
    (dbName : String) (node : virtualTableNode)
    (hnode : (getPlanInfo e table index idxConstraint).2 p dbName = .ok node) :
    ∃ dbDesc, resolveDatabase e p dbName = .ok dbDesc ∧
      planVirtualDef e table index idxConstraint p dbDesc = .ok node := by
  simp only [getPlanInfo] at hnode
  cases hdb : resolveDatabase e p dbName with
  | error err => simp [hdb] at hnode
  | ok dbDesc =>
    simp only [hdb] at hnode
    exact ⟨dbDesc, rfl, hnode⟩

/-- C6, as stated, fails: the row source of the streaming definition
`streamingDef` hands its consumer the row `(1)`, which `validateRow` rejects
(one value on two columns). -/
theorem generator_row_not_validated :
    ∃ node, (getPlanInfo (Sample.kvEntry Sample.streamingDef true) Sample.kvDesc
        Sample.primaryIndex none).2 Sample.testPlanner "db" = .ok node ∧
      [Datum.DInt 1] ∈ node.scan.rows ∧
      validateRow (Sample.kvEntry Sample.streamingDef true) [Datum.DInt 1]
        = .error (errRowCount 1 2) :=
  ⟨_, rfl, by decide, rfl⟩

/-- C6, amended: for a table without streaming routine (the unconstrained and
the constrained bulk paths), every row that a row source built by
`getPlanInfo` hands to its consumer has passed `validateRow`: it has the arity
of the resolved column list and each value is NULL in a nullable column or of
a type equivalent to the column's type. -/
theorem bulk_rows_validated (e : virtualDefEntry) (d : virtualSchemaTable)
    (table : TableDescriptor) (index : IndexDescriptor) (idxConstraint : Option Constraint)
    (p : planner) (dbName : String) (node : virtualTableNode)
    (hdef : e.virtualDef = .table d) (hgen : d.generator = none)
    (hnode : (getPlanInfo e table index idxConstraint).2 p dbName = .ok node) :
    ∀ row ∈ node.scan.rows,
      validateRow e row = .ok () ∧
      row.length = (resultColumns e).length ∧
      ∀ (i : Nat) (datum : Datum) (col : ColumnDescriptor) (rc : ResultColumn),
        row[i]? = some datum → e.desc.Columns[i]? = some col →
          (resultColumns e)[i]? = some rc →
            (datum = Datum.DNull ∧ col.Nullable = true) ∨
            (datum ≠ Datum.DNull ∧ datum.ResolvedType.Equivalent rc.Typ = true) := by
  intro row hrow
  have hv : validateRow e row = .ok () := by
    obtain ⟨dbDesc, _, hplan⟩ := getPlanInfo_ok e table index idxConstraint p dbName node hnode
    rcases planVirtualDef_bulk e d table index idxConstraint p dbDesc node hdef hgen hplan with
      ⟨_, hscan⟩ | ⟨c, _, _, _, hscan⟩
    · rw [hscan] at hrow
      exact unconstrainedWorker_rows_valid e d p dbDesc idxConstraint row hrow
    · rw [hscan] at hrow
      exact constrainedLoop_rows_valid e table index d p dbDesc c _ row hrow
  exact ⟨hv, (validateRow_ok_iff e row).1 hv⟩

theorem bulk_rows_validated_witness :
    validateRow (Sample.kvEntry Sample.bulkDef true) (Sample.kvRow 1 10) = .ok () ∧
    (Sample.kvRow 1 10).length = (resultColumns (Sample.kvEntry Sample.bulkDef true)).length ∧
    ∀ (i : Nat) (datum : Datum) (col : ColumnDescriptor) (rc : ResultColumn),
      (Sample.kvRow 1 10)[i]? = some datum →
        (Sample.kvEntry Sample.bulkDef true).desc.Columns[i]? = some col →
          (resultColumns (Sample.kvEntry Sample.bulkDef true))[i]? = some rc →
            (datum = Datum.DNull ∧ col.Nullable = true) ∨
            (datum ≠ Datum.DNull ∧ datum.ResolvedType.Equivalent rc.Typ = true) :=
  bulk_rows_validated (Sample.kvEntry Sample.bulkDef true) Sample.bulkDef
    Sample.kvDesc Sample.primaryIndex none Sample.testPlanner "db"
    { columns := resultColumns (Sample.kvEntry Sample.bulkDef true),
      scan := unconstrainedWorker (Sample.kvEntry Sample.bulkDef true) Sample.bulkDef
        Sample.testPlanner (some { Name := "db", ID := 50 }) none }
    rfl rfl rfl (Sample.kvRow 1 10) (by decide)

theorem indexKeyDatums_single (table : TableDescriptor) (row : Row) (cid : Nat) :
    indexKeyDatums table row [cid] = (row[table.ColumnIdxMap cid]?).map fun d => [d] := by
  simp only [indexKeyDatums]
  cases row[table.ColumnIdxMap cid]? <;> rfl

theorem validateRow_length (e : virtualDefEntry) (row : Row)
    (h : validateRow e row = .ok ()) : row.length = e.desc.Columns.length := by
  simp only [validateRow] at h
  by_contra hlen
  simp [hlen] at h

theorem keySpan_hasSingleKey (key : Datum) : (keySpan [key]).HasSingleKey = true := by
  have : key.Compare key = 0 := (Datum.Compare_eq_zero_iff _ _).2 rfl
  simp [keySpan, Span.Init, Span.HasSingleKey, this]

theorem containsSpan_singleton (key d : Datum) :
    (Constraint.mk [keySpan [key]]).ContainsSpan (keySpan [d]) = true ↔ d = key := by
  simp only [Constraint.ContainsSpan, List.any_cons, List.any_nil, Bool.or_false]
  exact keySpan_contains_iff key d

theorem unconstrainedWorker_rows_of_valid (e : virtualDefEntry) (d : virtualSchemaTable)
    (p : planner) (dbDesc : Option DatabaseDescriptor) (idxConstraint : Option Constraint)
    (populate : planner → Option DatabaseDescriptor → PopulateRun)
    (hpop : d.populate = some populate)
    (hvalid : ∀ row ∈ (populate p dbDesc).rows, validateRow e row = .ok ()) :
    (unconstrainedWorker e d p dbDesc idxConstraint).rows = (populate p dbDesc).rows := by
  unfold unconstrainedWorker
  simp only [hpop]
  rw [feedRows_filter _ (fun _ => true) (populate p dbDesc).rows]
  · simp
  · intro row hrow
    simp [hvalid row hrow]

/-- C1, as stated, fails: the bulk routine of `invalidRowDef` emits
`(2,'x')`, which the validator rejects, and then `(1,10)`; its non-partial
index routine emits, for every key, the bulk routine's rows with that key. The
scan constrained to `k = 1` emits `(1,10)`, while the unconstrained scan stops
at the first row and emits no row with `k = 1`. -/
theorem single_key_scan_differs :
    (∀ (key : Datum) (dbDesc : Option DatabaseDescriptor),
      ((Sample.lookupIn Sample.rowsWithInvalid false).populate key Sample.testPlanner
          dbDesc).rows =
        (Sample.emits Sample.rowsWithInvalid Sample.testPlanner dbDesc).rows.filter
          fun row => decide (row[Sample.kvDesc.ColumnIdxMap 1]? = some key)) ∧
    Sample.invalidRowDef.getIndex Sample.kIndex.ID
      = some (Sample.lookupIn Sample.rowsWithInvalid false) ∧
    (Sample.pointSpan 1).HasSingleKey = true ∧
    ∃ node nodeU,
      (getPlanInfo (Sample.kvEntry Sample.invalidRowDef true) Sample.kvDesc Sample.kIndex
        (some ⟨[Sample.pointSpan 1]⟩)).2 Sample.testPlanner "db" = .ok node ∧
      (getPlanInfo (Sample.kvEntry Sample.invalidRowDef true) Sample.kvDesc Sample.kIndex
        none).2 Sample.testPlanner "db" = .ok nodeU ∧
      node.scan.rows = [Sample.kvRow 1 10] ∧
      (nodeU.scan.rows.filter
        fun row => decide (row[Sample.kvDesc.ColumnIdxMap 1]? = some (Datum.DInt 1))) = [] :=
  ⟨fun _ _ => rfl, rfl, by decide, _, _, rfl, rfl, by decide, by decide⟩

/-- C1, amended: for a bulk-population table whose bulk routine emits only
rows that pass the row validator, with a non-partial secondary index on one
column whose routine, given the key, emits exactly the rows the bulk routine
emits with that key in the indexed column, and for the constraint made of one
single-key span on that key: the constrained scan and the unconstrained scan
are both built, and the rows the constrained scan emits are, as a multiset,
the rows the unconstrained scan emits whose indexed-column value is the key. -/
theorem single_key_scan_eq_filtered (e : virtualDefEntry) (d : virtualSchemaTable)
    (table : TableDescriptor) (index : IndexDescriptor)
    (populate : planner → Option DatabaseDescriptor → PopulateRun) (vi : virtualIndex)
    (span : Span) (key : Datum) (cid : Nat) (p : planner) (dbName : String)
    (dbDesc : Option DatabaseDescriptor)
    (hdef : e.virtualDef = .table d) (hpop : d.populate = some populate)
    (hgen : d.generator = none) (hid : index.ID ≠ 1)
    (hvi : d.getIndex index.ID = some vi) (hnp : vi.isPartial = false)
    (hcols : index.ColumnIDs = [cid])
    (hsingle : span.HasSingleKey = true) (hkey : span.StartKey = [key])
    (hdb : resolveDatabase e p dbName = .ok dbDesc)
    (hagree : ((vi.populate key p dbDesc).rows).Perm
      ((populate p dbDesc).rows.filter
        fun row => decide (row[table.ColumnIdxMap cid]? = some key)))
    (hvalid : ∀ row ∈ (populate p dbDesc).rows, validateRow e row = .ok ()) :
    ∃ node nodeU,
      (getPlanInfo e table index (some ⟨[span]⟩)).2 p dbName = .ok node ∧
      (getPlanInfo e table index none).2 p dbName = .ok nodeU ∧
      node.scan.rows.Perm
        (nodeU.scan.rows.filter fun row => decide (row[table.ColumnIdxMap cid]? = some key)) := by
  have hspan : span = keySpan [key] :=
    singleKey_span_eq span key hsingle (by simp [hkey]) (by simp [hkey])
  subst hspan
  have hunc : (Constraint.mk [keySpan [key]]).IsUnconstrained = false := by
    simp [Constraint.IsUnconstrained, Span.IsUnconstrained, keySpan, Span.Init]
  refine ⟨{ columns := resultColumns e,
            scan := constrainedWorker e table index d p dbDesc ⟨[keySpan [key]]⟩ },
          { columns := resultColumns e, scan := unconstrainedWorker e d p dbDesc none },
          ?_, ?_, ?_⟩
  · simp [getPlanInfo, hdb, planVirtualDef, hdef, hgen, hunc, hid]
  · simp [getPlanInfo, hdb, planVirtualDef, hdef, hgen]
  · dsimp only
    rw [unconstrainedWorker_rows_of_valid e d p dbDesc none populate hpop hvalid]
    have hfed : feedRows (addRowIfPassesFilter e table index ⟨[keySpan [key]]⟩)
        (vi.populate key p dbDesc).rows
        = ((vi.populate key p dbDesc).rows.filter (fun _ => true),
            (vi.populate key p dbDesc).rows, none) := by
      apply feedRows_filter
      intro row hrow
      have hmem := (hagree.mem_iff).1 hrow
      rw [List.mem_filter] at hmem
      obtain ⟨hbulk, hk⟩ := hmem
      have hk2 : row[table.ColumnIdxMap cid]? = some key := by simpa using hk
      have hkd : indexKeyDatums table row index.ColumnIDs = some [key] := by
        rw [hcols, indexKeyDatums_single, hk2]; rfl
      rw [addRowIfPassesFilter_of_valid e table index _ row [key] (hvalid row hbulk) hkd]
      simp [(containsSpan_singleton key key).2 rfl]
    have hrows : (constrainedWorker e table index d p dbDesc ⟨[keySpan [key]]⟩).rows
        = (vi.populate key p dbDesc).rows := by
      have hk0 : (keySpan [key]).StartKey[0]? = some key := rfl
      have hlen : ¬ (keySpan [key]).StartKey.length > 1 := by simp [keySpan, Span.Init, Span.StartKey]
      simp only [constrainedWorker, List.length_singleton]
      rw [constrainedLoop]
      simp only [List.getElem?_cons_zero, hlen, if_false, keySpan_hasSingleKey, Bool.not_true,
        Bool.false_eq_true, hk0, hvi, hfed, hnp, Bool.and_false]
      cases routineErr none (vi.populate key p dbDesc).err with
      | some err => simp
      | none => simp [Scan.after, constrainedLoop]
    rw [hrows]
    exact hagree

theorem single_key_scan_eq_filtered_witness :
    ∃ node nodeU,
      (getPlanInfo (Sample.kvEntry Sample.indexedDef true) Sample.kvDesc Sample.kIndex
        (some ⟨[Sample.pointSpan 1]⟩)).2 Sample.testPlanner "db" = .ok node ∧
      (getPlanInfo (Sample.kvEntry Sample.indexedDef true) Sample.kvDesc Sample.kIndex
        none).2 Sample.testPlanner "db" = .ok nodeU ∧
      node.scan.rows.Perm
        (nodeU.scan.rows.filter
          fun row => decide (row[Sample.kvDesc.ColumnIdxMap 1]? = some (Datum.DInt 1))) :=
  single_key_scan_eq_filtered (Sample.kvEntry Sample.indexedDef true) Sample.indexedDef
    Sample.kvDesc Sample.kIndex (Sample.emits [Sample.kvRow 1 10, Sample.kvRow 2 20,
      Sample.kvRow 1 11])
    (Sample.lookupIn [Sample.kvRow 1 10, Sample.kvRow 2 20, Sample.kvRow 1 11] false)
    (Sample.pointSpan 1) (.DInt 1) 1 Sample.testPlanner "db" (some { Name := "db", ID := 50 })
    rfl rfl rfl (by decide) rfl rfl rfl (by decide) rfl rfl
    (List.Perm.refl _)
    (by
      intro row hrow
      simp only [Sample.emits, List.mem_cons, List.mem_singleton, List.not_mem_nil,
        or_false] at hrow
      rcases hrow with rfl | rfl | rfl <;> rfl)

theorem truncate_containsSpan (c : Constraint) (n : Nat) (s sp : Span)
    (hs : c.Spans[n]? = some s) (hin : s.Contains sp = true) :
    (c.Truncate (n + 1)).ContainsSpan sp = true := by
  simp only [Constraint.ContainsSpan, Constraint.Truncate, List.any_eq_true]
  refine ⟨s, ?_, hin⟩
  have : (c.Spans.take (n + 1))[n]? = some s := by
    rw [List.getElem?_take_of_lt (Nat.lt_succ_self n)]
    exact hs
  exact List.getElem?_mem this

theorem feedRows_received_all (f : Row → Except Err (List Row)) :
    ∀ rows, (feedRows f rows).2.2 = none → (feedRows f rows).2.1 = rows := by
  intro rows
  induction rows with
  | nil => intro _; rfl
  | cons r rest ih =>
    intro h
    simp only [feedRows] at h ⊢
    cases hfr : f r with
    | error err => simp [hfr] at h
    | ok out =>
      simp only [hfr] at h ⊢
      rw [ih h]

theorem routineErr_none (callbackErr : Option Err) (own : Option String)
    (h : routineErr callbackErr own = none) : callbackErr = none := by
  cases callbackErr with
  | none => rfl
  | some err => simp [routineErr] at h

theorem fallbackScan_emits (e : virtualDefEntry) (table : TableDescriptor)
    (index : IndexDescriptor) (d : virtualSchemaTable) (p : planner)
    (dbDesc : Option DatabaseDescriptor) (c : Constraint) (n : Nat)
    (populate : planner → Option DatabaseDescriptor → PopulateRun)
    (hpop : d.populate = some populate) :
    ∃ received err,
      (fallbackScan e table index d p dbDesc c n).calls = [Call.populate received err] ∧
      ((fallbackScan e table index d p dbDesc c n).err = none →
        received = (populate p dbDesc).rows) ∧
      ∀ row ∈ received, validateRow e row = .ok () →
        ∀ k, indexKeyDatums table row index.ColumnIDs = some k →
          (c.Truncate (n + 1)).ContainsSpan (keySpan k) = true →
            row ∈ (fallbackScan e table index d p dbDesc c n).rows := by
  unfold fallbackScan
  simp only [hpop]
  refine ⟨_, _, rfl, ?_, ?_⟩
  · intro herr
    exact feedRows_received_all _ _ (routineErr_none _ _ herr)
  · intro row hrow hv k hk hin
    have hadd := addRowIfPassesFilter_of_valid e table index (c.Truncate (n + 1)) row k hv hk
    rw [if_pos hin] at hadd
    exact feedRows_pushed_of_received _ _ row [row] hrow hadd row (List.mem_singleton.2 rfl)

theorem unconstrainedWorker_calls (e : virtualDefEntry) (d : virtualSchemaTable)
    (p : planner) (dbDesc : Option DatabaseDescriptor) (idxConstraint : Option Constraint) :
    ∀ call ∈ (unconstrainedWorker e d p dbDesc idxConstraint).calls,
      ∃ received err, call = Call.populate received err := by
  intro call hcall
  unfold unconstrainedWorker at hcall
  cases hp : d.populate with
  | none => simp [hp] at hcall
  | some populate =>
    simp only [hp, List.mem_singleton] at hcall
    exact ⟨_, _, hcall⟩

theorem count_filter_ite (q : Row → Bool) (row : Row) (l : List Row) :
    (l.filter q).count row = if q row = true then l.count row else 0 := by
  by_cases hq : q row = true
  · rw [if_pos hq, List.count_filter hq]
  · rw [if_neg hq, List.count_eq_zero]
    intro hmem
    exact hq (List.mem_filter.1 hmem).2

theorem perm_count_row {l₁ l₂ : List Row} (h : l₁.Perm l₂) (row : Row) :
    l₁.count row = l₂.count row := by
  simp only [List.count]
  exact h.countP_eq _

theorem truncate_succ_containsSpan (c : Constraint) (n : Nat) (s sp : Span)
    (hs : c.Spans[n]? = some s) :
    (c.Truncate (n + 1)).ContainsSpan sp =
      ((c.Truncate n).ContainsSpan sp || s.Contains sp) := by
  simp [Constraint.ContainsSpan, Constraint.Truncate, List.take_succ, hs]

theorem truncate_containsSpan_index (c : Constraint) (n : Nat) (sp : Span)
    (h : (c.Truncate n).ContainsSpan sp = true) :
    ∃ j s, j < n ∧ c.Spans[j]? = some s ∧ s.Contains sp = true := by
  simp only [Constraint.ContainsSpan, Constraint.Truncate, List.any_eq_true] at h
  obtain ⟨s, hmem, hin⟩ := h
  obtain ⟨j, hj⟩ := List.mem_iff_getElem?.1 hmem
  rw [List.getElem?_take] at hj
  by_cases hlt : j < n
  · rw [if_pos hlt] at hj
    exact ⟨j, s, hlt, hj, hin⟩
  · rw [if_neg hlt] at hj
    cases hj

theorem fallbackScan_rows_of_valid (e : virtualDefEntry) (table : TableDescriptor)
    (index : IndexDescriptor) (d : virtualSchemaTable) (p : planner)
    (dbDesc : Option DatabaseDescriptor) (c : Constraint) (n : Nat) (cid : Nat)
    (populate : planner → Option DatabaseDescriptor → PopulateRun)
    (hpop : d.populate = some populate) (hcols : index.ColumnIDs = [cid])
    (hord : table.ColumnIdxMap cid < e.desc.Columns.length)
    (hvalid : ∀ row ∈ (populate p dbDesc).rows, validateRow e row = .ok ()) :
    (fallbackScan e table index d p dbDesc c n).rows =
      (populate p dbDesc).rows.filter
        (inConstraint (table.ColumnIdxMap cid) (c.Truncate (n + 1))) := by
  unfold fallbackScan
  simp only [hpop]
  rw [feedRows_filter _ (inConstraint (table.ColumnIdxMap cid) (c.Truncate (n + 1)))]
  intro row hrow
  have hv := hvalid row hrow
  have hlen := validateRow_length e row hv
  have hlt : table.ColumnIdxMap cid < row.length := by rw [hlen]; exact hord
  have hget : row[table.ColumnIdxMap cid]? = some (row[table.ColumnIdxMap cid]) :=
    List.getElem?_eq_getElem hlt
  have hkd : indexKeyDatums table row index.ColumnIDs = some [row[table.ColumnIdxMap cid]] := by
    rw [hcols, indexKeyDatums_single, hget]; rfl
  rw [addRowIfPassesFilter_of_valid e table index _ row _ hv hkd]
  simp [inConstraint, hget]

theorem constrainedLoop_count (e : virtualDefEntry) (table : TableDescriptor)
    (index : IndexDescriptor) (d : virtualSchemaTable) (p : planner)
    (dbDesc : Option DatabaseDescriptor) (c : Constraint) (cid : Nat)
    (populate : planner → Option DatabaseDescriptor → PopulateRun)
    (hpop : d.populate = some populate) (hcols : index.ColumnIDs = [cid])
    (hord : table.ColumnIdxMap cid < e.desc.Columns.length)
    (hvalid : ∀ row ∈ (populate p dbDesc).rows, validateRow e row = .ok ())
    (hagree : ∀ vi, d.getIndex index.ID = some vi → ∀ key,
      ((vi.populate key p dbDesc).rows).Perm
        ((populate p dbDesc).rows.filter
          fun row => decide (row[table.ColumnIdxMap cid]? = some key)))
    (htruth : ∀ vi, d.getIndex index.ID = some vi → vi.isPartial = true → ∀ key,
      (vi.populate key p dbDesc).matched = false → (vi.populate key p dbDesc).rows = [])
    (hdisj : c.SpansDisjoint) :
    ∀ n, (∃ received err,
        Call.populate received err ∈ (constrainedLoop e table index d p dbDesc c n).calls) →
      ∀ row, (constrainedLoop e table index d p dbDesc c n).rows.count row =
        if inConstraint (table.ColumnIdxMap cid) (c.Truncate n) row = true
        then (populate p dbDesc).rows.count row else 0 := by
  have hfall : ∀ n row, (fallbackScan e table index d p dbDesc c n).rows.count row =
      if inConstraint (table.ColumnIdxMap cid) (c.Truncate (n + 1)) row = true
      then (populate p dbDesc).rows.count row else 0 := by
    intro n row
    rw [fallbackScan_rows_of_valid e table index d p dbDesc c n cid populate hpop hcols hord
      hvalid, count_filter_ite]
  -- a point lookup on span `n` with key `key` pushes all the rows of the index routine
  have hlookup : ∀ (n : Nat) (key : Datum) (vi : virtualIndex),
      c.Spans[n]? = some (keySpan [key]) →
      d.getIndex index.ID = some vi →
      (feedRows (addRowIfPassesFilter e table index c) (vi.populate key p dbDesc).rows).1
        = (vi.populate key p dbDesc).rows := by
    intro n key vi hspan hvi
    have hfed : feedRows (addRowIfPassesFilter e table index c) (vi.populate key p dbDesc).rows
        = ((vi.populate key p dbDesc).rows.filter (fun _ => true),
            (vi.populate key p dbDesc).rows, none) := by
      apply feedRows_filter
      intro row hrow
      have hmem := ((hagree vi hvi key).mem_iff).1 hrow
      rw [List.mem_filter] at hmem
      obtain ⟨hbulk, hk⟩ := hmem
      have hk2 : row[table.ColumnIdxMap cid]? = some key := by simpa using hk
      have hkd : indexKeyDatums table row index.ColumnIDs = some [key] := by
        rw [hcols, indexKeyDatums_single, hk2]; rfl
      rw [addRowIfPassesFilter_of_valid e table index _ row [key] (hvalid row hbulk) hkd]
      have hin : c.ContainsSpan (keySpan [key]) = true := by
        simp only [Constraint.ContainsSpan, List.any_eq_true]
        exact ⟨keySpan [key], List.getElem?_mem hspan, (keySpan_contains_iff key key).2 rfl⟩
      simp [hin]
    rw [hfed]; simp
  intro n
  induction n with
  | zero => rintro ⟨received, err, h⟩; simp [constrainedLoop] at h
  | succ n ih =>
    rintro ⟨received, err, hcall⟩ row
    rcases constrainedLoop_succ_cases e table index d p dbDesc c n with
      ⟨err0, h⟩ | ⟨span, _, _, h⟩ | ⟨key, vi, hspan, hvi, h⟩
    · rw [h] at hcall; simp at hcall
    · rw [h]; exact hfall n row
    · rcases h with ⟨err1, _, h⟩ | ⟨_, hm, hp, h⟩ | ⟨_, _, h⟩
      · rw [h] at hcall; simp at hcall
      · rw [h]
        simp only [Scan.after]
        rw [hlookup n key vi hspan hvi, htruth vi hvi hp key hm, List.nil_append]
        exact hfall n row
      · rw [h] at hcall ⊢
        simp only [Scan.after, List.mem_cons] at hcall ⊢
        have htail : ∃ received err,
            Call.populate received err ∈ (constrainedLoop e table index d p dbDesc c n).calls := by
          rcases hcall with hhead | htail
          · cases hhead
          · exact ⟨received, err, htail⟩
        rw [hlookup n key vi hspan hvi, List.count_append, ih htail row,
          perm_count_row (hagree vi hvi key), count_filter_ite]
        cases hrow : row[table.ColumnIdxMap cid]? with
        | none => simp [inConstraint, hrow]
        | some value =>
          simp only [inConstraint, hrow, truncate_succ_containsSpan c n _ _ hspan,
            keySpan_contains_iff, Bool.or_eq_true, decide_eq_true_eq, Option.some.injEq]
          by_cases hv : value = key
          · have hnot : ¬ (c.Truncate n).ContainsSpan (keySpan [value]) = true := by
              intro hin
              obtain ⟨j, s, hj, hs, hsin⟩ := truncate_containsSpan_index c n _ hin
              exact hdisj j n s (keySpan [key]) hs hspan (Nat.ne_of_lt hj) value
                ⟨hsin, (keySpan_contains_iff key value).2 hv⟩
            simp [hv, hnot, hv ▸ hnot]
          · by_cases hin : (c.Truncate n).ContainsSpan (keySpan [value]) = true
            · simp [hv, hin]
            · simp [hv, hin]

theorem spansDisjoint_singleton (s : Span) : (Constraint.mk [s]).SpansDisjoint := by
  intro i j si sj hi hj hne
  cases i with
  | succ i => simp at hi
  | zero =>
    cases j with
    | succ j => simp at hj
    | zero => exact absurd rfl hne

theorem spansDisjoint_pair (s t : Span)
    (h : ∀ value : Datum,
      ¬ (s.Contains (keySpan [value]) = true ∧ t.Contains (keySpan [value]) = true)) :
    (Constraint.mk [s, t]).SpansDisjoint := by
  intro i j si sj hi hj hne value hboth
  obtain ⟨h1, h2⟩ := hboth
  have hcase : (si = s ∧ sj = t) ∨ (si = t ∧ sj = s) := by
    rcases i with _ | _ | i <;> rcases j with _ | _ | j <;> simp at hi hj hne ⊢ <;>
      simp [← hi, ← hj]
  rcases hcase with ⟨rfl, rfl⟩ | ⟨rfl, rfl⟩
  · exact h value ⟨h1, h2⟩
  · exact h value ⟨h2, h1⟩

theorem range_point_disjoint (lo hi key : Int)
    (h : (Sample.rangeSpan lo hi).Contains (keySpan [Datum.DInt key]) = false) :
    (Constraint.mk [Sample.rangeSpan lo hi, Sample.pointSpan key]).SpansDisjoint := by
  apply spansDisjoint_pair
  intro value hboth
  obtain ⟨h1, h2⟩ := hboth
  have hv : value = Datum.DInt key := (keySpan_contains_iff (.DInt key) value).1 h2
  subst hv
  rw [h] at h1
  cases h1

/-- C3, as stated, fails, in two ways. The bulk routine of `abortingDef` emits
`(6,'x')`, which the validator rejects, then `(7,70)` and `(20,200)`, and its
index routine agrees with it; on the disjoint spans `5 <= k <= 9` and `k = 20`
the point lookup emits `(20,200)` and the scan bails out to the fallback,
which stops at its first row: `(7,70)` lies in the constraint and is a row of
the bulk routine, but the scan does not emit it. The partial index routine of
`misreportDef` emits the bulk routine's rows for a key but reports no match;
on the constraint `k = 3` the row `(3,30)` is emitted by the point lookup and
again by the fallback. -/
theorem fallback_row_counts_differ :
    ((∀ (key : Datum) (dbDesc : Option DatabaseDescriptor),
        ((Sample.lookupIn Sample.rowsAborting false).populate key Sample.testPlanner
            dbDesc).rows =
          (Sample.emits Sample.rowsAborting Sample.testPlanner dbDesc).rows.filter
            fun row => decide (row[Sample.kvDesc.ColumnIdxMap 1]? = some key)) ∧
      (Constraint.mk [Sample.rangeSpan 5 9, Sample.pointSpan 20]).SpansDisjoint ∧
      ∃ node,
        (getPlanInfo (Sample.kvEntry Sample.abortingDef true) Sample.kvDesc Sample.kIndex
          (some ⟨[Sample.rangeSpan 5 9, Sample.pointSpan 20]⟩)).2 Sample.testPlanner "db"
          = .ok node ∧
        node.scan.calls =
          [Call.index (.DInt 20) [Sample.kvRow 20 200] true none,
            Call.populate [[.DInt 6, .DString "x"]]
              (some (.assertionFailed
                "datum column \"v\" expected to be type int; found type string"))] ∧
        node.scan.rows = [Sample.kvRow 20 200] ∧
        inConstraint (Sample.kvDesc.ColumnIdxMap 1)
          ⟨[Sample.rangeSpan 5 9, Sample.pointSpan 20]⟩ (Sample.kvRow 7 70) = true ∧
        node.scan.rows.count (Sample.kvRow 7 70) = 0 ∧
        Sample.rowsAborting.count (Sample.kvRow 7 70) = 1) ∧
    ((∀ (key : Datum) (dbDesc : Option DatabaseDescriptor),
        ((Sample.misreportingIndex [Sample.kvRow 3 30]).populate key Sample.testPlanner
            dbDesc).rows =
          (Sample.emits [Sample.kvRow 3 30] Sample.testPlanner dbDesc).rows.filter
            fun row => decide (row[Sample.kvDesc.ColumnIdxMap 1]? = some key)) ∧
      (Constraint.mk [Sample.pointSpan 3]).SpansDisjoint ∧
      ∃ node,
        (getPlanInfo (Sample.kvEntry Sample.misreportDef true) Sample.kvDesc Sample.kIndex
          (some ⟨[Sample.pointSpan 3]⟩)).2 Sample.testPlanner "db" = .ok node ∧
        node.scan.calls =
          [Call.index (.DInt 3) [Sample.kvRow 3 30] false none,
            Call.populate [Sample.kvRow 3 30] none] ∧
        inConstraint (Sample.kvDesc.ColumnIdxMap 1) ⟨[Sample.pointSpan 3]⟩
          (Sample.kvRow 3 30) = true ∧
        node.scan.rows.count (Sample.kvRow 3 30) = 2 ∧
        [Sample.kvRow 3 30].count (Sample.kvRow 3 30) = 1) :=
  ⟨⟨fun _ _ => rfl, range_point_disjoint 5 9 20 (by decide), _, rfl, by decide, by decide,
      by decide, by decide, by decide⟩,
    ⟨fun _ _ => rfl, spansDisjoint_singleton _, _, rfl, by decide, by decide, by decide,
      by decide⟩⟩

/-- C3, amended: for a bulk-population table whose bulk routine emits only
rows that pass the row validator, with an index on one column whose routine,
for every key, emits exactly the rows the bulk routine emits with that key
and, when the index is partial, reports a match whenever it emits a row, and
for a constraint with pairwise disjoint spans: when the scan runs the bulk
routine (it bails out to the fallback full scan), every row whose
indexed-column value lies in the constraint as it was passed is emitted
exactly as many times as the bulk routine emits it. -/
theorem fallback_emits_matching_rows_once (e : virtualDefEntry) (d : virtualSchemaTable)
    (table : TableDescriptor) (index : IndexDescriptor) (c : Constraint) (cid : Nat)
    (populate : planner → Option DatabaseDescriptor → PopulateRun)
    (p : planner) (dbName : String) (dbDesc : Option DatabaseDescriptor)
    (node : virtualTableNode)
    (hdef : e.virtualDef = .table d) (hpop : d.populate = some populate)
    (hgen : d.generator = none) (hcols : index.ColumnIDs = [cid])
    (hord : table.ColumnIdxMap cid < e.desc.Columns.length)
    (hdb : resolveDatabase e p dbName = .ok dbDesc)
    (hnode : (getPlanInfo e table index (some c)).2 p dbName = .ok node)
    (hvalid : ∀ row ∈ (populate p dbDesc).rows, validateRow e row = .ok ())
    (hagree : ∀ vi, d.getIndex index.ID = some vi → ∀ key,
      ((vi.populate key p dbDesc).rows).Perm
        ((populate p dbDesc).rows.filter
          fun row => decide (row[table.ColumnIdxMap cid]? = some key)))
    (htruth : ∀ vi, d.getIndex index.ID = some vi → vi.isPartial = true → ∀ key,
      (vi.populate key p dbDesc).matched = false → (vi.populate key p dbDesc).rows = [])
    (hdisj : c.SpansDisjoint)
    (hbail : ∃ received err, Call.populate received err ∈ node.scan.calls) :
    ∀ row, inConstraint (table.ColumnIdxMap cid) c row = true →
      node.scan.rows.count row = (populate p dbDesc).rows.count row := by
  intro row hin
  obtain ⟨dbDesc2, hdb2, hplan⟩ := getPlanInfo_ok e table index (some c) p dbName node hnode
  rw [hdb] at hdb2
  cases hdb2
  rcases planVirtualDef_bulk e d table index (some c) p dbDesc node hdef hgen hplan with
    ⟨_, hscan⟩ | ⟨c2, hc2, _, _, hscan⟩
  · rw [hscan, unconstrainedWorker_rows_of_valid e d p dbDesc (some c) populate hpop hvalid]
  · cases hc2
    rw [hscan] at hbail ⊢
    have hcount := constrainedLoop_count e table index d p dbDesc c cid populate hpop hcols
      hord hvalid hagree htruth hdisj c.Spans.length hbail row
    have htrunc : c.Truncate c.Spans.length = c := by
      simp [Constraint.Truncate]
    rw [htrunc, if_pos hin] at hcount
    exact hcount

theorem fallback_emits_matching_rows_once_witness :
    (constrainedWorker (Sample.kvEntry Sample.partialIndexedDef true) Sample.kvDesc
        Sample.kIndex Sample.partialIndexedDef Sample.testPlanner
        (some { Name := "db", ID := 50 })
        ⟨[Sample.rangeSpan 1 3, Sample.pointSpan 7]⟩).rows.count (Sample.kvRow 3 30)
      = (Sample.emits [Sample.kvRow 1 10, Sample.kvRow 3 30, Sample.kvRow 7 70,
          Sample.kvRow 3 31] Sample.testPlanner (some { Name := "db", ID := 50 })).rows.count
          (Sample.kvRow 3 30) :=
  fallback_emits_matching_rows_once (Sample.kvEntry Sample.partialIndexedDef true)
    Sample.partialIndexedDef Sample.kvDesc Sample.kIndex
    ⟨[Sample.rangeSpan 1 3, Sample.pointSpan 7]⟩ 1
    (Sample.emits [Sample.kvRow 1 10, Sample.kvRow 3 30, Sample.kvRow 7 70, Sample.kvRow 3 31])
    Sample.testPlanner "db" (some { Name := "db", ID := 50 })
    { columns := resultColumns (Sample.kvEntry Sample.partialIndexedDef true),
      scan := constrainedWorker (Sample.kvEntry Sample.partialIndexedDef true) Sample.kvDesc
        Sample.kIndex Sample.partialIndexedDef Sample.testPlanner
        (some { Name := "db", ID := 50 }) ⟨[Sample.rangeSpan 1 3, Sample.pointSpan 7]⟩ }
    rfl rfl rfl rfl (by decide) rfl rfl
    (by
      intro row hrow
      simp only [Sample.emits, List.mem_cons, List.mem_singleton, List.not_mem_nil,
        or_false] at hrow
      rcases hrow with rfl | rfl | rfl | rfl <;> rfl)
    (by
      intro vi hvi key
      have hvi2 : some (Sample.lookupIn [Sample.kvRow 1 10, Sample.kvRow 3 30,
          Sample.kvRow 7 70, Sample.kvRow 3 31] true) = some vi := hvi
      cases hvi2
      exact List.Perm.refl _)
    (by
      intro vi hvi _ key hm
      have hvi2 : some (Sample.lookupIn [Sample.kvRow 1 10, Sample.kvRow 3 30,
          Sample.kvRow 7 70, Sample.kvRow 3 31] true) = some vi := hvi
      cases hvi2
      simp only [Sample.lookupIn, Bool.not_eq_false', List.isEmpty_iff] at hm
      exact hm)
    (range_point_disjoint 1 3 7 (by decide))
    ⟨_, _, List.mem_cons_of_mem _ (List.mem_singleton.2 rfl)⟩
    (Sample.kvRow 3 30) (by decide)

theorem constrainedLoop_composite (e : virtualDefEntry) (table : TableDescriptor)
    (index : IndexDescriptor) (d : virtualSchemaTable) (p : planner)
    (dbDesc : Option DatabaseDescriptor) (c : Constraint) (n : Nat) (span : Span)
    (hspan : c.Spans[n]? = some span) (hlen : span.StartKey.length > 1) :
    constrainedLoop e table index d p dbDesc c (n + 1) =
      { rows := [], err := some errCompositeConstraint, calls := [],
        idxConstraint := some c } := by
  rw [constrainedLoop]
  simp only [hspan, hlen, if_true]
  rfl

theorem constrainedLoop_continue (e : virtualDefEntry) (table : TableDescriptor)
    (index : IndexDescriptor) (d : virtualSchemaTable) (p : planner)
    (dbDesc : Option DatabaseDescriptor) (c : Constraint) (n : Nat) (key : Datum)
    (vi : virtualIndex)
    (hspan : c.Spans[n]? = some (keySpan [key])) (hvi : d.getIndex index.ID = some vi)
    (hcont : lookupContinues e table index vi p dbDesc c key = true) :
    constrainedLoop e table index d p dbDesc c (n + 1) =
      (constrainedLoop e table index d p dbDesc c n).after
        (feedRows (addRowIfPassesFilter e table index c) (vi.populate key p dbDesc).rows).1
        (Call.index key
          (feedRows (addRowIfPassesFilter e table index c) (vi.populate key p dbDesc).rows).2.1
          (vi.populate key p dbDesc).matched none) := by
  have hk0 : (keySpan [key]).StartKey[0]? = some key := rfl
  have hlen : ¬ (keySpan [key]).StartKey.length > 1 := by
    simp [keySpan, Span.Init, Span.StartKey]
  simp only [lookupContinues, Bool.and_eq_true, Option.isNone_iff_eq_none, Bool.or_eq_true,
    Bool.not_eq_true'] at hcont
  obtain ⟨herr, hm⟩ := hcont
  rw [constrainedLoop]
  simp only [hspan, hlen, if_false, keySpan_hasSingleKey, Bool.not_true, Bool.false_eq_true,
    hk0, hvi, herr]
  have hif : ¬ ((!(vi.populate key p dbDesc).matched && vi.isPartial) = true) := by
    rcases hm with hm | hm
    · simp [hm]
    · simp [hm]
  rw [if_neg hif]

theorem constrainedLoop_reaches_composite (e : virtualDefEntry) (table : TableDescriptor)
    (index : IndexDescriptor) (d : virtualSchemaTable) (p : planner)
    (dbDesc : Option DatabaseDescriptor) (c : Constraint) (i : Nat) (span : Span)
    (hspan : c.Spans[i]? = some span) (hlen : span.StartKey.length > 1)
    (hlater : ∀ j, i < j → j < c.Spans.length →
      ∃ key vi, c.Spans[j]? = some (keySpan [key]) ∧ d.getIndex index.ID = some vi ∧
        lookupContinues e table index vi p dbDesc c key = true) :
    ∀ n, i < n → n ≤ c.Spans.length →
      (constrainedLoop e table index d p dbDesc c n).err = some errCompositeConstraint := by
  intro n
  induction n with
  | zero => intro h; omega
  | succ n ih =>
    intro hin hn
    by_cases hi : i = n
    · subst hi
      rw [constrainedLoop_composite e table index d p dbDesc c i span hspan hlen]
    · obtain ⟨key, vi, hj, hvi, hcont⟩ := hlater n (by omega) (by omega)
      rw [constrainedLoop_continue e table index d p dbDesc c n key vi hj hvi hcont]
      exact ih (by omega) (by omega)

theorem isUnconstrained_startKey (c : Constraint) (i : Nat) (span : Span)
    (hc : c.IsUnconstrained = true) (hspan : c.Spans[i]? = some span) :
    span.StartKey.length ≤ 1 := by
  obtain ⟨spans⟩ := c
  simp only [Constraint.IsUnconstrained] at hc
  match spans, hc, hspan with
  | [sp], hc, hspan =>
    cases i with
    | succ i => simp at hspan
    | zero =>
      simp at hspan
      subst hspan
      simp only [Span.IsUnconstrained, Bool.and_eq_true, Bool.or_eq_true, List.isEmpty_iff,
        decide_eq_true_eq] at hc
      rcases hc.1 with h | h
      · simp [Span.StartKey, h]
      · simp [Span.StartKey, h.1]

/-- C11, as stated, fails: the first span of the constraint of `indexedDef`
below has a start key of two columns, the second one is the range
`1 <= k <= 5`; the loop starts at the range span, leaves for the fallback and
never looks at the first span: the scan ends without an error. -/
theorem composite_span_not_reached :
    (Constraint.mk [Sample.compositeSpan, Sample.rangeSpan 1 5]).Spans[0]?
      = some Sample.compositeSpan ∧
    Sample.compositeSpan.StartKey.length > 1 ∧
    ∃ node,
      (getPlanInfo (Sample.kvEntry Sample.indexedDef true) Sample.kvDesc Sample.kIndex
        (some ⟨[Sample.compositeSpan, Sample.rangeSpan 1 5]⟩)).2 Sample.testPlanner "db"
        = .ok node ∧
      node.scan.err = none ∧
      node.scan.rows = [Sample.kvRow 1 10, Sample.kvRow 2 20, Sample.kvRow 1 11] ∧
      node.scan.calls =
        [Call.populate [Sample.kvRow 1 10, Sample.kvRow 2 20, Sample.kvRow 1 11] none] :=
  ⟨rfl, by decide, _, rfl, by decide, by decide, by decide⟩

/-- C11, amended: for a constrained scan of a table without streaming routine
(so of a bulk-population table), if a span of the constraint has a start key
that covers more than one column and every span after it in the constraint is
a single key whose point lookup lets the loop go on (the index routine returns
no error and does not report a miss on a partial index), the scan fails with
the assertion error "programming error: can't push down composite constraints
into vtables". -/
theorem composite_constraint_rejected (e : virtualDefEntry) (d : virtualSchemaTable)
    (table : TableDescriptor) (index : IndexDescriptor) (c : Constraint)
    (p : planner) (dbName : String) (dbDesc : Option DatabaseDescriptor)
    (node : virtualTableNode) (i : Nat) (span : Span)
    (hdef : e.virtualDef = .table d) (hgen : d.generator = none)
    (hdb : resolveDatabase e p dbName = .ok dbDesc)
    (hnode : (getPlanInfo e table index (some c)).2 p dbName = .ok node)
    (hspan : c.Spans[i]? = some span) (hlen : span.StartKey.length > 1)
    (hlater : ∀ j, i < j → j < c.Spans.length →
      ∃ key vi, c.Spans[j]? = some (keySpan [key]) ∧ d.getIndex index.ID = some vi ∧
        lookupContinues e table index vi p dbDesc c key = true) :
    node.scan.err = some errCompositeConstraint ∧
    errCompositeConstraint = .assertionFailed
      "programming error: can't push down composite constraints into vtables" ∧
    errCompositeConstraint.isAssertion = true := by
  refine ⟨?_, rfl, rfl⟩
  obtain ⟨dbDesc2, hdb2, hplan⟩ := getPlanInfo_ok e table index (some c) p dbName node hnode
  rw [hdb] at hdb2
  cases hdb2
  have hi : i < c.Spans.length := by
    by_contra hge
    rw [List.getElem?_eq_none (by omega)] at hspan
    cases hspan
  rcases planVirtualDef_bulk e d table index (some c) p dbDesc node hdef hgen hplan with
    ⟨hcs, _⟩ | ⟨c2, hc2, _, _, hscan⟩
  · have hcu : c.IsUnconstrained = true := by simpa [constrainedScan] using hcs
    have := isUnconstrained_startKey c i span hcu hspan
    omega
  · cases hc2
    rw [hscan]
    exact constrainedLoop_reaches_composite e table index d p dbDesc c i span hspan hlen
      hlater c.Spans.length hi (Nat.le_refl _)

theorem composite_constraint_rejected_witness :
    (constrainedWorker (Sample.kvEntry Sample.indexedDef true) Sample.kvDesc Sample.kIndex
        Sample.indexedDef Sample.testPlanner (some { Name := "db", ID := 50 })
        ⟨[Sample.compositeSpan, Sample.pointSpan 7]⟩).err = some errCompositeConstraint ∧
    errCompositeConstraint = .assertionFailed
      "programming error: can't push down composite constraints into vtables" ∧
    errCompositeConstraint.isAssertion = true :=
  composite_constraint_rejected (Sample.kvEntry Sample.indexedDef true) Sample.indexedDef
    Sample.kvDesc Sample.kIndex ⟨[Sample.compositeSpan, Sample.pointSpan 7]⟩
    Sample.testPlanner "db" (some { Name := "db", ID := 50 })
    { columns := resultColumns (Sample.kvEntry Sample.indexedDef true),
      scan := constrainedWorker (Sample.kvEntry Sample.indexedDef true) Sample.kvDesc
        Sample.kIndex Sample.indexedDef Sample.testPlanner (some { Name := "db", ID := 50 })
        ⟨[Sample.compositeSpan, Sample.pointSpan 7]⟩ }
    0 Sample.compositeSpan rfl rfl rfl rfl rfl (by decide)
    (by
      intro j hj hlt
      have hj1 : j = 1 := by simp at hlt; omega
      subst hj1
      exact ⟨.DInt 7, Sample.lookupIn [Sample.kvRow 1 10, Sample.kvRow 2 20,
        Sample.kvRow 1 11] false, rfl, rfl, by decide⟩)

theorem planVirtualDef_generator (e : virtualDefEntry) (d : virtualSchemaTable)
    (table : TableDescriptor) (index : IndexDescriptor) (idxConstraint : Option Constraint)
    (p : planner) (dbDesc : Option DatabaseDescriptor)
    (generator : planner → Option DatabaseDescriptor → Except String virtualTableGenerator)
    (hdef : e.virtualDef = .table d) (hgen : d.generator = some generator)
    (hpop : d.populate = none) :
    planVirtualDef e table index idxConstraint p dbDesc =
      match generator p dbDesc with
      | .error err => .error (.external err)
      | .ok next =>
        .ok { columns := resultColumns e,
              scan := { rows := next.rows, err := next.err.map Err.external, calls := [],
                        idxConstraint := idxConstraint } } := by
  simp [planVirtualDef, hdef, hgen, hpop]

/-- C12: for a table definition of the streaming form (generator set, populate
unset), what the consumer gets from the constructor (columns, rows, final
error, or the constructor's error) is the same for every table descriptor,
index and constraint passed to `getPlanInfo`; when the database context is
resolved and the generator routine returns a row source, the constructor
returns that row source, with no population or index routine invoked and the
constraint left as it was; and an error of the constructor is the error of
the database resolution or the error the generator routine returned. -/
theorem generator_ignores_constraint (e : virtualDefEntry) (d : virtualSchemaTable)
    (table : TableDescriptor) (index : IndexDescriptor) (idxConstraint : Option Constraint)
    (p : planner) (dbName : String)
    (generator : planner → Option DatabaseDescriptor → Except String virtualTableGenerator)
    (hdef : e.virtualDef = .table d) (hgen : d.generator = some generator)
    (hpop : d.populate = none) :
    (∀ (table2 : TableDescriptor) (index2 : IndexDescriptor)
        (idxConstraint2 : Option Constraint),
      ((getPlanInfo e table2 index2 idxConstraint2).2 p dbName).map virtualTableNode.source =
        ((getPlanInfo e table index idxConstraint).2 p dbName).map virtualTableNode.source) ∧
    (∀ dbDesc next, resolveDatabase e p dbName = .ok dbDesc → generator p dbDesc = .ok next →
      (getPlanInfo e table index idxConstraint).2 p dbName =
        .ok { columns := resultColumns e,
              scan := { rows := next.rows, err := next.err.map Err.external, calls := [],
                        idxConstraint := idxConstraint } }) ∧
    (∀ err, (getPlanInfo e table index idxConstraint).2 p dbName = .error err →
      resolveDatabase e p dbName = .error err ∨
      ∃ dbDesc msg, resolveDatabase e p dbName = .ok dbDesc ∧
        generator p dbDesc = .error msg ∧ err = .external msg) := by
  refine ⟨?_, ?_, ?_⟩
  · intro table2 index2 idxConstraint2
    simp only [getPlanInfo]
    cases hdb : resolveDatabase e p dbName with
    | error err => rfl
    | ok dbDesc =>
      simp only [planVirtualDef_generator e d _ _ _ p dbDesc generator hdef hgen hpop]
      cases hg : generator p dbDesc with
      | error err => rfl
      | ok next => rfl
  · intro dbDesc next hdb hg
    simp only [getPlanInfo, hdb,
      planVirtualDef_generator e d _ _ _ p dbDesc generator hdef hgen hpop, hg]
  · intro err herr
    simp only [getPlanInfo] at herr
    cases hdb : resolveDatabase e p dbName with
    | error err2 =>
      simp only [hdb, Except.error.injEq] at herr
      left; rw [herr]
    | ok dbDesc =>
      simp only [hdb,
        planVirtualDef_generator e d _ _ _ p dbDesc generator hdef hgen hpop] at herr
      cases hg : generator p dbDesc with
      | error msg =>
        simp only [hg, Except.error.injEq] at herr
        right; exact ⟨dbDesc, msg, rfl, hg, herr.symm⟩
      | ok next => simp [hg] at herr

theorem generator_ignores_constraint_witness :
    (∀ (table2 : TableDescriptor) (index2 : IndexDescriptor)
        (idxConstraint2 : Option Constraint),
      ((getPlanInfo (Sample.kvEntry Sample.generatorDef true) table2 index2
          idxConstraint2).2 Sample.testPlanner "db").map virtualTableNode.source =
        ((getPlanInfo (Sample.kvEntry Sample.generatorDef true) Sample.kvDesc Sample.kIndex
          (some ⟨[Sample.pointSpan 1]⟩)).2 Sample.testPlanner "db").map
          virtualTableNode.source) ∧
    (∀ dbDesc next,
      resolveDatabase (Sample.kvEntry Sample.generatorDef true) Sample.testPlanner "db"
        = .ok dbDesc →
      (fun (_ : planner) (_ : Option DatabaseDescriptor) =>
        (Except.ok { rows := [Sample.kvRow 1 10, Sample.kvRow 2 20], err := none } :
          Except String virtualTableGenerator)) Sample.testPlanner dbDesc = .ok next →
      (getPlanInfo (Sample.kvEntry Sample.generatorDef true) Sample.kvDesc Sample.kIndex
          (some ⟨[Sample.pointSpan 1]⟩)).2 Sample.testPlanner "db" =
        .ok { columns := resultColumns (Sample.kvEntry Sample.generatorDef true),
              scan := { rows := next.rows, err := next.err.map Err.external, calls := [],
                        idxConstraint := some ⟨[Sample.pointSpan 1]⟩ } }) ∧
    (∀ err,
      (getPlanInfo (Sample.kvEntry Sample.generatorDef true) Sample.kvDesc Sample.kIndex
          (some ⟨[Sample.pointSpan 1]⟩)).2 Sample.testPlanner "db" = .error err →
      resolveDatabase (Sample.kvEntry Sample.generatorDef true) Sample.testPlanner "db"
        = .error err ∨
      ∃ dbDesc msg,
        resolveDatabase (Sample.kvEntry Sample.generatorDef true) Sample.testPlanner "db"
          = .ok dbDesc ∧
        (fun (_ : planner) (_ : Option DatabaseDescriptor) =>
          (Except.ok { rows := [Sample.kvRow 1 10, Sample.kvRow 2 20], err := none } :
            Except String virtualTableGenerator)) Sample.testPlanner dbDesc = .error msg ∧
        err = .external msg) :=
  generator_ignores_constraint (Sample.kvEntry Sample.generatorDef true) Sample.generatorDef
    Sample.kvDesc Sample.kIndex (some ⟨[Sample.pointSpan 1]⟩) Sample.testPlanner "db"
    (fun _ _ => .ok { rows := [Sample.kvRow 1 10, Sample.kvRow 2 20], err := none })
    rfl rfl rfl

/-- C13: for a bulk-population table whose population routine emits only rows
that pass the row validator, the row source of the unconstrained scan
(constraint absent or unconstrained) delivers exactly the rows the routine
emitted, each once, in the order it emitted them; the routine of `bulkDef`
emits `(1,10)`, `(2,20)` on the columns `(k, v)` and the scan yields `(1,10)`,
`(2,20)` in that order. -/
theorem unconstrained_scan_delivers_rows (e : virtualDefEntry) (d : virtualSchemaTable)
    (table : TableDescriptor) (index : IndexDescriptor) (idxConstraint : Option Constraint)
    (populate : planner → Option DatabaseDescriptor → PopulateRun)
    (p : planner) (dbName : String) (node : virtualTableNode)
    (hdef : e.virtualDef = .table d) (hpop : d.populate = some populate)
    (hgen : d.generator = none) (hcs : constrainedScan idxConstraint = false)
    (hnode : (getPlanInfo e table index idxConstraint).2 p dbName = .ok node)
    (hvalid : ∀ dbDesc, resolveDatabase e p dbName = .ok dbDesc →
      ∀ row ∈ (populate p dbDesc).rows, validateRow e row = .ok ()) :
    (∃ dbDesc, resolveDatabase e p dbName = .ok dbDesc ∧
      node.scan.rows = (populate p dbDesc).rows) ∧
    ((getPlanInfo (Sample.kvEntry Sample.bulkDef true) Sample.kvDesc Sample.primaryIndex
        none).2 Sample.testPlanner "db").map virtualTableNode.source =
      .ok (resultColumns (Sample.kvEntry Sample.bulkDef true),
        [Sample.kvRow 1 10, Sample.kvRow 2 20], none) := by
  refine ⟨?_, rfl⟩
  obtain ⟨dbDesc, hdb, hplan⟩ := getPlanInfo_ok e table index idxConstraint p dbName node hnode
  refine ⟨dbDesc, hdb, ?_⟩
  rcases planVirtualDef_bulk e d table index idxConstraint p dbDesc node hdef hgen hplan with
    ⟨_, hscan⟩ | ⟨c, hc, hcu, _, _⟩
  · rw [hscan]
    exact unconstrainedWorker_rows_of_valid e d p dbDesc idxConstraint populate hpop
      (hvalid dbDesc hdb)
  · simp [constrainedScan, hc, hcu] at hcs

theorem unconstrained_scan_delivers_rows_witness :
    (∃ dbDesc,
      resolveDatabase (Sample.kvEntry Sample.bulkDef true) Sample.testPlanner "db"
        = .ok dbDesc ∧
      (unconstrainedWorker (Sample.kvEntry Sample.bulkDef true) Sample.bulkDef
        Sample.testPlanner (some { Name := "db", ID := 50 }) none).rows
        = (Sample.emits [Sample.kvRow 1 10, Sample.kvRow 2 20] Sample.testPlanner
            dbDesc).rows) ∧
    ((getPlanInfo (Sample.kvEntry Sample.bulkDef true) Sample.kvDesc Sample.primaryIndex
        none).2 Sample.testPlanner "db").map virtualTableNode.source =
      .ok (resultColumns (Sample.kvEntry Sample.bulkDef true),
        [Sample.kvRow 1 10, Sample.kvRow 2 20], none) :=
  unconstrained_scan_delivers_rows (Sample.kvEntry Sample.bulkDef true) Sample.bulkDef
    Sample.kvDesc Sample.primaryIndex none
    (Sample.emits [Sample.kvRow 1 10, Sample.kvRow 2 20]) Sample.testPlanner "db"
    { columns := resultColumns (Sample.kvEntry Sample.bulkDef true),
      scan := unconstrainedWorker (Sample.kvEntry Sample.bulkDef true) Sample.bulkDef
        Sample.testPlanner (some { Name := "db", ID := 50 }) none }
    rfl rfl rfl rfl rfl
    (by
      intro dbDesc _ row hrow
      simp only [Sample.emits, List.mem_cons, List.mem_singleton, List.not_mem_nil,
        or_false] at hrow
      rcases hrow with rfl | rfl <;> rfl)

theorem fallbackScan_error (e : virtualDefEntry) (table : TableDescriptor)
    (index : IndexDescriptor) (d : virtualSchemaTable) (p : planner)
    (dbDesc : Option DatabaseDescriptor) (c : Constraint) (n : Nat) :
    ∀ call ∈ (fallbackScan e table index d p dbDesc c n).calls,
      (fallbackScan e table index d p dbDesc c n).calls = [call] ∧
      (fallbackScan e table index d p dbDesc c n).err = call.err ∧
      call.isIndex = false := by
  intro call hcall
  unfold fallbackScan at hcall ⊢
  cases hp : d.populate with
  | none => simp [hp] at hcall
  | some populate =>
    simp only [hp, List.mem_singleton] at hcall ⊢
    subst hcall
    exact ⟨rfl, rfl, rfl⟩

theorem makeColumns_ids : ∀ (defs : List TableDef) (next : Nat),
    (makeColumns next defs).map (·.ID) = List.range' next (makeColumns next defs).length := by
  intro defs
  induction defs with
  | nil => intro next; simp [makeColumns]
  | cons d rest ih =>
    intro next
    cases d with
    | ColumnTableDef c =>
      simp only [makeColumns, List.map_cons, List.length_cons, List.range'_succ]
      rw [ih (next + 1)]
    | IndexTableDef c => simpa [makeColumns] using ih next
    | UniqueConstraintTableDef c => simpa [makeColumns] using ih next
    | other => simpa [makeColumns] using ih next

theorem makeColumns_nodup (defs : List TableDef) (next : Nat) :
    ((makeColumns next defs).map (·.ID)).Nodup := by
  rw [makeColumns_ids]
  exact List.nodup_range' _ _

theorem resolveColumnIDs_mem (columns : List ColumnDescriptor) :
    ∀ (names : List String) (ids : List Nat), resolveColumnIDs columns names = .ok ids →
      ids.length = names.length ∧ ∀ id ∈ ids, id ∈ columns.map (·.ID) := by
  intro names
  induction names with
  | nil =>
    intro ids h
    simp only [resolveColumnIDs, Except.ok.injEq] at h
    subst h
    simp
  | cons name names ih =>
    intro ids h
    simp only [resolveColumnIDs] at h
    cases hf : columns.find? (fun col => decide (col.Name = name)) with
    | none => simp [hf] at h
    | some col =>
      simp only [hf] at h
      cases hr : resolveColumnIDs columns names with
      | error err => simp [hr] at h
      | ok ids2 =>
        simp only [hr, Except.ok.injEq] at h
        subst h
        obtain ⟨hlen, hmem⟩ := ih ids2 hr
        refine ⟨by simp [hlen], ?_⟩
        intro id hid
        simp only [List.mem_cons] at hid
        rcases hid with hid | hid
        · subst hid
          exact List.mem_map_of_mem _ (List.mem_of_find?_eq_some hf)
        · exact hmem id hid

theorem makeIndexes_mem (columns : List ColumnDescriptor) :
    ∀ (defs : List TableDef) (next : Nat) (idxs : List IndexDescriptor),
      makeIndexes columns next defs = .ok idxs →
      ∀ idx ∈ idxs, (∀ id ∈ idx.ColumnIDs, id ∈ columns.map (·.ID)) ∧
        ∃ d, TableDef.IndexTableDef d ∈ defs ∧ idx.ColumnIDs.length = d.Columns.length := by
  intro defs
  induction defs with
  | nil =>
    intro next idxs h idx hidx
    simp only [makeIndexes, Except.ok.injEq] at h
    subst h
    simp at hidx
  | cons d rest ih =>
    intro next idxs h idx hidx
    cases d with
    | IndexTableDef c =>
      simp only [makeIndexes] at h
      cases hr : resolveColumnIDs columns c.Columns with
      | error err => simp [hr] at h
      | ok ids =>
        simp only [hr] at h
        cases hm : makeIndexes columns (next + 1) rest with
        | error err => simp [hm] at h
        | ok idxs2 =>
          simp only [hm, Except.ok.injEq] at h
          subst h
          simp only [List.mem_cons] at hidx
          rcases hidx with hidx | hidx
          · subst hidx
            obtain ⟨hlen, hmem⟩ := resolveColumnIDs_mem columns c.Columns ids hr
            exact ⟨hmem, c, List.mem_cons_self _ _, hlen⟩
          · obtain ⟨h1, d2, hd2, hl2⟩ := ih (next + 1) idxs2 hm idx hidx
            exact ⟨h1, d2, List.mem_cons_of_mem _ hd2, hl2⟩
    | ColumnTableDef c =>
      simp only [makeIndexes] at h
      obtain ⟨h1, d2, hd2, hl2⟩ := ih next idxs h idx hidx
      exact ⟨h1, d2, List.mem_cons_of_mem _ hd2, hl2⟩
    | UniqueConstraintTableDef c =>
      simp only [makeIndexes] at h
      obtain ⟨h1, d2, hd2, hl2⟩ := ih next idxs h idx hidx
      exact ⟨h1, d2, List.mem_cons_of_mem _ hd2, hl2⟩
    | other =>
      simp only [makeIndexes] at h
      obtain ⟨h1, d2, hd2, hl2⟩ := ih next idxs h idx hidx
      exact ⟨h1, d2, List.mem_cons_of_mem _ hd2, hl2⟩

theorem set_length_append {α : Type} (pre : List α) (z v : α) (zs : List α) :
    (pre ++ z :: zs).set pre.length v = pre ++ v :: zs := by
  induction pre with
  | nil => rfl
  | cons a pre ih => simp [ih]

theorem storeLoop_eq (indexColumnIDs : List Nat) :
    ∀ (columns : List ColumnDescriptor) (pre : List Nat) (preN : List String)
      (zs : List Nat) (zsN : List String),
      pre.length = preN.length →
      (columns.filter fun col => decide (col.ID ∉ indexColumnIDs)).length ≤ zs.length →
      (columns.filter fun col => decide (col.ID ∉ indexColumnIDs)).length ≤ zsN.length →
      storeLoop indexColumnIDs columns (pre ++ zs) (preN ++ zsN) pre.length =
        some
          (pre ++ (columns.filter fun col => decide (col.ID ∉ indexColumnIDs)).map (·.ID) ++
              zs.drop (columns.filter fun col => decide (col.ID ∉ indexColumnIDs)).length,
            preN ++ (columns.filter fun col => decide (col.ID ∉ indexColumnIDs)).map (·.Name) ++
              zsN.drop (columns.filter fun col => decide (col.ID ∉ indexColumnIDs)).length) := by
  intro columns
  induction columns with
  | nil => intro pre preN zs zsN _ _ _; simp [storeLoop]
  | cons col columns ih =>
    intro pre preN zs zsN hpre hz hzN
    by_cases hin : col.ID ∈ indexColumnIDs
    · have hany : indexColumnIDs.any (fun id => decide (col.ID = id)) = true := by
        simp only [List.any_eq_true, decide_eq_true_eq]
        exact ⟨col.ID, hin, rfl⟩
      have hf : (List.filter (fun col => decide (col.ID ∉ indexColumnIDs)) (col :: columns))
          = List.filter (fun col => decide (col.ID ∉ indexColumnIDs)) columns := by
        simp [List.filter_cons, hin]
      rw [hf] at hz hzN ⊢
      simp only [storeLoop, hany, if_true]
      exact ih pre preN zs zsN hpre hz hzN
    · have hany : ¬ indexColumnIDs.any (fun id => decide (col.ID = id)) = true := by
        simp only [List.any_eq_true, decide_eq_true_eq, not_exists, not_and]
        intro id hid heq
        exact hin (heq ▸ hid)
      have hf : (List.filter (fun col => decide (col.ID ∉ indexColumnIDs)) (col :: columns))
          = col :: List.filter (fun col => decide (col.ID ∉ indexColumnIDs)) columns := by
        simp [List.filter_cons, hin]
      rw [hf] at hz hzN ⊢
      cases zs with
      | nil => simp at hz
      | cons z zs =>
        cases zsN with
        | nil => simp at hzN
        | cons zN zsN =>
          simp only [List.length_cons, Nat.add_le_add_iff_right] at hz hzN
          have hlt : pre.length < (pre ++ z :: zs).length ∧
              pre.length < (preN ++ zN :: zsN).length := by
            constructor
            · simp
            · simp [← hpre]
          simp only [storeLoop, hany, if_false, hlt, and_self, if_true]
          have hset2 : (preN ++ zN :: zsN).set pre.length col.Name = preN ++ col.Name :: zsN := by
            rw [hpre]; exact set_length_append preN zN col.Name zsN
          rw [set_length_append pre z col.ID zs, hset2]
          have := ih (pre ++ [col.ID]) (preN ++ [col.Name]) zs zsN (by simp [hpre]) hz hzN
          simp only [List.append_assoc, List.singleton_append, List.length_append,
            List.length_singleton] at this
          rw [this]
          simp

theorem filter_not_mem_length (cid : Nat) :
    ∀ columns : List ColumnDescriptor, (columns.map (·.ID)).Nodup → cid ∈ columns.map (·.ID) →
      (columns.filter fun col => decide (col.ID ∉ [cid])).length + 1 = columns.length := by
  intro columns
  induction columns with
  | nil => intro _ h; simp at h
  | cons col columns ih =>
    intro hnd hmem
    simp only [List.map_cons, List.nodup_cons] at hnd
    by_cases hc : col.ID = cid
    · have hall : columns.filter (fun col => decide (col.ID ∉ [cid])) = columns := by
        rw [List.filter_eq_self]
        intro c hcmem
        simp only [List.mem_singleton, decide_eq_true_eq]
        intro heq
        exact hnd.1 (hc ▸ heq ▸ List.mem_map_of_mem _ hcmem)
      have hhead : decide (col.ID ∉ [cid]) = false := by
        simp only [List.mem_singleton, decide_eq_false_iff_not, not_not]
        exact hc
      rw [List.filter_cons, hhead, hall]
      simp
    · have hmem2 : cid ∈ columns.map (·.ID) := by
        simp only [List.map_cons, List.mem_cons] at hmem
        rcases hmem with h | h
        · exact absurd h.symm hc
        · exact h
      have hhead : decide (col.ID ∉ [cid]) = true := by
        simp only [List.mem_singleton, decide_eq_true_eq]
        exact hc
      rw [List.filter_cons, hhead]
      simp only [if_true, List.length_cons]
      rw [ih hnd.2 hmem2]

theorem filter_nonindex_length (columns : List ColumnDescriptor) (indexColumnIDs : List Nat)
    (hnd : (columns.map (·.ID)).Nodup) (hlen : ¬ indexColumnIDs.length > 1)
    (hmem : ∀ id ∈ indexColumnIDs, id ∈ columns.map (·.ID)) :
    (columns.filter fun col => decide (col.ID ∉ indexColumnIDs)).length =
      columns.length - indexColumnIDs.length := by
  match indexColumnIDs, hlen, hmem with
  | [], _, _ => simp
  | [cid], _, hmem =>
    have := filter_not_mem_length cid columns hnd (hmem cid (List.mem_singleton.2 rfl))
    simp only [List.length_singleton]
    omega
  | _ :: _ :: _, hlen, _ => simp at hlen

theorem storeColumns_ok (columns : List ColumnDescriptor) (idx idx' : IndexDescriptor)
    (hnd : (columns.map (·.ID)).Nodup)
    (hmem : ∀ id ∈ idx.ColumnIDs, id ∈ columns.map (·.ID))
    (h : storeColumns columns idx = .ok idx') :
    idx'.ID = idx.ID ∧ idx'.ColumnIDs = idx.ColumnIDs ∧ ¬ idx.ColumnIDs.length > 1 ∧
    idx'.StoreColumnIDs =
      (columns.filter fun col => decide (col.ID ∉ idx.ColumnIDs)).map (·.ID) ∧
    idx'.StoreColumnNames =
      (columns.filter fun col => decide (col.ID ∉ idx.ColumnIDs)).map (·.Name) ∧
    (columns.filter fun col => decide (col.ID ∉ idx.ColumnIDs)).length =
      columns.length - idx.ColumnIDs.length := by
  unfold storeColumns at h
  by_cases hlen : idx.ColumnIDs.length > 1
  · simp [hlen] at h
  · simp only [hlen, if_false] at h
    have hcount := filter_nonindex_length columns idx.ColumnIDs hnd hlen hmem
    by_cases hneg : columns.length < idx.ColumnIDs.length
    · simp [hneg] at h
    · simp only [hneg, if_false] at h
      have hloop := storeLoop_eq idx.ColumnIDs columns [] []
        (List.replicate (columns.length - idx.ColumnIDs.length) 0)
        (List.replicate (columns.length - idx.ColumnIDs.length) "") rfl
        (by rw [hcount, List.length_replicate]) (by rw [hcount, List.length_replicate])
      simp only [List.nil_append, List.length_nil] at hloop
      rw [hloop] at h
      simp only [Except.ok.injEq] at h
      subst h
      have hdrop0 : List.drop
          (columns.filter fun col => decide (col.ID ∉ idx.ColumnIDs)).length
          (List.replicate (columns.length - idx.ColumnIDs.length) (0 : Nat)) = [] := by
        rw [hcount]; simp
      have hdropN : List.drop
          (columns.filter fun col => decide (col.ID ∉ idx.ColumnIDs)).length
          (List.replicate (columns.length - idx.ColumnIDs.length) "") = [] := by
        rw [hcount]; simp
      refine ⟨rfl, rfl, hlen, ?_, ?_, hcount⟩
      · simp only [hdrop0, List.append_nil]
      · simp only [hdropN, List.append_nil]

theorem storeAllIndexes_mem (columns : List ColumnDescriptor) :
    ∀ (idxs idxs' : List IndexDescriptor), storeAllIndexes columns idxs = .ok idxs' →
      ∀ idx' ∈ idxs', ∃ idx ∈ idxs, storeColumns columns idx = .ok idx' := by
  intro idxs
  induction idxs with
  | nil =>
    intro idxs' h idx' hidx'
    simp only [storeAllIndexes, Except.ok.injEq] at h
    subst h
    simp at hidx'
  | cons idx rest ih =>
    intro idxs' h idx' hidx'
    simp only [storeAllIndexes] at h
    cases hs : storeColumns columns idx with
    | error err => simp [hs] at h
    | ok idx2 =>
      simp only [hs] at h
      cases hr : storeAllIndexes columns rest with
      | error err => simp [hr] at h
      | ok rest2 =>
        simp only [hr, Except.ok.injEq] at h
        subst h
        simp only [List.mem_cons] at hidx'
        rcases hidx' with hidx' | hidx'
        · subst hidx'
          exact ⟨idx, List.mem_cons_self _ _, hs⟩
        · obtain ⟨idx0, hmem0, hs0⟩ := ih rest2 hr idx' hidx'
          exact ⟨idx0, List.mem_cons_of_mem _ hmem0, hs0⟩

/-- What a successful `initVirtualTableDesc` of a table went through. -/
theorem initVirtualTableDesc_ok (t : virtualSchemaTable) (sql : Collaborators)
    (parentSchemaID id : Nat) (desc : TableDescriptor)
    (h : t.initVirtualTableDesc sql parentSchemaID id = .ok desc) :
    ∃ create first indexes0,
      sql.ParseOne t.schema = .ok (.CreateTable create) ∧
      checkDefs create create.Defs none = .ok (some first) ∧
      makeIndexes (makeColumns 1 create.Defs) 2 create.Defs = .ok indexes0 ∧
      storeAllIndexes (makeColumns 1 create.Defs) indexes0 = .ok desc.Indexes ∧
      desc.Columns = makeColumns 1 create.Defs ∧ desc.Name = create.Table ∧ desc.ID = id := by
  unfold virtualSchemaTable.initVirtualTableDesc at h
  cases hp : sql.ParseOne t.schema with
  | error err => simp [hp] at h
  | ok stmt =>
    cases stmt with
    | CreateView c => simp [hp] at h
    | other => simp [hp] at h
    | CreateTable create =>
      simp only [hp] at h
      cases hc : checkDefs create create.Defs none with
      | error err => simp [hc] at h
      | ok first =>
        cases first with
        | none => simp [hc] at h
        | some first =>
          simp only [hc, MakeTableDesc] at h
          cases hm : makeIndexes (makeColumns 1 create.Defs) 2 create.Defs with
          | error err => simp [hm] at h
          | ok indexes0 =>
            simp only [hm] at h
            cases hs : storeAllIndexes (makeColumns 1 create.Defs) indexes0 with
            | error err => simp [hs] at h
            | ok indexes =>
              simp only [hs, Except.ok.injEq] at h
              subst h
              exact ⟨create, first, indexes0, rfl, hc, hm, hs, rfl, rfl, rfl⟩

/-- C14: in every table descriptor built by
`virtualSchemaTable.initVirtualTableDesc`, for every secondary index, the
stored column ids and, position by position, the stored column names are
exactly those of the descriptor's columns that are not the index's own
column, in descriptor column order; the two lists have length (number of
columns - number of index columns), so no slot is left unfilled, and every
column that is not an index column appears in the stored ids once. -/
theorem stored_columns_are_other_columns (t : virtualSchemaTable) (sql : Collaborators)
    (parentSchemaID id : Nat) (desc : TableDescriptor)
    (h : t.initVirtualTableDesc sql parentSchemaID id = .ok desc) :
    ∀ idx ∈ desc.Indexes,
      idx.StoreColumnIDs =
        (desc.Columns.filter fun col => decide (col.ID ∉ idx.ColumnIDs)).map (·.ID) ∧
      idx.StoreColumnNames =
        (desc.Columns.filter fun col => decide (col.ID ∉ idx.ColumnIDs)).map (·.Name) ∧
      idx.StoreColumnIDs.length = desc.Columns.length - idx.ColumnIDs.length ∧
      idx.StoreColumnNames.length = desc.Columns.length - idx.ColumnIDs.length ∧
      ∀ col ∈ desc.Columns, col.ID ∉ idx.ColumnIDs → idx.StoreColumnIDs.count col.ID = 1 := by
  intro idx hidx
  obtain ⟨create, first, indexes0, _, _, hm, hs, hcols, _, _⟩ :=
    initVirtualTableDesc_ok t sql parentSchemaID id desc h
  have hnd : (desc.Columns.map (·.ID)).Nodup := by
    rw [hcols]; exact makeColumns_nodup _ _
  obtain ⟨idx0, hidx0, hstore⟩ := storeAllIndexes_mem _ indexes0 desc.Indexes hs idx hidx
  obtain ⟨hmem0, _⟩ := makeIndexes_mem _ create.Defs 2 indexes0 hm idx0 hidx0
  rw [← hcols] at hstore hmem0
  obtain ⟨_, hcid, _, hids, hnames, hcount⟩ :=
    storeColumns_ok desc.Columns idx0 idx hnd hmem0 hstore
  rw [hcid]
  refine ⟨hids, hnames, by rw [hids, List.length_map, hcount],
    by rw [hnames, List.length_map, hcount], ?_⟩
  intro col hcol hnot
  rw [hids]
  apply List.count_eq_one_of_mem
  · exact hnd.sublist (List.Sublist.map _ (List.filter_sublist _))
  · exact List.mem_map_of_mem _ (List.mem_filter.2 ⟨hcol, by simpa using hnot⟩)

theorem stored_columns_are_other_columns_witness :
    Sample.kvIndexedTable.initVirtualTableDesc Sample.testSQL 7 100 = .ok Sample.kvIndexedDesc ∧
    Sample.kvStoredIndex ∈ Sample.kvIndexedDesc.Indexes ∧
    Sample.kvStoredIndex.StoreColumnIDs = [2] ∧
    Sample.kvStoredIndex.StoreColumnNames = ["v"] ∧
    (Sample.kvStoredIndex.StoreColumnIDs =
        (Sample.kvIndexedDesc.Columns.filter
          fun col => decide (col.ID ∉ Sample.kvStoredIndex.ColumnIDs)).map (·.ID) ∧
      Sample.kvStoredIndex.StoreColumnNames =
        (Sample.kvIndexedDesc.Columns.filter
          fun col => decide (col.ID ∉ Sample.kvStoredIndex.ColumnIDs)).map (·.Name) ∧
      Sample.kvStoredIndex.StoreColumnIDs.length =
        Sample.kvIndexedDesc.Columns.length - Sample.kvStoredIndex.ColumnIDs.length ∧
      Sample.kvStoredIndex.StoreColumnNames.length =
        Sample.kvIndexedDesc.Columns.length - Sample.kvStoredIndex.ColumnIDs.length ∧
      ∀ col ∈ Sample.kvIndexedDesc.Columns, col.ID ∉ Sample.kvStoredIndex.ColumnIDs →
        Sample.kvStoredIndex.StoreColumnIDs.count col.ID = 1) :=
  ⟨rfl, by decide, rfl, rfl,
    stored_columns_are_other_columns Sample.kvIndexedTable Sample.testSQL 7 100
      Sample.kvIndexedDesc rfl Sample.kvStoredIndex (by decide)⟩

theorem checkDefs_defect (create : CreateTable) :
    ∀ (defs : List TableDef) (first : Option ColumnTableDef),
      hasDefaultExpr defs = true ∨ hasUniqueConstraint defs = true →
      ∃ err, checkDefs create defs first = .error err := by
  intro defs
  induction defs with
  | nil => intro first h; simp [hasDefaultExpr, hasUniqueConstraint] at h
  | cons d rest ih =>
    intro first h
    cases d with
    | ColumnTableDef c =>
      by_cases hd : c.HasDefaultExpr = true
      · exact ⟨errDefaultExpr create c, by simp [checkDefs, hd]⟩
      · simp only [checkDefs, hd, if_false, Bool.false_eq_true]
        apply ih
        simpa [hasDefaultExpr, hasUniqueConstraint, hd] using h
    | UniqueConstraintTableDef c => exact ⟨errUniqueConstraint, by simp [checkDefs]⟩
    | IndexTableDef c =>
      simp only [checkDefs]
      apply ih
      simpa [hasDefaultExpr, hasUniqueConstraint] using h
    | other =>
      simp only [checkDefs]
      apply ih
      simpa [hasDefaultExpr, hasUniqueConstraint] using h

theorem checkDefs_no_column (create : CreateTable) :
    ∀ (defs : List TableDef), hasColumn defs = false →
      checkDefs create defs none = .ok none ∨ ∃ err, checkDefs create defs none = .error err := by
  intro defs
  induction defs with
  | nil => intro _; left; rfl
  | cons d rest ih =>
    intro h
    cases d with
    | ColumnTableDef c => simp [hasColumn] at h
    | UniqueConstraintTableDef c => right; exact ⟨errUniqueConstraint, by simp [checkDefs]⟩
    | IndexTableDef c =>
      simp only [checkDefs]
      apply ih
      simpa [hasColumn] using h
    | other =>
      simp only [checkDefs]
      apply ih
      simpa [hasColumn] using h

theorem checkDefs_clean (create : CreateTable) :
    ∀ (defs : List TableDef) (first : Option ColumnTableDef),
      hasDefaultExpr defs = false → hasUniqueConstraint defs = false →
      (hasColumn defs = true ∨ first.isSome = true) →
      ∃ d, checkDefs create defs first = .ok (some d) := by
  intro defs
  induction defs with
  | nil =>
    intro first _ _ h
    rcases h with h | h
    · simp [hasColumn] at h
    · cases first with
      | none => simp at h
      | some d => exact ⟨d, rfl⟩
  | cons d rest ih =>
    intro first hd hu h
    cases d with
    | ColumnTableDef c =>
      have hc : c.HasDefaultExpr = false := by
        simp only [hasDefaultExpr, List.any_cons, Bool.or_eq_false_iff] at hd
        exact hd.1
      simp only [checkDefs, hc, if_false, Bool.false_eq_true]
      apply ih
      · simp only [hasDefaultExpr, List.any_cons, Bool.or_eq_false_iff] at hd
        exact hd.2
      · simpa [hasUniqueConstraint] using hu
      · right
        cases first <;> simp
    | UniqueConstraintTableDef c => simp [hasUniqueConstraint] at hu
    | IndexTableDef c =>
      simp only [checkDefs]
      apply ih
      · simpa [hasDefaultExpr] using hd
      · simpa [hasUniqueConstraint] using hu
      · simpa [hasColumn] using h
    | other =>
      simp only [checkDefs]
      apply ih
      · simpa [hasDefaultExpr] using hd
      · simpa [hasUniqueConstraint] using hu
      · simpa [hasColumn] using h

theorem makeIndexes_composite (columns : List ColumnDescriptor) :
    ∀ (defs : List TableDef) (next : Nat) (idxs : List IndexDescriptor),
      makeIndexes columns next defs = .ok idxs → hasCompositeIndex defs = true →
      ∃ idx ∈ idxs, idx.ColumnIDs.length > 1 := by
  intro defs
  induction defs with
  | nil => intro next idxs _ h; simp [hasCompositeIndex] at h
  | cons d rest ih =>
    intro next idxs h hc
    cases d with
    | IndexTableDef c =>
      simp only [makeIndexes] at h
      cases hr : resolveColumnIDs columns c.Columns with
      | error err => simp [hr] at h
      | ok ids =>
        simp only [hr] at h
        cases hm : makeIndexes columns (next + 1) rest with
        | error err => simp [hm] at h
        | ok idxs2 =>
          simp only [hm, Except.ok.injEq] at h
          subst h
          by_cases hlen : c.Columns.length > 1
          · refine ⟨_, List.mem_cons_self _ _, ?_⟩
            rw [(resolveColumnIDs_mem columns c.Columns ids hr).1]
            exact hlen
          · have hc2 : hasCompositeIndex rest = true := by
              simpa [hasCompositeIndex, hlen] using hc
            obtain ⟨idx, hidx, hl⟩ := ih (next + 1) idxs2 hm hc2
            exact ⟨idx, List.mem_cons_of_mem _ hidx, hl⟩
    | ColumnTableDef c =>
      simp only [makeIndexes] at h
      exact ih next idxs h (by simpa [hasCompositeIndex] using hc)
    | UniqueConstraintTableDef c =>
      simp only [makeIndexes] at h
      exact ih next idxs h (by simpa [hasCompositeIndex] using hc)
    | other =>
      simp only [makeIndexes] at h
      exact ih next idxs h (by simpa [hasCompositeIndex] using hc)

theorem makeIndexes_single (columns : List ColumnDescriptor) :
    ∀ (defs : List TableDef) (next : Nat) (idxs : List IndexDescriptor),
      makeIndexes columns next defs = .ok idxs → hasCompositeIndex defs = false →
      ∀ idx ∈ idxs, ¬ idx.ColumnIDs.length > 1 := by
  intro defs
  induction defs with
  | nil =>
    intro next idxs h _ idx hidx
    simp only [makeIndexes, Except.ok.injEq] at h
    subst h
    simp at hidx
  | cons d rest ih =>
    intro next idxs h hc idx hidx
    cases d with
    | IndexTableDef c =>
      simp only [makeIndexes] at h
      cases hr : resolveColumnIDs columns c.Columns with
      | error err => simp [hr] at h
      | ok ids =>
        simp only [hr] at h
        cases hm : makeIndexes columns (next + 1) rest with
        | error err => simp [hm] at h
        | ok idxs2 =>
          simp only [hm, Except.ok.injEq] at h
          subst h
          simp only [hasCompositeIndex, List.any_cons, Bool.or_eq_false_iff,
            decide_eq_false_iff_not] at hc
          simp only [List.mem_cons] at hidx
          rcases hidx with hidx | hidx
          · subst hidx
            simp only []
            rw [(resolveColumnIDs_mem columns c.Columns ids hr).1]
            exact hc.1
          · exact ih (next + 1) idxs2 hm hc.2 idx hidx
    | ColumnTableDef c =>
      simp only [makeIndexes] at h
      exact ih next idxs h (by simpa [hasCompositeIndex] using hc) idx hidx
    | UniqueConstraintTableDef c =>
      simp only [makeIndexes] at h
      exact ih next idxs h (by simpa [hasCompositeIndex] using hc) idx hidx
    | other =>
      simp only [makeIndexes] at h
      exact ih next idxs h (by simpa [hasCompositeIndex] using hc) idx hidx

theorem storeAllIndexes_composite (columns : List ColumnDescriptor) :
    ∀ (idxs : List IndexDescriptor), (∃ idx ∈ idxs, idx.ColumnIDs.length > 1) →
      ∃ err, storeAllIndexes columns idxs = .error err := by
  intro idxs
  induction idxs with
  | nil => intro h; simp at h
  | cons idx rest ih =>
    intro h
    simp only [storeAllIndexes]
    cases hs : storeColumns columns idx with
    | error err => exact ⟨err, rfl⟩
    | ok idx2 =>
      have hrest : ∃ idx ∈ rest, idx.ColumnIDs.length > 1 := by
        obtain ⟨i, hi, hl⟩ := h
        simp only [List.mem_cons] at hi
        rcases hi with hi | hi
        · subst hi
          simp [storeColumns, hl] at hs
        · exact ⟨i, hi, hl⟩
      obtain ⟨err, herr⟩ := ih hrest
      exact ⟨err, by simp [herr]⟩

theorem storeColumns_single (columns : List ColumnDescriptor) (idx : IndexDescriptor)
    (hnd : (columns.map (·.ID)).Nodup) (hlen : ¬ idx.ColumnIDs.length > 1)
    (hmem : ∀ id ∈ idx.ColumnIDs, id ∈ columns.map (·.ID)) :
    ∃ idx', storeColumns columns idx = .ok idx' := by
  have hcount := filter_nonindex_length columns idx.ColumnIDs hnd hlen hmem
  have hneg : ¬ columns.length < idx.ColumnIDs.length := by
    match hi : idx.ColumnIDs, hmem with
    | [], _ => simp
    | [cid], hmem =>
      have : cid ∈ columns.map (·.ID) := hmem cid (List.mem_singleton.2 rfl)
      cases columns with
      | nil => simp at this
      | cons c cs => simp
    | _ :: _ :: _, _ => rw [hi] at hlen; simp at hlen
  have hloop := storeLoop_eq idx.ColumnIDs columns [] []
    (List.replicate (columns.length - idx.ColumnIDs.length) 0)
    (List.replicate (columns.length - idx.ColumnIDs.length) "") rfl
    (by rw [hcount, List.length_replicate]) (by rw [hcount, List.length_replicate])
  simp only [List.nil_append, List.length_nil] at hloop
  unfold storeColumns
  simp only [hlen, hneg, if_false, hloop]
  exact ⟨_, rfl⟩

theorem storeAllIndexes_single (columns : List ColumnDescriptor)
    (hnd : (columns.map (·.ID)).Nodup) :
    ∀ (idxs : List IndexDescriptor),
      (∀ idx ∈ idxs, ¬ idx.ColumnIDs.length > 1 ∧ ∀ id ∈ idx.ColumnIDs, id ∈ columns.map (·.ID)) →
      ∃ idxs', storeAllIndexes columns idxs = .ok idxs' := by
  intro idxs
  induction idxs with
  | nil => intro _; exact ⟨[], rfl⟩
  | cons idx rest ih =>
    intro h
    obtain ⟨hl, hm⟩ := h idx (List.mem_cons_self _ _)
    obtain ⟨idx', hs⟩ := storeColumns_single columns idx hnd hl hm
    obtain ⟨rest', hr⟩ := ih (fun i hi => h i (List.mem_cons_of_mem _ hi))
    exact ⟨idx' :: rest', by simp [storeAllIndexes, hs, hr]⟩

/-- C15: for every parsed table definition, `virtualSchemaTable.initVirtualTableDesc`
fails (an error or a panic, and no descriptor) when some column has a default
expression, when some unique constraint is declared, when there is no column,
and when some declared secondary index covers more than one column; for a
definition with none of these defects the outcome is that of the descriptor
construction alone: its error if it fails, and otherwise a descriptor. -/
theorem defective_definition_rejected (t : virtualSchemaTable) (sql : Collaborators)
    (parentSchemaID id : Nat) (create : CreateTable)
    (hparse : sql.ParseOne t.schema = .ok (.CreateTable create)) :
    (hasDefaultExpr create.Defs = true →
      ∃ err, t.initVirtualTableDesc sql parentSchemaID id = .error err) ∧
    (hasUniqueConstraint create.Defs = true →
      ∃ err, t.initVirtualTableDesc sql parentSchemaID id = .error err) ∧
    (hasColumn create.Defs = false →
      ∃ err, t.initVirtualTableDesc sql parentSchemaID id = .error err) ∧
    (hasCompositeIndex create.Defs = true →
      ∃ err, t.initVirtualTableDesc sql parentSchemaID id = .error err) ∧
    (hasDefaultExpr create.Defs = false → hasUniqueConstraint create.Defs = false →
      hasColumn create.Defs = true → hasCompositeIndex create.Defs = false →
      (∀ msg, MakeTableDesc create parentSchemaID id = .error msg →
        t.initVirtualTableDesc sql parentSchemaID id = .error (.external msg)) ∧
      (∀ mutDesc, MakeTableDesc create parentSchemaID id = .ok mutDesc →
        ∃ indexes, t.initVirtualTableDesc sql parentSchemaID id =
          .ok { mutDesc with Indexes := indexes })) := by
  have hearly : ∀ err, checkDefs create create.Defs none = .error err →
      ∃ err, t.initVirtualTableDesc sql parentSchemaID id = .error err := by
    intro err h
    exact ⟨err, by simp [virtualSchemaTable.initVirtualTableDesc, hparse, h]⟩
  refine ⟨?_, ?_, ?_, ?_, ?_⟩
  · intro h
    obtain ⟨err, herr⟩ := checkDefs_defect create create.Defs none (Or.inl h)
    exact hearly err herr
  · intro h
    obtain ⟨err, herr⟩ := checkDefs_defect create create.Defs none (Or.inr h)
    exact hearly err herr
  · intro h
    rcases checkDefs_no_column create create.Defs h with hn | ⟨err, herr⟩
    · exact ⟨errEmptyTable, by simp [virtualSchemaTable.initVirtualTableDesc, hparse, hn]⟩
    · exact hearly err herr
  · intro h
    cases hc : checkDefs create create.Defs none with
    | error err => exact hearly err hc
    | ok first =>
      cases first with
      | none => exact ⟨errEmptyTable, by simp [virtualSchemaTable.initVirtualTableDesc, hparse, hc]⟩
      | some first =>
        cases hm : makeIndexes (makeColumns 1 create.Defs) 2 create.Defs with
        | error err =>
          exact ⟨.external err,
            by simp [virtualSchemaTable.initVirtualTableDesc, hparse, hc, MakeTableDesc, hm]⟩
        | ok idxs =>
          obtain ⟨err, herr⟩ := storeAllIndexes_composite (makeColumns 1 create.Defs) idxs
            (makeIndexes_composite _ create.Defs 2 idxs hm h)
          exact ⟨err,
            by simp [virtualSchemaTable.initVirtualTableDesc, hparse, hc, MakeTableDesc, hm, herr]⟩
  · intro hd hu hcol hcomp
    obtain ⟨first, hc⟩ := checkDefs_clean create create.Defs none hd hu (Or.inl hcol)
    constructor
    · intro msg hmk
      simp [virtualSchemaTable.initVirtualTableDesc, hparse, hc, hmk]
    · intro mutDesc hmk
      have hmk2 := hmk
      unfold MakeTableDesc at hmk2
      cases hm : makeIndexes (makeColumns 1 create.Defs) 2 create.Defs with
      | error err => simp [hm] at hmk2
      | ok idxs =>
        simp only [hm, Except.ok.injEq] at hmk2
        have hsingle := makeIndexes_single _ create.Defs 2 idxs hm hcomp
        obtain ⟨idxs', hs⟩ := storeAllIndexes_single (makeColumns 1 create.Defs)
          (makeColumns_nodup _ _) idxs
          (fun i hi => ⟨hsingle i hi, (makeIndexes_mem _ create.Defs 2 idxs hm i hi).1⟩)
        refine ⟨idxs', ?_⟩
        subst hmk2
        simp [virtualSchemaTable.initVirtualTableDesc, hparse, hc, MakeTableDesc, hm, hs]

theorem defective_definition_rejected_witness :
    Sample.testSQL.ParseOne Sample.compositeTable.schema
      = .ok (.CreateTable Sample.compositeCreate) ∧
    hasCompositeIndex Sample.compositeCreate.Defs = true ∧
    Sample.compositeTable.initVirtualTableDesc Sample.testSQL 7 100
      = .error panicCompositeIndex ∧
    ∃ err, Sample.compositeTable.initVirtualTableDesc Sample.testSQL 7 100 = .error err :=
  ⟨rfl, rfl, rfl,
    (defective_definition_rejected Sample.compositeTable Sample.testSQL 7 100
      Sample.compositeCreate rfl).2.2.2.1 rfl⟩

theorem lexLe_total : ∀ a b : List Char, lexLe a b = true ∨ lexLe b a = true := by
  intro a
  induction a with
  | nil => intro b; left; simp [lexLe]
  | cons x xs ih =>
    intro b
    cases b with
    | nil => right; simp [lexLe]
    | cons y ys =>
      simp only [lexLe]
      rcases lt_trichotomy x y with h | h | h
      · left; simp [h]
      · subst h
        simpa using ih ys
      · right; simp [h]

theorem lexLe_trans : ∀ a b c : List Char, lexLe a b = true → lexLe b c = true →
    lexLe a c = true := by
  intro a
  induction a with
  | nil => intro b c _ _; simp [lexLe]
  | cons x xs ih =>
    intro b c hab hbc
    cases b with
    | nil => simp [lexLe] at hab
    | cons y ys =>
      cases c with
      | nil => simp [lexLe] at hbc
      | cons z zs =>
        simp only [lexLe] at hab hbc ⊢
        by_cases hxy : x < y
        · by_cases hyz : y < z
          · simp [lt_trans hxy hyz]
          · simp only [hyz, if_false] at hbc
            by_cases hzy : z < y
            · simp [hzy] at hbc
            · have : y = z := le_antisymm (not_lt.1 hzy) (not_lt.1 hyz)
              subst this
              simp [hxy]
        · simp only [hxy, if_false] at hab
          by_cases hyx : y < x
          · simp [hyx] at hab
          · have : x = y := le_antisymm (not_lt.1 hyx) (not_lt.1 hxy)
            subst this
            simp only [hyx, if_false] at hab
            by_cases hxz : x < z
            · simp [hxz]
            · simp only [hxz, if_false] at hbc ⊢
              by_cases hzx : z < x
              · simp [hzx] at hbc
              · simp only [hzx, if_false] at hbc ⊢
                exact ih ys zs hab hbc

theorem lexLe_antisymm : ∀ a b : List Char, lexLe a b = true → lexLe b a = true → a = b := by
  intro a
  induction a with
  | nil =>
    intro b _ hba
    cases b with
    | nil => rfl
    | cons y ys => simp [lexLe] at hba
  | cons x xs ih =>
    intro b hab hba
    cases b with
    | nil => simp [lexLe] at hab
    | cons y ys =>
      simp only [lexLe] at hab hba
      by_cases hxy : x < y
      · simp [hxy, lt_asymm hxy] at hba
      · by_cases hyx : y < x
        · simp [hxy, hyx] at hab
        · have : x = y := le_antisymm (not_lt.1 hyx) (not_lt.1 hxy)
          subst this
          simp only [hxy, if_false] at hab hba
          rw [ih ys hab hba]

theorem stringLe_isTotal : IsTotal String stringLe :=
  ⟨fun a b => lexLe_total a.data b.data⟩

theorem stringLe_isTrans : IsTrans String stringLe :=
  ⟨fun a b c => lexLe_trans a.data b.data c.data⟩

theorem stringLe_isAntisymm : IsAntisymm String stringLe :=
  ⟨fun a b hab hba => by
    have := lexLe_antisymm a.data b.data hab hba
    cases a; cases b; simp_all⟩

theorem sortStrings_sorted (names : List String) : (sortStrings names).Sorted stringLe :=
  haveI := stringLe_isTotal
  haveI := stringLe_isTrans
  List.sorted_insertionSort stringLe names

theorem sortStrings_perm (names : List String) : (sortStrings names).Perm names :=
  List.perm_insertionSort stringLe names

theorem sortStrings_congr (names names2 : List String) (h : names.Perm names2) :
    sortStrings names = sortStrings names2 :=
  haveI := stringLe_isAntisymm
  List.eq_of_perm_of_sorted
    (((sortStrings_perm names).trans h).trans (sortStrings_perm names2).symm)
    (sortStrings_sorted names) (sortStrings_sorted names2)

theorem GoMap.get_map_none {K V : Type} [DecidableEq K] (key : V → K) (l : List V) (k : K)
    (h : k ∉ l.map key) : GoMap.get (l.map fun e => (key e, e)) k = none := by
  induction l with
  | nil => rfl
  | cons x l ih =>
    simp only [List.map_cons, List.mem_cons, not_or] at h
    simp only [List.map_cons, GoMap.get]
    have hx : ¬ key x = k := fun hxk => h.1 hxk.symm
    simp only [hx, if_false]
    exact ih h.2

theorem defEntries_cons_ok (sql : Collaborators) (schemaID : Nat) (schema : virtualSchema)
    (id : Nat) (def_ : virtualSchemaDef) (rest : List (Nat × virtualSchemaDef))
    (tableDesc : TableDescriptor)
    (h : def_.initVirtualTableDesc sql schemaID id = .ok tableDesc) :
    defEntries sql schemaID schema ((id, def_) :: rest) =
      entryOf schema def_ tableDesc :: defEntries sql schemaID schema rest := by
  simp [defEntries, List.filterMap_cons, h, entryOf]

theorem defEntries_mem (sql : Collaborators) (schemaID : Nat) (schema : virtualSchema)
    (defs : List (Nat × virtualSchemaDef)) (id : Nat) (def_ : virtualSchemaDef)
    (tableDesc : TableDescriptor) (hmem : (id, def_) ∈ defs)
    (h : def_.initVirtualTableDesc sql schemaID id = .ok tableDesc) :
    entryOf schema def_ tableDesc ∈ defEntries sql schemaID schema defs := by
  simp only [defEntries, List.mem_filterMap]
  exact ⟨(id, def_), hmem, by simp [h, entryOf]⟩

/-- What a successful run of the loop over the table definitions leaves. -/
theorem registerDefs_ok (sql : Collaborators) (schemaID : Nat) (schema : virtualSchema) :
    ∀ (l : List (Nat × virtualSchemaDef)) (defs : GoMap String virtualDefEntry)
      (byID : GoMap Nat virtualDefEntry) (names : List String)
      (final : GoMap String virtualDefEntry × GoMap Nat virtualDefEntry × List String),
      registerDefs sql schemaID schema l (defs, byID, names) = .ok final →
      (∀ p ∈ l, ∃ tableDesc, p.2.initVirtualTableDesc sql schemaID p.1 = .ok tableDesc) ∧
      final.1 = ((defEntries sql schemaID schema l).reverse.map fun e => (e.desc.Name, e))
        ++ defs ∧
      final.2.1 = ((defEntries sql schemaID schema l).reverse.map fun e => (e.desc.ID, e))
        ++ byID ∧
      final.2.2 = names ++ (defEntries sql schemaID schema l).map fun e => e.desc.Name := by
  intro l
  induction l with
  | nil =>
    intro defs byID names final h
    simp only [registerDefs, Except.ok.injEq] at h
    subst h
    simp [defEntries]
  | cons p rest ih =>
    intro defs byID names final h
    obtain ⟨id, def_⟩ := p
    simp only [registerDefs] at h
    cases hinit : def_.initVirtualTableDesc sql schemaID id with
    | error err => simp [hinit] at h
    | ok tableDesc =>
      simp only [hinit] at h
      cases hval : schema.tableValidator.bind fun validate => validate tableDesc with
      | some err => simp [hval] at h
      | none =>
        simp only [hval] at h
        obtain ⟨h1, h2, h3, h4⟩ := ih _ _ _ final h
        rw [defEntries_cons_ok sql schemaID schema id def_ rest tableDesc hinit]
        refine ⟨?_, ?_, ?_, ?_⟩
        · intro p hp
          simp only [List.mem_cons] at hp
          rcases hp with hp | hp
          · subst hp; exact ⟨tableDesc, hinit⟩
          · exact h1 p hp
        · rw [h2]; simp [GoMap.set, entryOf]
        · rw [h3]; simp [GoMap.set, entryOf]
        · rw [h4]; simp [entryOf]

/-- What a successful run of the loop over the schemas leaves. -/
theorem registerSchemas_ok (sql : Collaborators) :
    ∀ (l : List (Nat × virtualSchema)) (vs final : VirtualSchemaHolder),
      registerSchemas sql l vs = .ok final →
      (∀ s ∈ l, ∀ p ∈ s.2.tableDefs,
        ∃ tableDesc, p.2.initVirtualTableDesc sql s.1 p.1 = .ok tableDesc) ∧
      final.entries = (l.reverse.map fun s => (s.2.name, schemaEntryOf sql s.1 s.2))
        ++ vs.entries ∧
      final.defsByID = ((holderEntries sql l).reverse.map fun e => (e.desc.ID, e))
        ++ vs.defsByID ∧
      final.orderedNames = vs.orderedNames ++ l.map fun s => s.2.name := by
  intro l
  induction l with
  | nil =>
    intro vs final h
    simp only [registerSchemas, Except.ok.injEq] at h
    subst h
    simp [holderEntries]
  | cons s rest ih =>
    intro vs final h
    obtain ⟨schemaID, schema⟩ := s
    simp only [registerSchemas] at h
    cases hreg : registerDefs sql schemaID schema schema.tableDefs ([], vs.defsByID, []) with
    | error err => simp [hreg] at h
    | ok state =>
      obtain ⟨defs, defsByID, orderedDefNames⟩ := state
      simp only [hreg] at h
      obtain ⟨g1, g2, g3, g4⟩ := registerDefs_ok sql schemaID schema _ _ _ _ _ hreg
      simp only [List.append_nil, List.nil_append] at g2 g3 g4
      obtain ⟨h1, h2, h3, h4⟩ := ih _ final h
      refine ⟨?_, ?_, ?_, ?_⟩
      · intro s hs
        simp only [List.mem_cons] at hs
        rcases hs with hs | hs
        · subst hs; exact g1
        · exact h1 s hs
      · rw [h2]
        simp [GoMap.set, schemaEntryOf, tableNames, g2, g4]
      · rw [h3]
        simp [holderEntries, g3]
      · rw [h4]; simp

/-- What a successful `NewVirtualSchemaHolder` returns. -/
theorem NewVirtualSchemaHolder_ok (sql : Collaborators) (schemas : List (Nat × virtualSchema))
    (vs : VirtualSchemaHolder) (h : NewVirtualSchemaHolder sql schemas = .ok vs) :
    (∀ s ∈ schemas, ∀ p ∈ s.2.tableDefs,
      ∃ tableDesc, p.2.initVirtualTableDesc sql s.1 p.1 = .ok tableDesc) ∧
    vs.entries = (schemas.reverse.map fun s => (s.2.name, schemaEntryOf sql s.1 s.2)) ∧
    vs.defsByID = ((holderEntries sql schemas).reverse.map fun e => (e.desc.ID, e)) ∧
    vs.orderedNames = sortStrings (schemas.map fun s => s.2.name) := by
  unfold NewVirtualSchemaHolder at h
  cases hreg : registerSchemas sql schemas { entries := [], defsByID := [], orderedNames := [] } with
  | error err => simp [hreg] at h
  | ok final =>
    simp only [hreg, Except.ok.injEq] at h
    obtain ⟨h1, h2, h3, h4⟩ := registerSchemas_ok sql schemas _ final hreg
    subst h
    simp only [List.append_nil, List.nil_append] at h2 h3 h4
    exact ⟨h1, h2, h3, by simp [h4]⟩

theorem GoMap.get_mem {K V : Type} [DecidableEq K] (m : GoMap K V) (k : K) (v : V)
    (h : GoMap.get m k = some v) : (k, v) ∈ m := by
  induction m with
  | nil => simp [GoMap.get] at h
  | cons kv m ih =>
    obtain ⟨k', v'⟩ := kv
    simp only [GoMap.get] at h
    by_cases hk : k' = k
    · simp only [hk, if_true, Option.some.injEq] at h
      subst h; subst hk
      exact List.mem_cons_self _ _
    · simp only [hk, if_false] at h
      exact List.mem_cons_of_mem _ (ih h)

/-- Every schema entry of a holder was built for one of the schemas. -/
theorem holder_entry_of_schema (sql : Collaborators) (schemas : List (Nat × virtualSchema))
    (vs : VirtualSchemaHolder) (h : NewVirtualSchemaHolder sql schemas = .ok vs)
    (name : String) (entry : virtualSchemaEntry)
    (hget : vs.getVirtualSchemaEntry name = some entry) :
    ∃ s ∈ schemas, s.2.name = name ∧ entry = schemaEntryOf sql s.1 s.2 := by
  obtain ⟨_, hentries, _, _⟩ := NewVirtualSchemaHolder_ok sql schemas vs h
  unfold VirtualSchemaHolder.getVirtualSchemaEntry at hget
  rw [hentries] at hget
  have hmem := GoMap.get_mem _ _ _ hget
  simp only [List.mem_map, List.mem_reverse, Prod.mk.injEq] at hmem
  obtain ⟨s, hs, hname, hentry⟩ := hmem
  exact ⟨s, hs, hname, hentry.symm⟩

theorem tableNames_reordered (sql : Collaborators) (schemaID : Nat) (s s2 : virtualSchema)
    (h : s.reordered s2) :
    s2.name = s.name ∧ (tableNames sql schemaID s2).Perm (tableNames sql schemaID s) := by
  obtain ⟨defs, names, hperm, _, heq⟩ := h
  subst heq
  refine ⟨rfl, ?_⟩
  simp only [tableNames, defEntries]
  exact (List.Perm.filterMap _ hperm.symm).map _

theorem forall₂_reordered (mid schemas2 : List (Nat × virtualSchema))
    (h : List.Forall₂ (fun a b => a.1 = b.1 ∧ a.2.reordered b.2) mid schemas2) :
    (schemas2.map fun s => s.2.name) = (mid.map fun s => s.2.name) ∧
    ∀ s2 ∈ schemas2, ∃ s ∈ mid, s.1 = s2.1 ∧ s.2.reordered s2.2 := by
  induction h with
  | nil => simp
  | @cons a b l1 l2 hab _ ih =>
    obtain ⟨ih1, ih2⟩ := ih
    constructor
    · simp only [List.map_cons, ih1]
      obtain ⟨defs, names, _, _, heq⟩ := hab.2
      rw [heq]
    · intro s2 hs2
      simp only [List.mem_cons] at hs2
      rcases hs2 with hs2 | hs2
      · subst hs2
        exact ⟨a, List.mem_cons_self _ _, hab⟩
      · obtain ⟨s, hs, hrel⟩ := ih2 s2 hs2
        exact ⟨s, List.mem_cons_of_mem _ hs, hrel⟩

theorem reorderedSchemas_spec (schemas schemas2 : List (Nat × virtualSchema))
    (h : reorderedSchemas schemas schemas2) :
    (schemas2.map fun s => s.2.name).Perm (schemas.map fun s => s.2.name) ∧
    ∀ s2 ∈ schemas2, ∃ s ∈ schemas, s.1 = s2.1 ∧ s.2.reordered s2.2 := by
  obtain ⟨mid, hperm, hforall⟩ := h
  obtain ⟨h1, h2⟩ := forall₂_reordered mid schemas2 hforall
  constructor
  · rw [h1]
    exact (hperm.map _).symm
  · intro s2 hs2
    obtain ⟨s, hs, hrel⟩ := h2 s2 hs2
    exact ⟨s, hperm.mem_iff.2 hs, hrel⟩

/-- C16: for every set of schema definitions on which `NewVirtualSchemaHolder`
succeeds, `getSchemaNames` is in ascending lexicographic order and a
permutation of the names of the schemas, and the `orderedDefNames` of every
schema entry is in ascending lexicographic order and a permutation of the
names of the tables registered in its schema; this holds for every order in
which the maps are visited, and the lists do not depend on that order: a
holder built from the same maps visited in another order has the same schema
names, each of its entries has the sorted table names of its schema, and when
the schema names are distinct the entries of the two holders under a name
have the same `orderedDefNames`. -/
theorem registry_names_sorted (sql : Collaborators) (schemas : List (Nat × virtualSchema))
    (vs : VirtualSchemaHolder) (h : NewVirtualSchemaHolder sql schemas = .ok vs) :
    vs.getSchemaNames.Sorted stringLe ∧
    vs.getSchemaNames.Perm (schemas.map fun s => s.2.name) ∧
    (∀ name entry, vs.getVirtualSchemaEntry name = some entry →
      ∃ s ∈ schemas, s.2.name = name ∧
        entry.orderedDefNames.Sorted stringLe ∧
        entry.orderedDefNames.Perm (tableNames sql s.1 s.2)) ∧
    (∀ schemas2 vs2, reorderedSchemas schemas schemas2 →
      NewVirtualSchemaHolder sql schemas2 = .ok vs2 →
      vs2.getSchemaNames = vs.getSchemaNames ∧
      (∀ name entry2, vs2.getVirtualSchemaEntry name = some entry2 →
        ∃ s ∈ schemas, s.2.name = name ∧
          entry2.orderedDefNames = sortStrings (tableNames sql s.1 s.2)) ∧
      ((schemas.map fun s => s.2.name).Nodup →
        ∀ name entry entry2, vs.getVirtualSchemaEntry name = some entry →
          vs2.getVirtualSchemaEntry name = some entry2 →
          entry2.orderedDefNames = entry.orderedDefNames)) := by
  obtain ⟨_, _, _, hnames⟩ := NewVirtualSchemaHolder_ok sql schemas vs h
  have hentry2 : ∀ schemas2 vs2, reorderedSchemas schemas schemas2 →
      NewVirtualSchemaHolder sql schemas2 = .ok vs2 →
      ∀ name entry2, vs2.getVirtualSchemaEntry name = some entry2 →
        ∃ s ∈ schemas, s.2.name = name ∧
          entry2.orderedDefNames = sortStrings (tableNames sql s.1 s.2) := by
    intro schemas2 vs2 hre h2 name entry2 hget
    obtain ⟨s2, hs2, hname2, he2⟩ := holder_entry_of_schema sql schemas2 vs2 h2 name entry2 hget
    obtain ⟨s, hs, hid, hrel⟩ := (reorderedSchemas_spec schemas schemas2 hre).2 s2 hs2
    obtain ⟨hn, hperm⟩ := tableNames_reordered sql s2.1 s.2 s2.2 hrel
    refine ⟨s, hs, by rw [← hn, hname2], ?_⟩
    rw [he2, hid]
    exact sortStrings_congr _ _ hperm
  refine ⟨?_, ?_, ?_, ?_⟩
  · unfold VirtualSchemaHolder.getSchemaNames
    rw [hnames]
    exact sortStrings_sorted _
  · unfold VirtualSchemaHolder.getSchemaNames
    rw [hnames]
    exact sortStrings_perm _
  · intro name entry hget
    obtain ⟨s, hs, hname, he⟩ := holder_entry_of_schema sql schemas vs h name entry hget
    refine ⟨s, hs, hname, ?_, ?_⟩
    · rw [he]; exact sortStrings_sorted _
    · rw [he]; exact sortStrings_perm _
  · intro schemas2 vs2 hre h2
    refine ⟨?_, hentry2 schemas2 vs2 hre h2, ?_⟩
    · obtain ⟨_, _, _, hnames2⟩ := NewVirtualSchemaHolder_ok sql schemas2 vs2 h2
      unfold VirtualSchemaHolder.getSchemaNames
      rw [hnames, hnames2]
      exact sortStrings_congr _ _ (reorderedSchemas_spec schemas schemas2 hre).1
    · intro hnd name entry entry2 hget hget2
      obtain ⟨s, hs, hname, he⟩ := holder_entry_of_schema sql schemas vs h name entry hget
      obtain ⟨s', hs', hname', he'⟩ := hentry2 schemas2 vs2 hre h2 name entry2 hget2
      have heq : s' = s :=
        List.inj_on_of_nodup_map hnd hs' hs (by simp only [hname, hname'])
      rw [he', heq, he]
      rfl

theorem registry_names_sorted_witness :
    ∃ vs vs2,
      NewVirtualSchemaHolder Sample.testSQL Sample.twoSchemas = .ok vs ∧
      NewVirtualSchemaHolder Sample.testSQL Sample.twoSchemasReversed = .ok vs2 ∧
      vs.getSchemaNames = ["information_schema", "pg_catalog"] ∧
      vs2.getSchemaNames = ["information_schema", "pg_catalog"] ∧
      (vs.getVirtualSchemaEntry "pg_catalog").map (fun e => e.orderedDefNames)
        = some ["kv", "other"] ∧
      (vs2.getVirtualSchemaEntry "pg_catalog").map (fun e => e.orderedDefNames)
        = some ["kv", "other"] ∧
      vs.getSchemaNames.Sorted stringLe ∧
      vs.getSchemaNames.Perm (Sample.twoSchemas.map fun s => s.2.name) :=
  ⟨_, _, rfl, rfl, rfl, rfl, rfl, rfl,
    (registry_names_sorted Sample.testSQL Sample.twoSchemas _ rfl).1,
    (registry_names_sorted Sample.testSQL Sample.twoSchemas _ rfl).2.1⟩

theorem GoMap.get_map_of_mem {A K V : Type} [DecidableEq K] (key : A → K) (val : A → V)
    (l : List A) (a : A) (hnd : (l.map key).Nodup) (ha : a ∈ l) :
    GoMap.get (l.map fun x => (key x, val x)) (key a) = some (val a) := by
  induction l with
  | nil => simp at ha
  | cons x l ih =>
    simp only [List.map_cons, List.nodup_cons] at hnd
    simp only [List.map_cons, GoMap.get]
    simp only [List.mem_cons] at ha
    by_cases hx : key x = key a
    · rcases ha with ha | ha
      · subst ha; simp
      · exact absurd (hx ▸ List.mem_map_of_mem key ha) hnd.1
    · simp only [hx, if_false]
      rcases ha with ha | ha
      · exact absurd (ha ▸ rfl) hx
      · exact ih hnd.2 ha

theorem holderEntries_mem (sql : Collaborators) :
    ∀ (schemas : List (Nat × virtualSchema)) (s : Nat × virtualSchema) (e : virtualDefEntry),
      s ∈ schemas → e ∈ defEntries sql s.1 s.2 s.2.tableDefs → e ∈ holderEntries sql schemas := by
  intro schemas
  induction schemas with
  | nil => intro s e hs; simp at hs
  | cons s0 rest ih =>
    intro s e hs he
    obtain ⟨sid0, sch0⟩ := s0
    simp only [holderEntries, List.mem_append]
    simp only [List.mem_cons] at hs
    rcases hs with hs | hs
    · subst hs; left; exact he
    · right; exact ih s e hs he

/-- C17, as stated, fails: in a schema with two table definitions whose
descriptors are both named `kv`, the name `kv` leads to the definition
registered last, whereas each descriptor id leads to its own definition; in
either order of the map, one of the two tables is not found under its name. -/
theorem same_name_tables_collide :
    ∃ vs vs2,
      NewVirtualSchemaHolder Sample.testSQL Sample.sameNameSchemas = .ok vs ∧
      (vs.getVirtualTableEntry ⟨"s", "kv"⟩).map (Option.map fun e => (e.desc.ID, e.comment))
        = .ok (some (101, "")) ∧
      (vs.getVirtualTableEntryByID 100).map (fun e => (e.desc.Name, e.desc.ID, e.comment))
        = .ok ("kv", 100, "key-value pairs") ∧
      NewVirtualSchemaHolder Sample.testSQL Sample.sameNameSchemasReversed = .ok vs2 ∧
      (vs2.getVirtualTableEntry ⟨"s", "kv"⟩).map (Option.map fun e => (e.desc.ID, e.comment))
        = .ok (some (100, "key-value pairs")) ∧
      (vs2.getVirtualTableEntryByID 101).map (fun e => (e.desc.Name, e.desc.ID, e.comment))
        = .ok ("kv", 101, "") :=
  ⟨_, _, rfl, rfl, rfl, rfl, rfl, rfl⟩

/-- C17, amended: for every holder built by `NewVirtualSchemaHolder` from
schemas with pairwise distinct names, whose tables have pairwise distinct
names within each schema and pairwise distinct descriptor ids over all
schemas, every table definition of every schema is registered under both
keys: `getVirtualTableEntry` with (schema name, table name) and
`getVirtualTableEntryByID` with the descriptor id return the same entry, made
of the definition, its descriptor, its comment and the schema's
no-database-context flag. Whether or not names and ids are distinct,
`getVirtualTableEntryByID` with an id that was not registered returns the
descriptor-not-found error. -/
theorem table_registered_under_both_keys (sql : Collaborators)
    (schemas : List (Nat × virtualSchema)) (vs : VirtualSchemaHolder)
    (h : NewVirtualSchemaHolder sql schemas = .ok vs) :
    ((schemas.map fun s => s.2.name).Nodup →
      (∀ s ∈ schemas, (tableNames sql s.1 s.2).Nodup) →
      ((holderEntries sql schemas).map fun e => e.desc.ID).Nodup →
      ∀ s ∈ schemas, ∀ p ∈ s.2.tableDefs,
        ∃ tableDesc, p.2.initVirtualTableDesc sql s.1 p.1 = .ok tableDesc ∧
          vs.getVirtualTableEntry ⟨s.2.name, tableDesc.Name⟩
            = .ok (some (entryOf s.2 p.2 tableDesc)) ∧
          vs.getVirtualTableEntryByID tableDesc.ID = .ok (entryOf s.2 p.2 tableDesc)) ∧
    (∀ id, id ∉ (holderEntries sql schemas).map (fun e => e.desc.ID) →
      vs.getVirtualTableEntryByID id = .error ErrDescriptorNotFound) := by
  obtain ⟨hinit, hentries, hbyID, _⟩ := NewVirtualSchemaHolder_ok sql schemas vs h
  constructor
  · intro hschemas htables hids s hs p hp
    obtain ⟨tableDesc, hdesc⟩ := hinit s hs p hp
    have he : entryOf s.2 p.2 tableDesc ∈ defEntries sql s.1 s.2 s.2.tableDefs :=
      defEntries_mem sql s.1 s.2 s.2.tableDefs p.1 p.2 tableDesc hp hdesc
    refine ⟨tableDesc, hdesc, ?_, ?_⟩
    · have hschema : vs.getVirtualSchemaEntry s.2.name = some (schemaEntryOf sql s.1 s.2) := by
        unfold VirtualSchemaHolder.getVirtualSchemaEntry
        rw [hentries]
        exact GoMap.get_map_of_mem (fun s => s.2.name) (fun s => schemaEntryOf sql s.1 s.2)
          schemas.reverse s
          (by rw [List.map_reverse]; exact List.nodup_reverse.2 hschemas)
          (List.mem_reverse.2 hs)
      have hdef : (schemaEntryOf sql s.1 s.2).defs.get tableDesc.Name
          = some (entryOf s.2 p.2 tableDesc) := by
        have := GoMap.get_map_of_mem (fun e : virtualDefEntry => e.desc.Name) (fun e => e)
          (defEntries sql s.1 s.2 s.2.tableDefs).reverse (entryOf s.2 p.2 tableDesc)
          (by rw [List.map_reverse]; exact List.nodup_reverse.2 (htables s hs))
          (List.mem_reverse.2 he)
        exact this
      simp only [VirtualSchemaHolder.getVirtualTableEntry, hschema, hdef]
    · have hget : GoMap.get
          ((holderEntries sql schemas).reverse.map fun e => (e.desc.ID, e)) tableDesc.ID
          = some (entryOf s.2 p.2 tableDesc) :=
        GoMap.get_map_of_mem (fun e : virtualDefEntry => e.desc.ID) (fun e => e)
          (holderEntries sql schemas).reverse (entryOf s.2 p.2 tableDesc)
          (by rw [List.map_reverse]; exact List.nodup_reverse.2 hids)
          (List.mem_reverse.2 (holderEntries_mem sql schemas s _ hs he))
      unfold VirtualSchemaHolder.getVirtualTableEntryByID
      rw [hbyID, hget]
  · intro id hid
    unfold VirtualSchemaHolder.getVirtualTableEntryByID
    rw [hbyID]
    have := GoMap.get_map_none (fun e : virtualDefEntry => e.desc.ID)
      (holderEntries sql schemas).reverse id
      (by rw [List.map_reverse]; exact fun hmem => hid (List.mem_reverse.1 hmem))
    rw [this]

theorem table_registered_under_both_keys_witness :
    ∃ vs,
      NewVirtualSchemaHolder Sample.testSQL Sample.twoSchemas = .ok vs ∧
      (vs.getVirtualTableEntry ⟨"pg_catalog", "kv"⟩).map
          (Option.map fun e => (e.desc.ID, e.comment, e.validWithNoDatabaseContext))
        = .ok (some (100, "key-value pairs", true)) ∧
      (vs.getVirtualTableEntryByID 100).map
          (fun e => (e.desc.Name, e.comment, e.validWithNoDatabaseContext))
        = .ok ("kv", "key-value pairs", true) ∧
      (∃ tableDesc,
        (virtualSchemaDef.table Sample.kvPlainTable).initVirtualTableDesc Sample.testSQL 2 100
          = .ok tableDesc ∧
        vs.getVirtualTableEntry ⟨Sample.pgCatalog.name, tableDesc.Name⟩
          = .ok (some (entryOf Sample.pgCatalog (.table Sample.kvPlainTable) tableDesc)) ∧
        vs.getVirtualTableEntryByID tableDesc.ID
          = .ok (entryOf Sample.pgCatalog (.table Sample.kvPlainTable) tableDesc)) ∧
      vs.getVirtualTableEntryByID 7 = .error ErrDescriptorNotFound :=
  ⟨_, rfl, rfl, rfl,
    (table_registered_under_both_keys Sample.testSQL Sample.twoSchemas _ rfl).1
      (by decide) (by decide) (by decide)
      (2, Sample.pgCatalog) (List.mem_cons_self _ _)
      (100, .table Sample.kvPlainTable) (List.mem_cons_of_mem _ (List.mem_cons_self _ _)),
    (table_registered_under_both_keys Sample.testSQL Sample.twoSchemas _ rfl).2 7 (by decide)⟩

/-- C18, as stated, fails for an unknown schema name: in the holder of
`pg_catalog` and `information_schema`, the name `public.kv` yields the empty
entry and the nil descriptor with no error, not an undefined-relation
error. -/
theorem unknown_schema_not_an_error :
    ∃ vs,
      NewVirtualSchemaHolder Sample.testSQL Sample.twoSchemas = .ok vs ∧
      (vs.getVirtualSchemaEntry "public").isNone = true ∧
      vs.getVirtualTableEntry ⟨"public", "kv"⟩ = .ok none ∧
      vs.getVirtualTableDesc ⟨"public", "kv"⟩ = .ok none ∧
      vs.getVirtualTableEntry ⟨"public", "kv"⟩ ≠ .error (NewUndefinedRelationError ⟨"public", "kv"⟩) :=
  ⟨_, rfl, rfl, rfl, rfl, fun h => Except.noConfusion h⟩

/-- C18, amended: for every table name passed to `getVirtualTableEntry` (and
`getVirtualTableDesc`): an unknown schema name yields the empty entry (the nil
descriptor) and no error; in a known schema, a defined table yields its entry
(its descriptor) with no error, a table name that is not defined but is
listed in the schema's `allTableNames` yields the "virtual schema table not
implemented" error carrying issue reference 8675, which is different from the
undefined-relation error, and a table name that is neither defined nor listed
yields the undefined-relation error. -/
theorem table_lookup_outcomes (vs : VirtualSchemaHolder) (tn : TableName) :
    (vs.getVirtualSchemaEntry tn.Schema = none →
      vs.getVirtualTableEntry tn = .ok none ∧ vs.getVirtualTableDesc tn = .ok none) ∧
    (∀ db, vs.getVirtualSchemaEntry tn.Schema = some db →
      (∀ t, db.defs.get tn.Table = some t →
        vs.getVirtualTableEntry tn = .ok (some t) ∧
        vs.getVirtualTableDesc tn = .ok (some t.desc)) ∧
      (db.defs.get tn.Table = none → tn.Table ∈ db.allTableNames →
        vs.getVirtualTableEntry tn =
          .error (.unimplemented 8675 (tn.Schema ++ "." ++ tn.Table)
            ("virtual schema table not implemented: " ++ tn.Schema ++ "." ++ tn.Table)) ∧
        vs.getVirtualTableDesc tn =
          .error (.unimplemented 8675 (tn.Schema ++ "." ++ tn.Table)
            ("virtual schema table not implemented: " ++ tn.Schema ++ "." ++ tn.Table)) ∧
        Err.unimplemented 8675 (tn.Schema ++ "." ++ tn.Table)
            ("virtual schema table not implemented: " ++ tn.Schema ++ "." ++ tn.Table)
          ≠ NewUndefinedRelationError tn) ∧
      (db.defs.get tn.Table = none → tn.Table ∉ db.allTableNames →
        vs.getVirtualTableEntry tn = .error (NewUndefinedRelationError tn) ∧
        vs.getVirtualTableDesc tn = .error (NewUndefinedRelationError tn))) := by
  constructor
  · intro hschema
    simp [VirtualSchemaHolder.getVirtualTableDesc, VirtualSchemaHolder.getVirtualTableEntry,
      hschema]
  · intro db hschema
    refine ⟨?_, ?_, ?_⟩
    · intro t ht
      simp [VirtualSchemaHolder.getVirtualTableDesc, VirtualSchemaHolder.getVirtualTableEntry,
        hschema, ht]
    · intro hnone hlisted
      refine ⟨?_, ?_, ?_⟩
      · simp [VirtualSchemaHolder.getVirtualTableEntry, hschema, hnone, hlisted]
      · simp [VirtualSchemaHolder.getVirtualTableDesc, VirtualSchemaHolder.getVirtualTableEntry,
          hschema, hnone, hlisted]
      · simp [NewUndefinedRelationError]
    · intro hnone hlisted
      simp [VirtualSchemaHolder.getVirtualTableDesc, VirtualSchemaHolder.getVirtualTableEntry,
        hschema, hnone, hlisted]

theorem table_lookup_outcomes_witness :
    ∃ vs,
      NewVirtualSchemaHolder Sample.testSQL Sample.twoSchemas = .ok vs ∧
      (vs.getVirtualTableEntry ⟨"pg_catalog", "kv"⟩).map (Option.map fun e => e.desc.ID)
        = .ok (some 100) ∧
      vs.getVirtualTableEntry ⟨"pg_catalog", "pg_am"⟩ =
        .error (.unimplemented 8675 "pg_catalog.pg_am"
          "virtual schema table not implemented: pg_catalog.pg_am") ∧
      vs.getVirtualTableEntry ⟨"pg_catalog", "nope"⟩ =
        .error (.pgerror "42P01" "relation \"pg_catalog.nope\" does not exist") ∧
      (vs.getVirtualTableEntry ⟨"public", "kv"⟩ = .ok none ∧
        vs.getVirtualTableDesc ⟨"public", "kv"⟩ = .ok none) :=
  ⟨_, rfl, rfl, rfl, rfl, (table_lookup_outcomes _ ⟨"public", "kv"⟩).1 rfl⟩

theorem feedRows_eq_filter (e : virtualDefEntry) (table : TableDescriptor)
    (index : IndexDescriptor) (c : Constraint) :
    ∀ rows, (feedRows (addRowIfPassesFilter e table index c) rows).2.2 = none →
      (feedRows (addRowIfPassesFilter e table index c) rows).1 =
        rows.filter (passesFilter table index c) := by
  intro rows
  induction rows with
  | nil => intro _; rfl
  | cons row rest ih =>
    intro h
    simp only [feedRows] at h ⊢
    cases hadd : addRowIfPassesFilter e table index c row with
    | error err => simp [hadd] at h
    | ok pushed =>
      simp only [hadd] at h ⊢
      rw [ih h]
      unfold addRowIfPassesFilter at hadd
      cases hk : indexKeyDatums table row index.ColumnIDs with
      | none => simp [hk] at hadd
      | some key =>
        simp only [hk] at hadd
        by_cases hin : c.ContainsSpan (Span.Init (MakeCompositeKey key) .IncludeBoundary
            (MakeCompositeKey key) .IncludeBoundary) = true
        · simp only [hin, if_true] at hadd
          cases hv : validateRow e row with
          | error err => simp [hv] at hadd
          | ok u =>
            simp only [hv, Except.ok.injEq] at hadd
            subst hadd
            have hpass : passesFilter table index c row = true := by
              simp only [passesFilter, hk]; exact hin
            simp [List.filter_cons, hpass]
        · simp only [hin, if_false, Bool.false_eq_true, Except.ok.injEq] at hadd
          subst hadd
          have hpass : passesFilter table index c row = false := by
            simp only [passesFilter, hk]
            simpa using hin
          simp [List.filter_cons, hpass]

theorem truncate_containsSpan_of (c : Constraint) (n : Nat) (sp : Span)
    (h : (c.Truncate n).ContainsSpan sp = true) : c.ContainsSpan sp = true := by
  simp only [Constraint.ContainsSpan, Constraint.Truncate, List.any_eq_true] at h ⊢
  obtain ⟨s, hs, hc⟩ := h
  exact ⟨s, List.mem_of_mem_take hs, hc⟩

theorem fallbackScan_rows_in_constraint (e : virtualDefEntry) (table : TableDescriptor)
    (index : IndexDescriptor) (d : virtualSchemaTable) (p : planner)
    (dbDesc : Option DatabaseDescriptor) (c : Constraint) (n : Nat) :
    ∀ r ∈ (fallbackScan e table index d p dbDesc c n).rows,
      ∃ key, indexKeyDatums table r index.ColumnIDs = some key ∧
        c.ContainsSpan (keySpan key) = true := by
  unfold fallbackScan
  cases hp : d.populate with
  | none => intro r hr; simp at hr
  | some populate =>
    simp only []
    apply feedRows_pushed_of
    intro row out hout r hr
    obtain ⟨hrow, _, key, hk, hin⟩ :=
      addRowIfPassesFilter_ok e table index _ row out hout r hr
    subst hrow
    exact ⟨key, hk, truncate_containsSpan_of c (n + 1) _ hin⟩

theorem constrainedLoop_rows_in_constraint (e : virtualDefEntry) (table : TableDescriptor)
    (index : IndexDescriptor) (d : virtualSchemaTable) (p : planner)
    (dbDesc : Option DatabaseDescriptor) (c : Constraint) :
    ∀ n, ∀ r ∈ (constrainedLoop e table index d p dbDesc c n).rows,
      ∃ key, indexKeyDatums table r index.ColumnIDs = some key ∧
        c.ContainsSpan (keySpan key) = true := by
  have hfed : ∀ rows, ∀ r ∈ (feedRows (addRowIfPassesFilter e table index c) rows).1,
      ∃ key, indexKeyDatums table r index.ColumnIDs = some key ∧
        c.ContainsSpan (keySpan key) = true := by
    intro rows
    apply feedRows_pushed_of
    intro row out hout r hr
    obtain ⟨hrow, _, key, hk, hin⟩ :=
      addRowIfPassesFilter_ok e table index c row out hout r hr
    subst hrow
    exact ⟨key, hk, hin⟩
  intro n
  induction n with
  | zero => intro r hr; simp [constrainedLoop] at hr
  | succ n ih =>
    intro r hr
    rcases constrainedLoop_succ_cases e table index d p dbDesc c n with
      ⟨err0, h⟩ | ⟨span, _, _, h⟩ | ⟨key, vi, _, _, h⟩
    · rw [h] at hr; simp at hr
    · rw [h] at hr
      exact fallbackScan_rows_in_constraint e table index d p dbDesc c n r hr
    · rcases h with ⟨err1, _, h⟩ | ⟨_, _, _, h⟩ | ⟨_, _, h⟩
      · rw [h] at hr
        exact hfed _ r hr
      · rw [h] at hr
        simp only [Scan.after, List.mem_append] at hr
        rcases hr with hr | hr
        · exact hfed _ r hr
        · exact fallbackScan_rows_in_constraint e table index d p dbDesc c n r hr
      · rw [h] at hr
        simp only [Scan.after, List.mem_append] at hr
        rcases hr with hr | hr
        · exact hfed _ r hr
        · exact ih r hr

theorem constrainedLoop_idxConstraint (e : virtualDefEntry) (table : TableDescriptor)
    (index : IndexDescriptor) (d : virtualSchemaTable) (p : planner)
    (dbDesc : Option DatabaseDescriptor) (c : Constraint) :
    ∀ n, (constrainedLoop e table index d p dbDesc c n).idxConstraint = some c ∨
      ∃ m, (constrainedLoop e table index d p dbDesc c n).idxConstraint
        = some (c.Truncate m) := by
  have hfall : ∀ n, (fallbackScan e table index d p dbDesc c n).idxConstraint
      = some (c.Truncate (n + 1)) := by
    intro n
    unfold fallbackScan
    cases d.populate <;> rfl
  intro n
  induction n with
  | zero => left; rfl
  | succ n ih =>
    rcases constrainedLoop_succ_cases e table index d p dbDesc c n with
      ⟨err0, h⟩ | ⟨span, _, _, h⟩ | ⟨key, vi, _, _, h⟩
    · left; rw [h]
    · right; exact ⟨n + 1, by rw [h]; exact hfall n⟩
    · rcases h with ⟨err1, _, h⟩ | ⟨_, _, _, h⟩ | ⟨_, _, h⟩
      · left; rw [h]
      · right; exact ⟨n + 1, by rw [h]; exact hfall n⟩
      · rw [h]; exact ih

theorem addRowIfPassesFilter_outside (e : virtualDefEntry) (table : TableDescriptor)
    (index : IndexDescriptor) (c : Constraint) (row : Row) (key : Key)
    (hk : indexKeyDatums table row index.ColumnIDs = some key)
    (hout : c.ContainsSpan (keySpan key) = false) :
    addRowIfPassesFilter e table index c row = .ok [] := by
  have hout2 : c.ContainsSpan (Span.Init (MakeCompositeKey key) .IncludeBoundary
      (MakeCompositeKey key) .IncludeBoundary) = false := hout
  simp [addRowIfPassesFilter, hk, hout2]

theorem lookup_accepted_eq (e : virtualDefEntry) (table : TableDescriptor)
    (index : IndexDescriptor) (d : virtualSchemaTable) (p : planner)
    (dbDesc : Option DatabaseDescriptor) (c : Constraint) (key : Datum) (vi : virtualIndex)
    (hvi : d.getIndex index.ID = some vi)
    (herr : routineErr
      (feedRows (addRowIfPassesFilter e table index c) (vi.populate key p dbDesc).rows).2.2
      (vi.populate key p dbDesc).err = none) :
    (feedRows (addRowIfPassesFilter e table index c) (vi.populate key p dbDesc).rows).1 =
      (indexRows d index p dbDesc key).filter (passesFilter table index c) := by
  rw [feedRows_eq_filter e table index c _ (routineErr_none _ _ herr)]
  simp only [indexRows, hvi]

theorem take_succ_drop (spans : List Span) (n i : Nat) (span : Span)
    (hspan : spans[n]? = some span) (hi : i ≤ n) :
    (spans.take (n + 1)).drop i = (spans.take n).drop i ++ [span] := by
  have hn : n < spans.length := by
    by_contra hge
    rw [List.getElem?_eq_none (by omega)] at hspan
    cases hspan
  rw [List.take_succ, hspan]
  simp only [Option.toList]
  rw [List.drop_append_of_le_length (by rw [List.length_take]; omega)]

theorem take_succ_drop_self (spans : List Span) (n : Nat) :
    (spans.take (n + 1)).drop (n + 1) = [] := by
  apply List.drop_eq_nil_of_le
  rw [List.length_take]
  omega

/-- The shape of a constrained scan that leaves the loop for the fallback: the
position `i` at which the loop stops, and the keys of the point lookups made
before it, in the order of the lookups. -/
theorem constrainedLoop_bailout (e : virtualDefEntry) (table : TableDescriptor)
    (index : IndexDescriptor) (d : virtualSchemaTable) (p : planner)
    (dbDesc : Option DatabaseDescriptor) (c : Constraint)
    (populate : planner → Option DatabaseDescriptor → PopulateRun)
    (hpop : d.populate = some populate) :
    ∀ n, (∃ received err,
        Call.populate received err ∈ (constrainedLoop e table index d p dbDesc c n).calls) →
      ∃ i keys, i < n ∧
        (c.Spans.take n).drop (i + 1) = keys.reverse.map (fun key => keySpan [key]) ∧
        (constrainedLoop e table index d p dbDesc c n).idxConstraint
          = some (c.Truncate (i + 1)) ∧
        (constrainedLoop e table index d p dbDesc c n).err
          = (fallbackScan e table index d p dbDesc c i).err ∧
        ((∃ span, c.Spans[i]? = some span ∧ span.HasSingleKey = false ∧
            (constrainedLoop e table index d p dbDesc c n).rows =
              lookupsAccepted table index d c p dbDesc keys ++
                (fallbackScan e table index d p dbDesc c i).rows ∧
            (constrainedLoop e table index d p dbDesc c n).calls.map Call.constraintDatum =
              keys.map some ++ [none]) ∨
         (∃ key vi, c.Spans[i]? = some (keySpan [key]) ∧ d.getIndex index.ID = some vi ∧
            vi.isPartial = true ∧
            lookupResult e table index vi p dbDesc c key = (false, none) ∧
            (constrainedLoop e table index d p dbDesc c n).rows =
              lookupsAccepted table index d c p dbDesc (keys ++ [key]) ++
                (fallbackScan e table index d p dbDesc c i).rows ∧
            (constrainedLoop e table index d p dbDesc c n).calls.map Call.constraintDatum =
              (keys ++ [key]).map some ++ [none])) := by
  have hfallC : ∀ n, (fallbackScan e table index d p dbDesc c n).idxConstraint
      = some (c.Truncate (n + 1)) := by
    intro n
    unfold fallbackScan
    cases d.populate <;> rfl
  have hfallCalls : ∀ n,
      (fallbackScan e table index d p dbDesc c n).calls.map Call.constraintDatum = [none] := by
    intro n
    obtain ⟨recvB, errB, hcalls, _⟩ :=
      fallbackScan_emits e table index d p dbDesc c n populate hpop
    rw [hcalls]; rfl
  intro n
  induction n with
  | zero => intro ⟨received, err, h⟩; simp [constrainedLoop] at h
  | succ n ih =>
    intro ⟨received, err, hmem⟩
    rcases constrainedLoop_succ_cases e table index d p dbDesc c n with
      ⟨err0, h⟩ | ⟨span, hspan, hsingle, h⟩ | ⟨key, vi, hspan, hvi, h⟩
    · rw [h] at hmem; simp at hmem
    · refine ⟨n, [], Nat.lt_succ_self n, ?_, ?_, ?_, Or.inl ⟨span, hspan, hsingle, ?_, ?_⟩⟩
      · simp [take_succ_drop_self c.Spans n]
      · rw [h]; exact hfallC n
      · rw [h]
      · rw [h]; simp [lookupsAccepted]
      · rw [h]; simpa using hfallCalls n
    · rcases h with ⟨err1, _, h⟩ | ⟨herr, hmatched, hpart, h⟩ | ⟨herr, hcont, h⟩
      · rw [h] at hmem
        simp at hmem
      · refine ⟨n, [], Nat.lt_succ_self n, ?_, ?_, ?_,
          Or.inr ⟨key, vi, hspan, hvi, hpart, ?_, ?_, ?_⟩⟩
        · simp [take_succ_drop_self c.Spans n]
        · rw [h]; exact hfallC n
        · rw [h]; rfl
        · simp only [lookupResult, hmatched, herr]
        · rw [h]
          simp only [Scan.after, List.nil_append, lookupsAccepted, List.append_nil]
          rw [lookup_accepted_eq e table index d p dbDesc c key vi hvi herr]
        · rw [h]
          simp only [Scan.after, List.map_cons, hfallCalls n]
          rfl
      · have hmem2 : ∃ received err, Call.populate received err ∈
            (constrainedLoop e table index d p dbDesc c n).calls := by
          rw [h] at hmem
          simp only [Scan.after, List.mem_cons] at hmem
          rcases hmem with hmem | hmem
          · cases hmem
          · exact ⟨received, err, hmem⟩
        obtain ⟨i, keys, hi, hspans, hidx, herr2, hshape⟩ := ih hmem2
        refine ⟨i, key :: keys, Nat.lt_succ_of_lt hi, ?_, ?_, ?_, ?_⟩
        · rw [take_succ_drop c.Spans n (i + 1) _ hspan (by omega), hspans]
          simp
        · rw [h]; exact hidx
        · rw [h]; exact herr2
        · rcases hshape with ⟨span, hs, hsingle, hrows, hcalls⟩ |
            ⟨key0, vi0, hs, hvi0, hpart0, hres0, hrows, hcalls⟩
          · refine Or.inl ⟨span, hs, hsingle, ?_, ?_⟩
            · rw [h]
              simp only [Scan.after, hrows, lookupsAccepted, List.append_assoc]
              rw [lookup_accepted_eq e table index d p dbDesc c key vi hvi herr]
            · rw [h]
              simp only [Scan.after, List.map_cons, hcalls, List.cons_append]
              rfl
          · refine Or.inr ⟨key0, vi0, hs, hvi0, hpart0, hres0, ?_, ?_⟩
            · rw [h]
              simp only [Scan.after, hrows, List.cons_append, lookupsAccepted,
                List.append_assoc]
              rw [lookup_accepted_eq e table index d p dbDesc c key vi hvi herr]
              rfl
            · rw [h]
              simp only [Scan.after, List.map_cons, hcalls, List.cons_append]
              rfl

/-- The shape of a constrained scan whose spans are all single keys and whose
lookups all let the loop go on. -/
theorem constrainedLoop_all_lookups (e : virtualDefEntry) (table : TableDescriptor)
    (index : IndexDescriptor) (d : virtualSchemaTable) (p : planner)
    (dbDesc : Option DatabaseDescriptor) (c : Constraint) (vi : virtualIndex)
    (keys : List Datum)
    (hvi : d.getIndex index.ID = some vi)
    (hspans : c.Spans = keys.map fun key => keySpan [key])
    (hcont : ∀ key ∈ keys, lookupContinues e table index vi p dbDesc c key = true) :
    ∀ n, n ≤ keys.length →
      (constrainedLoop e table index d p dbDesc c n).calls.map Call.constraintDatum =
        (keys.take n).reverse.map some ∧
      (constrainedLoop e table index d p dbDesc c n).rows =
        lookupsAccepted table index d c p dbDesc (keys.take n).reverse ∧
      (constrainedLoop e table index d p dbDesc c n).err = none ∧
      (constrainedLoop e table index d p dbDesc c n).idxConstraint = some c := by
  intro n
  induction n with
  | zero => intro _; simp [constrainedLoop, lookupsAccepted]
  | succ n ih =>
    intro hn
    obtain ⟨ih1, ih2, ih3, ih4⟩ := ih (by omega)
    have hlt : n < keys.length := by omega
    have hkey : keys[n]? = some (keys.get ⟨n, hlt⟩) := List.getElem?_eq_getElem hlt
    have hspan : c.Spans[n]? = some (keySpan [keys.get ⟨n, hlt⟩]) := by
      rw [hspans, List.getElem?_map, hkey]; rfl
    have hmem : keys.get ⟨n, hlt⟩ ∈ keys := List.get_mem keys n hlt
    have hc := hcont _ hmem
    have herr : routineErr
        (feedRows (addRowIfPassesFilter e table index c)
          (vi.populate (keys.get ⟨n, hlt⟩) p dbDesc).rows).2.2
        (vi.populate (keys.get ⟨n, hlt⟩) p dbDesc).err = none := by
      simp only [lookupContinues, Bool.and_eq_true, Option.isNone_iff_eq_none] at hc
      exact hc.1
    have htake : (keys.take (n + 1)).reverse = keys.get ⟨n, hlt⟩ :: (keys.take n).reverse := by
      rw [List.take_succ, hkey]
      simp
    rw [constrainedLoop_continue e table index d p dbDesc c n _ vi hspan hvi hc, htake]
    refine ⟨?_, ?_, ?_, ?_⟩
    · simp only [Scan.after, List.map_cons, ih1]
      rfl
    · simp only [Scan.after, lookupsAccepted, ih2]
      rw [lookup_accepted_eq e table index d p dbDesc c _ vi hvi herr]
    · exact ih3
    · exact ih4

theorem keySpans_constrained (keys : List Datum) :
    (Constraint.mk (keys.map fun key => keySpan [key])).IsUnconstrained = false := by
  match keys with
  | [] => rfl
  | [key] =>
    simp [Constraint.IsUnconstrained, Span.IsUnconstrained, keySpan, Span.Init]
  | _ :: _ :: _ => rfl

/-- C25: for a constraint of n single-column, single-key spans on a
non-partial secondary index whose routine returns no error, the constrained
scan invokes the index routine exactly n times, with the start-key values of
the spans n-1, n-2, ..., 0 in that order, and never invokes the bulk
population routine; it ends without error and emits the accepted rows of the
lookups in that order. For the one-span constraint `k = 1` on `indexedDef`
this is one invocation with value 1 and no fallback scan. -/
theorem point_lookups_last_span_first (e : virtualDefEntry) (d : virtualSchemaTable)
    (table : TableDescriptor) (index : IndexDescriptor) (c : Constraint) (vi : virtualIndex)
    (keys : List Datum) (p : planner) (dbName : String) (dbDesc : Option DatabaseDescriptor)
    (node : virtualTableNode)
    (hdef : e.virtualDef = .table d) (hgen : d.generator = none)
    (hvi : d.getIndex index.ID = some vi) (hnonpart : vi.isPartial = false)
    (hspans : c.Spans = keys.map fun key => keySpan [key])
    (hdb : resolveDatabase e p dbName = .ok dbDesc)
    (hnode : (getPlanInfo e table index (some c)).2 p dbName = .ok node)
    (hok : ∀ key ∈ keys, (lookupResult e table index vi p dbDesc c key).2 = none) :
    node.scan.calls.map Call.constraintDatum = keys.reverse.map some ∧
    node.scan.calls.length = keys.length ∧
    (∀ call ∈ node.scan.calls, call.isIndex = true) ∧
    node.scan.err = none ∧
    node.scan.rows = lookupsAccepted table index d c p dbDesc keys.reverse ∧
    (∃ node1,
      (getPlanInfo (Sample.kvEntry Sample.indexedDef true) Sample.kvDesc Sample.kIndex
        (some ⟨[Sample.pointSpan 1]⟩)).2 Sample.testPlanner "db" = .ok node1 ∧
      node1.scan.calls =
        [Call.index (.DInt 1) [Sample.kvRow 1 10, Sample.kvRow 1 11] true none]) := by
  obtain ⟨dbDesc2, hdb2, hplan⟩ := getPlanInfo_ok e table index (some c) p dbName node hnode
  rw [hdb] at hdb2
  cases hdb2
  have hcu : c.IsUnconstrained = false := by
    have := keySpans_constrained keys
    rw [← hspans] at this
    exact this
  have hcont : ∀ key ∈ keys, lookupContinues e table index vi p dbDesc c key = true := by
    intro key hkey
    have := hok key hkey
    simp only [lookupResult] at this
    simp [lookupContinues, this, hnonpart]
  have hscan : node.scan = constrainedWorker e table index d p dbDesc c := by
    rcases planVirtualDef_bulk e d table index (some c) p dbDesc node hdef hgen hplan with
      ⟨hcs, _⟩ | ⟨c2, hc2, _, _, hscan⟩
    · simp [constrainedScan, hcu] at hcs
    · cases hc2; exact hscan
  have hlen : c.Spans.length = keys.length := by rw [hspans, List.length_map]
  obtain ⟨h1, h2, h3, _⟩ := constrainedLoop_all_lookups e table index d p dbDesc c vi keys hvi
    hspans hcont keys.length (Nat.le_refl _)
  rw [List.take_length] at h1 h2
  rw [hscan]
  unfold constrainedWorker
  rw [hlen]
  refine ⟨h1, ?_, ?_, h3, h2, _, rfl, rfl⟩
  · have := congrArg List.length h1
    simpa using this
  · intro call hcall
    have hm : call.constraintDatum ∈
        (constrainedLoop e table index d p dbDesc c keys.length).calls.map
          Call.constraintDatum := List.mem_map_of_mem _ hcall
    rw [h1] at hm
    simp only [List.mem_map] at hm
    obtain ⟨key, _, hkey⟩ := hm
    cases call with
    | index _ _ _ _ => rfl
    | populate _ _ => simp [Call.constraintDatum] at hkey

theorem point_lookups_last_span_first_witness :
    ∃ node,
      (getPlanInfo (Sample.kvEntry Sample.indexedDef true) Sample.kvDesc Sample.kIndex
        (some ⟨[Sample.pointSpan 1, Sample.pointSpan 2]⟩)).2 Sample.testPlanner "db"
        = .ok node ∧
      node.scan.calls =
        [Call.index (.DInt 2) [Sample.kvRow 2 20] true none,
         Call.index (.DInt 1) [Sample.kvRow 1 10, Sample.kvRow 1 11] true none] ∧
      node.scan.calls.map Call.constraintDatum = [Datum.DInt 1, Datum.DInt 2].reverse.map some ∧
      node.scan.calls.length = [Datum.DInt 1, Datum.DInt 2].length :=
  ⟨_, rfl, rfl,
    (point_lookups_last_span_first (Sample.kvEntry Sample.indexedDef true) Sample.indexedDef
      Sample.kvDesc Sample.kIndex ⟨[Sample.pointSpan 1, Sample.pointSpan 2]⟩
      (Sample.lookupIn [Sample.kvRow 1 10, Sample.kvRow 2 20, Sample.kvRow 1 11] false)
      [.DInt 1, .DInt 2] Sample.testPlanner "db" (some { Name := "db", ID := 50 }) _
      rfl rfl rfl rfl rfl rfl rfl (by decide)).1,
    (point_lookups_last_span_first (Sample.kvEntry Sample.indexedDef true) Sample.indexedDef
      Sample.kvDesc Sample.kIndex ⟨[Sample.pointSpan 1, Sample.pointSpan 2]⟩
      (Sample.lookupIn [Sample.kvRow 1 10, Sample.kvRow 2 20, Sample.kvRow 1 11] false)
      [.DInt 1, .DInt 2] Sample.testPlanner "db" (some { Name := "db", ID := 50 }) _
      rfl rfl rfl rfl rfl rfl rfl (by decide)).2.1⟩

theorem fallbackScan_rows_eq (e : virtualDefEntry) (table : TableDescriptor)
    (index : IndexDescriptor) (d : virtualSchemaTable) (p : planner)
    (dbDesc : Option DatabaseDescriptor) (c : Constraint) (i : Nat)
    (populate : planner → Option DatabaseDescriptor → PopulateRun)
    (hpop : d.populate = some populate) :
    (fallbackScan e table index d p dbDesc c i).rows =
      (feedRows (addRowIfPassesFilter e table index (c.Truncate (i + 1)))
        (populate p dbDesc).rows).1 ∧
    ((fallbackScan e table index d p dbDesc c i).err = none →
      (fallbackScan e table index d p dbDesc c i).rows =
        (populate p dbDesc).rows.filter (passesFilter table index (c.Truncate (i + 1)))) := by
  unfold fallbackScan
  simp only [hpop, true_and]
  intro herr
  exact feedRows_eq_filter e table index _ _ (routineErr_none _ _ herr)

/-- A constrained scan of a bulk-population table is the worker of the
constrained scan. -/
theorem constrained_scan_eq (e : virtualDefEntry) (d : virtualSchemaTable)
    (table : TableDescriptor) (index : IndexDescriptor) (c : Constraint)
    (p : planner) (dbName : String) (dbDesc : Option DatabaseDescriptor)
    (node : virtualTableNode)
    (hdef : e.virtualDef = .table d) (hgen : d.generator = none)
    (hcs : c.IsUnconstrained = false)
    (hdb : resolveDatabase e p dbName = .ok dbDesc)
    (hnode : (getPlanInfo e table index (some c)).2 p dbName = .ok node) :
    index.ID ≠ 1 ∧
    node.scan = constrainedLoop e table index d p dbDesc c c.Spans.length := by
  obtain ⟨dbDesc2, hdb2, hplan⟩ := getPlanInfo_ok e table index (some c) p dbName node hnode
  rw [hdb] at hdb2
  cases hdb2
  rcases planVirtualDef_bulk e d table index (some c) p dbDesc node hdef hgen hplan with
    ⟨h, _⟩ | ⟨c2, hc2, _, hid, hscan⟩
  · simp [constrainedScan, hcs] at h
  · cases hc2
    exact ⟨hid, hscan⟩

/-- C26, as stated, fails. The partial index routine of `misreportDef` emits
the row `(3,30)` for the key 3 and reports no match: on the constraint `k = 3`
the scan bails out at span 0, no span comes after it, the bulk routine's rows
that pass the span filter are `(3,30)`, and the scan emits `(3,30)` twice, the
first time from the lookup that missed. The bulk routine of `abortingDef`
emits `(6,'x')`, which passes the span filter and fails the validator: on
`5 <= k <= 9`, `k = 20` the scan bails out at span 0 after the lookup of
`k = 20`, and it emits `(20,200)` only, not the rows `(6,'x')` and `(7,70)`
that pass the span filter. -/
theorem bailout_rows_not_as_claimed :
    (∃ node,
      (getPlanInfo (Sample.kvEntry Sample.misreportDef true) Sample.kvDesc Sample.kIndex
        (some ⟨[Sample.pointSpan 3]⟩)).2 Sample.testPlanner "db" = .ok node ∧
      node.scan.calls =
        [Call.index (.DInt 3) [Sample.kvRow 3 30] false none,
         Call.populate [Sample.kvRow 3 30] none] ∧
      (Constraint.mk [Sample.pointSpan 3]).Spans.drop 1 = [] ∧
      (Sample.emits [Sample.kvRow 3 30] Sample.testPlanner Sample.dbDesc).rows.filter
          (passesFilter Sample.kvDesc Sample.kIndex ⟨[Sample.pointSpan 3]⟩)
        = [Sample.kvRow 3 30] ∧
      node.scan.rows = [Sample.kvRow 3 30, Sample.kvRow 3 30]) ∧
    (∃ node,
      (getPlanInfo (Sample.kvEntry Sample.abortingDef true) Sample.kvDesc Sample.kIndex
        (some ⟨[Sample.rangeSpan 5 9, Sample.pointSpan 20]⟩)).2 Sample.testPlanner "db"
        = .ok node ∧
      node.scan.calls.map Call.constraintDatum = [some (.DInt 20), none] ∧
      lookupsAccepted Sample.kvDesc Sample.kIndex Sample.abortingDef
          ⟨[Sample.rangeSpan 5 9, Sample.pointSpan 20]⟩ Sample.testPlanner Sample.dbDesc
          [.DInt 20] ++
        (Sample.emits Sample.rowsAborting Sample.testPlanner Sample.dbDesc).rows.filter
          (passesFilter Sample.kvDesc Sample.kIndex ⟨[Sample.rangeSpan 5 9]⟩)
        = [Sample.kvRow 20 200, [.DInt 6, .DString "x"], Sample.kvRow 7 70] ∧
      node.scan.rows = [Sample.kvRow 20 200]) :=
  ⟨⟨_, rfl, by decide, by decide, by decide, by decide⟩,
    ⟨_, rfl, by decide, by decide, by decide⟩⟩

/-- C26, amended: for a constrained scan of a bulk-population table that bails
out at span index `i`, the emitted row sequence is the concatenation of the
accepted rows of the point lookups for the spans n-1 down to i+1 (each
lookup's rows in the order its routine emitted them), then, when the bail-out
is the miss of a partial index, the accepted rows of the lookup for span `i`
itself, followed by the rows of the bulk population routine that the filter
over the first `i + 1` spans accepts before the scan ends, in the bulk
routine's emission order; when the scan ends without error these are all rows
of the bulk routine that pass the span filter. No fallback row precedes a
point-lookup row. -/
theorem bailout_rows_in_order (e : virtualDefEntry) (d : virtualSchemaTable)
    (table : TableDescriptor) (index : IndexDescriptor) (c : Constraint)
    (populate : planner → Option DatabaseDescriptor → PopulateRun)
    (p : planner) (dbName : String) (dbDesc : Option DatabaseDescriptor)
    (node : virtualTableNode)
    (hdef : e.virtualDef = .table d) (hpop : d.populate = some populate)
    (hgen : d.generator = none) (hcs : c.IsUnconstrained = false)
    (hdb : resolveDatabase e p dbName = .ok dbDesc)
    (hnode : (getPlanInfo e table index (some c)).2 p dbName = .ok node)
    (hbail : ∃ received err, Call.populate received err ∈ node.scan.calls) :
    ∃ i keys lookups, i < c.Spans.length ∧
      c.Spans.drop (i + 1) = keys.reverse.map (fun key => keySpan [key]) ∧
      ((∃ span, c.Spans[i]? = some span ∧ span.HasSingleKey = false ∧ lookups = keys) ∨
       (∃ key vi, c.Spans[i]? = some (keySpan [key]) ∧ d.getIndex index.ID = some vi ∧
          vi.isPartial = true ∧
          lookupResult e table index vi p dbDesc c key = (false, none) ∧
          lookups = keys ++ [key])) ∧
      node.scan.rows =
        lookupsAccepted table index d c p dbDesc lookups ++
          (feedRows (addRowIfPassesFilter e table index (c.Truncate (i + 1)))
            (populate p dbDesc).rows).1 ∧
      (node.scan.err = none →
        node.scan.rows =
          lookupsAccepted table index d c p dbDesc lookups ++
            (populate p dbDesc).rows.filter (passesFilter table index (c.Truncate (i + 1)))) := by
  obtain ⟨_, hscan⟩ := constrained_scan_eq e d table index c p dbName dbDesc node hdef hgen hcs
    hdb hnode
  rw [hscan] at hbail ⊢
  obtain ⟨i, keys, hi, hspans, _, herr, hshape⟩ :=
    constrainedLoop_bailout e table index d p dbDesc c populate hpop c.Spans.length hbail
  rw [List.take_length] at hspans
  obtain ⟨hfall, hfallOk⟩ := fallbackScan_rows_eq e table index d p dbDesc c i populate hpop
  rcases hshape with ⟨span, hs, hsingle, hrows, _⟩ | ⟨key, vi, hs, hvi, hpart, hres, hrows, _⟩
  · refine ⟨i, keys, keys, hi, hspans, Or.inl ⟨span, hs, hsingle, rfl⟩, ?_, ?_⟩
    · rw [hrows, hfall]
    · intro hnone
      rw [hrows, hfallOk (herr ▸ hnone)]
  · refine ⟨i, keys, keys ++ [key], hi, hspans,
      Or.inr ⟨key, vi, hs, hvi, hpart, hres, rfl⟩, ?_, ?_⟩
    · rw [hrows, hfall]
    · intro hnone
      rw [hrows, hfallOk (herr ▸ hnone)]

theorem bailout_rows_in_order_witness :
    (Sample.scanNode Sample.partialIndexedDef
      ⟨[Sample.pointSpan 1, Sample.pointSpan 5, Sample.pointSpan 7]⟩).scan.rows
      = [Sample.kvRow 7 70, Sample.kvRow 1 10] ∧
    ∃ i keys lookups,
      i < (Constraint.mk [Sample.pointSpan 1, Sample.pointSpan 5, Sample.pointSpan 7]).Spans.length ∧
      (Constraint.mk [Sample.pointSpan 1, Sample.pointSpan 5, Sample.pointSpan 7]).Spans.drop
          (i + 1) = keys.reverse.map (fun key => keySpan [key]) ∧
      ((∃ span,
          (Constraint.mk [Sample.pointSpan 1, Sample.pointSpan 5, Sample.pointSpan 7]).Spans[i]?
            = some span ∧ span.HasSingleKey = false ∧ lookups = keys) ∨
       (∃ key vi,
          (Constraint.mk [Sample.pointSpan 1, Sample.pointSpan 5, Sample.pointSpan 7]).Spans[i]?
            = some (keySpan [key]) ∧
          Sample.partialIndexedDef.getIndex Sample.kIndex.ID = some vi ∧
          vi.isPartial = true ∧
          lookupResult (Sample.kvEntry Sample.partialIndexedDef true) Sample.kvDesc
            Sample.kIndex vi Sample.testPlanner Sample.dbDesc
            ⟨[Sample.pointSpan 1, Sample.pointSpan 5, Sample.pointSpan 7]⟩ key = (false, none) ∧
          lookups = keys ++ [key])) ∧
      (Sample.scanNode Sample.partialIndexedDef
        ⟨[Sample.pointSpan 1, Sample.pointSpan 5, Sample.pointSpan 7]⟩).scan.rows =
        lookupsAccepted Sample.kvDesc Sample.kIndex Sample.partialIndexedDef
            ⟨[Sample.pointSpan 1, Sample.pointSpan 5, Sample.pointSpan 7]⟩ Sample.testPlanner
            Sample.dbDesc lookups ++
          (feedRows
            (addRowIfPassesFilter (Sample.kvEntry Sample.partialIndexedDef true) Sample.kvDesc
              Sample.kIndex
              ((Constraint.mk [Sample.pointSpan 1, Sample.pointSpan 5,
                Sample.pointSpan 7]).Truncate (i + 1)))
            (Sample.emits
              [Sample.kvRow 1 10, Sample.kvRow 3 30, Sample.kvRow 7 70, Sample.kvRow 3 31]
              Sample.testPlanner Sample.dbDesc).rows).1 ∧
      ((Sample.scanNode Sample.partialIndexedDef
          ⟨[Sample.pointSpan 1, Sample.pointSpan 5, Sample.pointSpan 7]⟩).scan.err = none →
        (Sample.scanNode Sample.partialIndexedDef
          ⟨[Sample.pointSpan 1, Sample.pointSpan 5, Sample.pointSpan 7]⟩).scan.rows =
          lookupsAccepted Sample.kvDesc Sample.kIndex Sample.partialIndexedDef
              ⟨[Sample.pointSpan 1, Sample.pointSpan 5, Sample.pointSpan 7]⟩ Sample.testPlanner
              Sample.dbDesc lookups ++
            (Sample.emits
              [Sample.kvRow 1 10, Sample.kvRow 3 30, Sample.kvRow 7 70, Sample.kvRow 3 31]
              Sample.testPlanner Sample.dbDesc).rows.filter
              (passesFilter Sample.kvDesc Sample.kIndex
                ((Constraint.mk [Sample.pointSpan 1, Sample.pointSpan 5,
                  Sample.pointSpan 7]).Truncate (i + 1)))) :=
  ⟨by decide,
    bailout_rows_in_order (Sample.kvEntry Sample.partialIndexedDef true)
      Sample.partialIndexedDef Sample.kvDesc Sample.kIndex
      ⟨[Sample.pointSpan 1, Sample.pointSpan 5, Sample.pointSpan 7]⟩
      (Sample.emits [Sample.kvRow 1 10, Sample.kvRow 3 30, Sample.kvRow 7 70, Sample.kvRow 3 31])
      Sample.testPlanner "db" Sample.dbDesc
      (Sample.scanNode Sample.partialIndexedDef
        ⟨[Sample.pointSpan 1, Sample.pointSpan 5, Sample.pointSpan 7]⟩)
      rfl rfl rfl rfl rfl rfl
      ⟨[Sample.kvRow 1 10, Sample.kvRow 3 30, Sample.kvRow 7 70, Sample.kvRow 3 31], none,
        by decide⟩⟩

/-- One turn of the loop on a single-key span whose lookup on a partial index
reports no match: the scan leaves for the fallback at that span. -/
theorem constrainedLoop_miss_step (e : virtualDefEntry) (table : TableDescriptor)
    (index : IndexDescriptor) (d : virtualSchemaTable) (p : planner)
    (dbDesc : Option DatabaseDescriptor) (c : Constraint) (n : Nat) (key : Datum)
    (vi : virtualIndex)
    (hspan : c.Spans[n]? = some (keySpan [key])) (hvi : d.getIndex index.ID = some vi)
    (hpart : vi.isPartial = true)
    (hmiss : lookupResult e table index vi p dbDesc c key = (false, none)) :
    constrainedLoop e table index d p dbDesc c (n + 1) =
      (fallbackScan e table index d p dbDesc c n).after
        (feedRows (addRowIfPassesFilter e table index c) (vi.populate key p dbDesc).rows).1
        (Call.index key
          (feedRows (addRowIfPassesFilter e table index c) (vi.populate key p dbDesc).rows).2.1
          false none) := by
  have hk0 : (keySpan [key]).StartKey[0]? = some key := rfl
  have hlen : ¬ (keySpan [key]).StartKey.length > 1 := by
    simp [keySpan, Span.Init, Span.StartKey]
  simp only [lookupResult, Prod.mk.injEq] at hmiss
  obtain ⟨hm, herr⟩ := hmiss
  rw [constrainedLoop]
  simp only [hspan, hlen, if_false, keySpan_hasSingleKey, Bool.not_true, Bool.false_eq_true,
    hk0, hvi, herr, hm, hpart]
  simp

/-- C24, as stated, fails: on the constraint `k = 1`, `k = 3` the scan of
`partialDef`, whose partial index reports no match, invokes the index routine
for `k = 3` and then the bulk routine, filtered by both spans; the index
routine is not invoked with the value 1, and `(1,10)` comes from the
fallback. -/
theorem first_span_not_looked_up :
    ∃ node,
      (getPlanInfo (Sample.kvEntry Sample.partialDef true) Sample.kvDesc Sample.kIndex
        (some ⟨[Sample.pointSpan 1, Sample.pointSpan 3]⟩)).2 Sample.testPlanner "db"
        = .ok node ∧
      node.scan.calls =
        [Call.index (.DInt 3) [] false none,
         Call.populate [Sample.kvRow 1 10, Sample.kvRow 3 30] none] ∧
      node.scan.idxConstraint = some ⟨[Sample.pointSpan 1, Sample.pointSpan 3]⟩ ∧
      node.scan.rows = [Sample.kvRow 1 10, Sample.kvRow 3 30] ∧
      ∀ call ∈ node.scan.calls, call.constraintDatum ≠ some (.DInt 1) :=
  ⟨_, rfl, by decide, by decide, by decide, by decide⟩

/-- C24, amended: for a bulk-population table with a partial index on `k` and
the constraint of the two single-key spans `k = 1` and `k = 3`, where the
index routine reports no match for `k = 3`: the `k = 3` span is processed
first and the loop stops on its miss; the index routine is invoked once, with
the value 3, and never with the value 1; the truncation keeps both spans, so
the fallback full scan is filtered to `k = 1` and `k = 3` and supplies the
matches of both keys: the scan emits the accepted rows of the `k = 3` lookup
followed by the rows of the bulk routine that the filter over both spans
accepts, which, when the scan ends without error, are all rows of the bulk
routine with `k = 1` or `k = 3`. -/
theorem partial_miss_on_last_span (e : virtualDefEntry) (d : virtualSchemaTable)
    (table : TableDescriptor) (index : IndexDescriptor)
    (populate : planner → Option DatabaseDescriptor → PopulateRun) (vi : virtualIndex)
    (p : planner) (dbName : String) (dbDesc : Option DatabaseDescriptor)
    (node : virtualTableNode)
    (hdef : e.virtualDef = .table d) (hpop : d.populate = some populate)
    (hgen : d.generator = none) (hvi : d.getIndex index.ID = some vi)
    (hpart : vi.isPartial = true)
    (hdb : resolveDatabase e p dbName = .ok dbDesc)
    (hnode : (getPlanInfo e table index
      (some ⟨[keySpan [.DInt 1], keySpan [.DInt 3]]⟩)).2 p dbName = .ok node)
    (hmiss : lookupResult e table index vi p dbDesc ⟨[keySpan [.DInt 1], keySpan [.DInt 3]]⟩
      (.DInt 3) = (false, none)) :
    node.scan.calls.map Call.constraintDatum = [some (.DInt 3), none] ∧
    (∀ call ∈ node.scan.calls, call.constraintDatum ≠ some (.DInt 1)) ∧
    node.scan.idxConstraint = some ⟨[keySpan [.DInt 1], keySpan [.DInt 3]]⟩ ∧
    node.scan.rows =
      (indexRows d index p dbDesc (.DInt 3)).filter
          (passesFilter table index ⟨[keySpan [.DInt 1], keySpan [.DInt 3]]⟩) ++
        (feedRows (addRowIfPassesFilter e table index ⟨[keySpan [.DInt 1], keySpan [.DInt 3]]⟩)
          (populate p dbDesc).rows).1 ∧
    (node.scan.err = none →
      node.scan.rows =
        (indexRows d index p dbDesc (.DInt 3)).filter
            (passesFilter table index ⟨[keySpan [.DInt 1], keySpan [.DInt 3]]⟩) ++
          (populate p dbDesc).rows.filter
            (passesFilter table index ⟨[keySpan [.DInt 1], keySpan [.DInt 3]]⟩)) := by
  obtain ⟨_, hscan⟩ := constrained_scan_eq e d table index
    ⟨[keySpan [.DInt 1], keySpan [.DInt 3]]⟩ p dbName dbDesc node hdef hgen rfl hdb hnode
  have hstep := constrainedLoop_miss_step e table index d p dbDesc
    ⟨[keySpan [.DInt 1], keySpan [.DInt 3]]⟩ 1 (.DInt 3) vi rfl hvi hpart hmiss
  have hlenC : (Constraint.mk [keySpan [.DInt 1], keySpan [.DInt 3]]).Spans.length = 1 + 1 := rfl
  rw [hlenC] at hscan
  rw [hstep] at hscan
  obtain ⟨hfall, hfallOk⟩ := fallbackScan_rows_eq e table index d p dbDesc
    ⟨[keySpan [.DInt 1], keySpan [.DInt 3]]⟩ 1 populate hpop
  have htrunc : (Constraint.mk [keySpan [.DInt 1], keySpan [.DInt 3]]).Truncate (1 + 1)
      = ⟨[keySpan [.DInt 1], keySpan [.DInt 3]]⟩ := rfl
  rw [htrunc] at hfall hfallOk
  obtain ⟨recvB, errB, hcalls, _⟩ := fallbackScan_emits e table index d p dbDesc
    ⟨[keySpan [.DInt 1], keySpan [.DInt 3]]⟩ 1 populate hpop
  have hidx : (fallbackScan e table index d p dbDesc
      ⟨[keySpan [.DInt 1], keySpan [.DInt 3]]⟩ 1).idxConstraint
      = some ⟨[keySpan [.DInt 1], keySpan [.DInt 3]]⟩ := by
    unfold fallbackScan
    cases d.populate <;> rfl
  have hmissErr := hmiss
  simp only [lookupResult, Prod.mk.injEq] at hmissErr
  have hacc := lookup_accepted_eq e table index d p dbDesc
    ⟨[keySpan [.DInt 1], keySpan [.DInt 3]]⟩ (.DInt 3) vi hvi hmissErr.2
  rw [hscan]
  refine ⟨?_, ?_, ?_, ?_, ?_⟩
  · simp only [Scan.after, List.map_cons, hcalls]
    rfl
  · intro call hcall
    simp only [Scan.after, hcalls, List.mem_cons, List.mem_singleton, List.not_mem_nil,
      or_false] at hcall
    rcases hcall with hcall | hcall
    · subst hcall
      simp [Call.constraintDatum]
    · subst hcall
      simp [Call.constraintDatum]
  · simp only [Scan.after, hidx]
  · simp only [Scan.after]
    rw [hacc, hfall]
  · intro hnone
    simp only [Scan.after] at hnone ⊢
    rw [hacc, hfallOk hnone]

theorem partial_miss_on_last_span_witness :
    (Sample.scanNode Sample.partialDef
      ⟨[keySpan [.DInt 1], keySpan [.DInt 3]]⟩).scan.calls.map Call.constraintDatum
      = [some (.DInt 3), none] ∧
    (Sample.scanNode Sample.partialDef ⟨[keySpan [.DInt 1], keySpan [.DInt 3]]⟩).scan.rows
      = [Sample.kvRow 1 10, Sample.kvRow 3 30] ∧
    (Sample.scanNode Sample.partialDef
      ⟨[keySpan [.DInt 1], keySpan [.DInt 3]]⟩).scan.idxConstraint
      = some ⟨[keySpan [.DInt 1], keySpan [.DInt 3]]⟩ :=
  ⟨(partial_miss_on_last_span (Sample.kvEntry Sample.partialDef true) Sample.partialDef
      Sample.kvDesc Sample.kIndex (Sample.emits [Sample.kvRow 1 10, Sample.kvRow 3 30])
      Sample.missingIndex Sample.testPlanner "db" Sample.dbDesc
      (Sample.scanNode Sample.partialDef ⟨[keySpan [.DInt 1], keySpan [.DInt 3]]⟩)
      rfl rfl rfl rfl rfl rfl rfl rfl).1,
    by decide,
    (partial_miss_on_last_span (Sample.kvEntry Sample.partialDef true) Sample.partialDef
      Sample.kvDesc Sample.kIndex (Sample.emits [Sample.kvRow 1 10, Sample.kvRow 3 30])
      Sample.missingIndex Sample.testPlanner "db" Sample.dbDesc
      (Sample.scanNode Sample.partialDef ⟨[keySpan [.DInt 1], keySpan [.DInt 3]]⟩)
      rfl rfl rfl rfl rfl rfl rfl rfl).2.2.1⟩

theorem constrainedLoop_index_pushed (e : virtualDefEntry) (table : TableDescriptor)
    (index : IndexDescriptor) (d : virtualSchemaTable) (p : planner)
    (dbDesc : Option DatabaseDescriptor) (c : Constraint) :
    ∀ n, ∀ key received matched err,
      Call.index key received matched err ∈ (constrainedLoop e table index d p dbDesc c n).calls →
      ∀ row ∈ received, ∀ out, addRowIfPassesFilter e table index c row = .ok out →
        ∀ r ∈ out, r ∈ (constrainedLoop e table index d p dbDesc c n).rows := by
  have hfall : ∀ n key received matched err,
      Call.index key received matched err ∉ (fallbackScan e table index d p dbDesc c n).calls := by
    intro n key received matched err hmem
    have := (fallbackScan_error e table index d p dbDesc c n _ hmem).2.2
    cases this
  intro n
  induction n with
  | zero => intro key received matched err hcall; simp [constrainedLoop] at hcall
  | succ n ih =>
    intro key received matched err hcall row hrow out hout r hr
    rcases constrainedLoop_succ_cases e table index d p dbDesc c n with
      ⟨err0, h⟩ | ⟨span, _, _, h⟩ | ⟨key1, vi, _, _, h⟩
    · rw [h] at hcall; simp at hcall
    · rw [h] at hcall
      exact absurd hcall (hfall n key received matched err)
    · rcases h with ⟨err1, _, h⟩ | ⟨_, _, _, h⟩ | ⟨_, _, h⟩
      · rw [h] at hcall ⊢
        simp only [List.mem_singleton, Call.index.injEq] at hcall
        obtain ⟨_, hrecv, _, _⟩ := hcall
        subst hrecv
        exact feedRows_pushed_of_received _ _ row out hrow hout r hr
      · rw [h] at hcall ⊢
        simp only [Scan.after, List.mem_cons, Call.index.injEq, List.mem_append] at hcall ⊢
        rcases hcall with ⟨_, hrecv, _, _⟩ | hcall
        · subst hrecv
          left
          exact feedRows_pushed_of_received _ _ row out hrow hout r hr
        · exact absurd hcall (hfall n key received matched err)
      · rw [h] at hcall ⊢
        simp only [Scan.after, List.mem_cons, Call.index.injEq, List.mem_append] at hcall ⊢
        rcases hcall with ⟨_, hrecv, _, _⟩ | hcall
        · subst hrecv
          left
          exact feedRows_pushed_of_received _ _ row out hrow hout r hr
        · right
          exact ih key received matched err hcall row hrow out hout r hr

/-- C22, as stated, fails: the index routine of `strayDef`, invoked for the
key 3, offers the row `(1,10)`; on the constraint `k = 1`, `k = 3` the scan
emits it, although its key 1 does not lie in the span `k = 3` the lookup was
requested for (it lies in the other span of the constraint). -/
theorem row_outside_requested_span_emitted :
    ∃ node,
      (getPlanInfo (Sample.kvEntry Sample.strayDef true) Sample.kvDesc Sample.kIndex
        (some ⟨[Sample.pointSpan 1, Sample.pointSpan 3]⟩)).2 Sample.testPlanner "db"
        = .ok node ∧
      node.scan.calls =
        [Call.index (.DInt 3) [Sample.kvRow 1 10] true none,
         Call.index (.DInt 1) [] true none] ∧
      node.scan.rows = [Sample.kvRow 1 10] ∧
      indexKeyDatums Sample.kvDesc (Sample.kvRow 1 10) Sample.kIndex.ColumnIDs
        = some [.DInt 1] ∧
      (Sample.pointSpan 3).Contains (keySpan [.DInt 1]) = false :=
  ⟨_, rfl, by decide, by decide, by decide, by decide⟩

/-- C22, amended: during a constrained scan of a bulk-population table, a row
that the index routine produces while it is invoked for the key of a span is
emitted only if the single-key span built from the row's values in the
indexed columns is contained in some span of the constraint (the whole span
set passed to `getPlanInfo`, not only the span the lookup was requested for);
a row whose key lies outside every span of the constraint is dropped with no
error and is not emitted, also when the routine is faulty or over-eager; and a
row whose key lies in the constraint and that passes the row validator is
emitted. -/
theorem lookup_row_checked_against_constraint (e : virtualDefEntry)
    (d : virtualSchemaTable) (table : TableDescriptor) (index : IndexDescriptor)
    (c : Constraint) (p : planner) (dbName : String) (node : virtualTableNode)
    (key : Datum) (received : List Row) (matched : Bool) (err : Option Err) (row : Row)
    (hdef : e.virtualDef = .table d) (hgen : d.generator = none)
    (hcs : c.IsUnconstrained = false)
    (hnode : (getPlanInfo e table index (some c)).2 p dbName = .ok node)
    (hcall : Call.index key received matched err ∈ node.scan.calls)
    (hrow : row ∈ received) :
    (row ∈ node.scan.rows →
      ∃ k, indexKeyDatums table row index.ColumnIDs = some k ∧
        c.ContainsSpan (keySpan k) = true) ∧
    (∀ k, indexKeyDatums table row index.ColumnIDs = some k →
      c.ContainsSpan (keySpan k) = false →
      addRowIfPassesFilter e table index c row = .ok [] ∧ row ∉ node.scan.rows) ∧
    (∀ k, indexKeyDatums table row index.ColumnIDs = some k →
      c.ContainsSpan (keySpan k) = true → validateRow e row = .ok () →
      row ∈ node.scan.rows) := by
  obtain ⟨dbDesc, hdb, _⟩ := getPlanInfo_ok e table index (some c) p dbName node hnode
  obtain ⟨_, hscan⟩ := constrained_scan_eq e d table index c p dbName dbDesc node hdef hgen hcs
    hdb hnode
  rw [hscan] at hcall ⊢
  have hin := constrainedLoop_rows_in_constraint e table index d p dbDesc c c.Spans.length
  refine ⟨fun hmem => hin row hmem, ?_, ?_⟩
  · intro k hk hout
    refine ⟨addRowIfPassesFilter_outside e table index c row k hk hout, ?_⟩
    intro hmem
    obtain ⟨k2, hk2, hin2⟩ := hin row hmem
    rw [hk] at hk2
    cases hk2
    rw [hout] at hin2
    cases hin2
  · intro k hk hink hvalid
    have hadd := addRowIfPassesFilter_of_valid e table index c row k hvalid hk
    rw [if_pos hink] at hadd
    exact constrainedLoop_index_pushed e table index d p dbDesc c c.Spans.length key received
      matched err hcall row hrow [row] hadd row (List.mem_singleton.2 rfl)

theorem lookup_row_checked_against_constraint_witness :
    (Sample.scanNode Sample.strayDef ⟨[Sample.pointSpan 1, Sample.pointSpan 3]⟩).scan.rows
      = [Sample.kvRow 1 10] ∧
    (Sample.kvRow 1 10 ∈
        (Sample.scanNode Sample.strayDef ⟨[Sample.pointSpan 1, Sample.pointSpan 3]⟩).scan.rows →
      ∃ k, indexKeyDatums Sample.kvDesc (Sample.kvRow 1 10) Sample.kIndex.ColumnIDs = some k ∧
        (Constraint.mk [Sample.pointSpan 1, Sample.pointSpan 3]).ContainsSpan (keySpan k)
          = true) ∧
    (∀ k, indexKeyDatums Sample.kvDesc (Sample.kvRow 1 10) Sample.kIndex.ColumnIDs = some k →
      (Constraint.mk [Sample.pointSpan 1, Sample.pointSpan 3]).ContainsSpan (keySpan k) = false →
      addRowIfPassesFilter (Sample.kvEntry Sample.strayDef true) Sample.kvDesc Sample.kIndex
          ⟨[Sample.pointSpan 1, Sample.pointSpan 3]⟩ (Sample.kvRow 1 10) = .ok [] ∧
        Sample.kvRow 1 10 ∉
          (Sample.scanNode Sample.strayDef
            ⟨[Sample.pointSpan 1, Sample.pointSpan 3]⟩).scan.rows) ∧
    (∀ k, indexKeyDatums Sample.kvDesc (Sample.kvRow 1 10) Sample.kIndex.ColumnIDs = some k →
      (Constraint.mk [Sample.pointSpan 1, Sample.pointSpan 3]).ContainsSpan (keySpan k) = true →
      validateRow (Sample.kvEntry Sample.strayDef true) (Sample.kvRow 1 10) = .ok () →
      Sample.kvRow 1 10 ∈
        (Sample.scanNode Sample.strayDef
          ⟨[Sample.pointSpan 1, Sample.pointSpan 3]⟩).scan.rows) :=
  ⟨by decide,
    lookup_row_checked_against_constraint (Sample.kvEntry Sample.strayDef true) Sample.strayDef
      Sample.kvDesc Sample.kIndex ⟨[Sample.pointSpan 1, Sample.pointSpan 3]⟩ Sample.testPlanner
      "db" (Sample.scanNode Sample.strayDef ⟨[Sample.pointSpan 1, Sample.pointSpan 3]⟩)
      (.DInt 3) [Sample.kvRow 1 10] true none (Sample.kvRow 1 10)
      rfl rfl rfl rfl (by decide) (by decide)⟩

/-- C28: for every constrained scan of a bulk-population table, whatever rows
the index routine and the bulk routine produce, every row the scan emits has
passed the row validator and has values in the indexed columns whose
single-key span lies in some span of the constraint as it was passed to
`getPlanInfo`; a row whose key lies outside every span of that constraint is
dropped by the filter in force (the constraint, or its truncation during the
fallback) with no error, and is not emitted. -/
theorem emitted_rows_within_constraint (e : virtualDefEntry) (d : virtualSchemaTable)
    (table : TableDescriptor) (index : IndexDescriptor) (c : Constraint)
    (p : planner) (dbName : String) (node : virtualTableNode)
    (hdef : e.virtualDef = .table d) (hgen : d.generator = none)
    (hcs : c.IsUnconstrained = false)
    (hnode : (getPlanInfo e table index (some c)).2 p dbName = .ok node) :
    (∀ row ∈ node.scan.rows,
      validateRow e row = .ok () ∧
      ∃ k, indexKeyDatums table row index.ColumnIDs = some k ∧
        c.ContainsSpan (keySpan k) = true ∧
        ∃ span ∈ c.Spans, span.Contains (keySpan k) = true) ∧
    (∀ call ∈ node.scan.calls, ∀ row ∈ call.received,
      ∀ k, indexKeyDatums table row index.ColumnIDs = some k →
        c.ContainsSpan (keySpan k) = false →
        addRowIfPassesFilter e table index
            (filterInForce c node.scan.idxConstraint call) row = .ok [] ∧
          row ∉ node.scan.rows) := by
  obtain ⟨dbDesc, hdb, _⟩ := getPlanInfo_ok e table index (some c) p dbName node hnode
  obtain ⟨_, hscan⟩ := constrained_scan_eq e d table index c p dbName dbDesc node hdef hgen hcs
    hdb hnode
  rw [hscan]
  have hin := constrainedLoop_rows_in_constraint e table index d p dbDesc c c.Spans.length
  have hvalid := constrainedLoop_rows_valid e table index d p dbDesc c c.Spans.length
  constructor
  · intro row hrow
    obtain ⟨k, hk, hc⟩ := hin row hrow
    refine ⟨hvalid row hrow, k, hk, hc, ?_⟩
    simpa [Constraint.ContainsSpan, List.any_eq_true] using hc
  · intro call _ row _ k hk hout
    constructor
    · have hfilter : (filterInForce c
          (constrainedLoop e table index d p dbDesc c c.Spans.length).idxConstraint
          call).ContainsSpan (keySpan k) = false := by
        cases call with
        | index _ _ _ _ => exact hout
        | populate _ _ =>
          simp only [filterInForce]
          rcases constrainedLoop_idxConstraint e table index d p dbDesc c c.Spans.length with
            h | ⟨m, h⟩
          · rw [h]; exact hout
          · rw [h]
            simp only [Option.getD_some]
            cases htr : (c.Truncate m).ContainsSpan (keySpan k) with
            | false => rfl
            | true =>
              rw [truncate_containsSpan_of c m _ htr] at hout
              cases hout
      exact addRowIfPassesFilter_outside e table index _ row k hk hfilter
    · intro hmem
      obtain ⟨k2, hk2, hin2⟩ := hin row hmem
      rw [hk] at hk2
      cases hk2
      rw [hout] at hin2
      cases hin2

theorem emitted_rows_within_constraint_witness :
    (Sample.scanNode Sample.overEagerDef ⟨[Sample.pointSpan 1]⟩).scan.calls
      = [Call.index (.DInt 1) [[.DInt 5]] true none] ∧
    (Sample.scanNode Sample.overEagerDef ⟨[Sample.pointSpan 1]⟩).scan.err = none ∧
    (Sample.scanNode Sample.overEagerDef ⟨[Sample.pointSpan 1]⟩).scan.rows = [] ∧
    (addRowIfPassesFilter (Sample.kvEntry Sample.overEagerDef true) Sample.kvDesc Sample.kIndex
        (filterInForce ⟨[Sample.pointSpan 1]⟩
          (Sample.scanNode Sample.overEagerDef ⟨[Sample.pointSpan 1]⟩).scan.idxConstraint
          (Call.index (.DInt 1) [[.DInt 5]] true none)) [.DInt 5] = .ok [] ∧
      [Datum.DInt 5] ∉ (Sample.scanNode Sample.overEagerDef ⟨[Sample.pointSpan 1]⟩).scan.rows) :=
  ⟨by decide, by decide, by decide,
    (emitted_rows_within_constraint (Sample.kvEntry Sample.overEagerDef true)
      Sample.overEagerDef Sample.kvDesc Sample.kIndex ⟨[Sample.pointSpan 1]⟩ Sample.testPlanner
      "db" (Sample.scanNode Sample.overEagerDef ⟨[Sample.pointSpan 1]⟩)
      rfl rfl rfl rfl).2 (Call.index (.DInt 1) [[.DInt 5]] true none) (by decide)
      [.DInt 5] (by decide) [.DInt 5] (by decide) (by decide)⟩

/-- C27: `virtualSchemaTable.getIndex(id)`, for a 32-bit index id, returns the
entry at ordinal `id - 2` of the definition's index list for every id with
`2 <= id < 2 + len(indexes)`; for an id of at least `2 + len(indexes)` the
lookup is out of range, and so it is for the id 0, whose ordinal wraps around
to `2^32 - 2`, in every definition whose indexes can all be addressed by
32-bit ids (`2 + len(indexes) <= 2^32`); and the constructor builds a
constrained scan, the only place where `getIndex` is called, only for an index
id different from 1. -/
theorem getIndex_ordinal (t : virtualSchemaTable) :
    (∀ id, id < 2 ^ 32 → 2 ≤ id → id < 2 + t.indexes.length →
      t.getIndex id = t.indexes[id - 2]? ∧ (t.getIndex id).isSome = true) ∧
    (∀ id, id < 2 ^ 32 → 2 + t.indexes.length ≤ id → t.getIndex id = none) ∧
    (2 + t.indexes.length ≤ 2 ^ 32 → t.getIndex 0 = none) ∧
    (∀ (e : virtualDefEntry) (table : TableDescriptor) (index : IndexDescriptor)
        (c : Constraint) (p : planner) (dbName : String) (node : virtualTableNode),
      e.virtualDef = .table t → t.generator = none → c.IsUnconstrained = false →
      (getPlanInfo e table index (some c)).2 p dbName = .ok node →
      index.ID ≠ 1) := by
  refine ⟨?_, ?_, ?_, ?_⟩
  · intro id hid h2 hlt
    have hmod : (id + 2 ^ 32 - 2) % 2 ^ 32 = id - 2 := by omega
    have hget : t.getIndex id = t.indexes[id - 2]? := by
      simp only [virtualSchemaTable.getIndex, hmod]
    refine ⟨hget, ?_⟩
    rw [hget, List.getElem?_eq_getElem (by omega)]
    rfl
  · intro id hid hge
    have hmod : (id + 2 ^ 32 - 2) % 2 ^ 32 = id - 2 := by omega
    simp only [virtualSchemaTable.getIndex, hmod]
    exact List.getElem?_eq_none (by omega)
  · intro hlen
    have hmod : (0 + 2 ^ 32 - 2) % 2 ^ 32 = 2 ^ 32 - 2 := by norm_num
    simp only [virtualSchemaTable.getIndex, hmod]
    exact List.getElem?_eq_none (by omega)
  · intro e table index c p dbName node hdef hgen hcs hnode
    obtain ⟨dbDesc, hdb, _⟩ := getPlanInfo_ok e table index (some c) p dbName node hnode
    exact (constrained_scan_eq e t table index c p dbName dbDesc node hdef hgen hcs hdb hnode).1

theorem getIndex_ordinal_witness :
    (Sample.indexedDef.getIndex 2
        = Sample.indexedDef.indexes[2 - 2]? ∧
      (Sample.indexedDef.getIndex 2).isSome = true) ∧
    Sample.indexedDef.getIndex 3 = none ∧
    Sample.indexedDef.getIndex 0 = none ∧
    Sample.kIndex.ID ≠ 1 :=
  ⟨(getIndex_ordinal Sample.indexedDef).1 2 (by decide) (by decide) (by decide),
    (getIndex_ordinal Sample.indexedDef).2.1 3 (by decide) (by decide),
    (getIndex_ordinal Sample.indexedDef).2.2.1 (by decide),
    (getIndex_ordinal Sample.indexedDef).2.2.2 (Sample.kvEntry Sample.indexedDef true)
      Sample.kvDesc Sample.kIndex ⟨[Sample.pointSpan 1]⟩ Sample.testPlanner "db"
      (Sample.scanNode Sample.indexedDef ⟨[Sample.pointSpan 1]⟩) rfl rfl rfl rfl⟩

theorem feedRows_append_pushed (f : Row → Except Err (List Row)) :
    ∀ (pre : List Row) (row : Row) (post : List Row) (out : List Row),
      (∀ r ∈ pre, ∀ err, f r ≠ .error err) → f row = .ok out →
      ∀ x ∈ out, x ∈ (feedRows f (pre ++ row :: post)).1 := by
  intro pre
  induction pre with
  | nil =>
    intro row post out _ hrow x hx
    simp only [List.nil_append, feedRows, hrow]
    exact List.mem_append_left _ hx
  | cons r pre ih =>
    intro row post out hpre hrow x hx
    simp only [List.cons_append, feedRows]
    cases hr : f r with
    | error err => exact absurd hr (hpre r (List.mem_cons_self _ _) err)
    | ok o =>
      simp only []
      exact List.mem_append_right _
        (ih row post out (fun r2 h2 => hpre r2 (List.mem_cons_of_mem _ h2)) hrow x hx)

theorem fallbackScan_calls_eq (e : virtualDefEntry) (table : TableDescriptor)
    (index : IndexDescriptor) (d : virtualSchemaTable) (p : planner)
    (dbDesc : Option DatabaseDescriptor) (c : Constraint) (i : Nat)
    (populate : planner → Option DatabaseDescriptor → PopulateRun)
    (hpop : d.populate = some populate) :
    (fallbackScan e table index d p dbDesc c i).calls =
      [Call.populate
        (feedRows (addRowIfPassesFilter e table index (c.Truncate (i + 1)))
          (populate p dbDesc).rows).2.1
        (routineErr
          (feedRows (addRowIfPassesFilter e table index (c.Truncate (i + 1)))
            (populate p dbDesc).rows).2.2
          (populate p dbDesc).err)] ∧
    (fallbackScan e table index d p dbDesc c i).err =
      routineErr
        (feedRows (addRowIfPassesFilter e table index (c.Truncate (i + 1)))
          (populate p dbDesc).rows).2.2
        (populate p dbDesc).err := by
  unfold fallbackScan
  simp only [hpop, and_self]

/-- A recorded miss of a partial index is followed by the fallback at the
position of the span that was looked up. -/
theorem constrainedLoop_miss_at (e : virtualDefEntry) (table : TableDescriptor)
    (index : IndexDescriptor) (d : virtualSchemaTable) (p : planner)
    (dbDesc : Option DatabaseDescriptor) (c : Constraint) (vi : virtualIndex)
    (hvi : d.getIndex index.ID = some vi) (hpart : vi.isPartial = true) :
    ∀ n, ∀ key received,
      Call.index key received false none ∈ (constrainedLoop e table index d p dbDesc c n).calls →
      ∃ i preRows preCalls, c.Spans[i]? = some (keySpan [key]) ∧
        (constrainedLoop e table index d p dbDesc c n).rows =
          preRows ++ (fallbackScan e table index d p dbDesc c i).rows ∧
        (constrainedLoop e table index d p dbDesc c n).calls =
          preCalls ++ (fallbackScan e table index d p dbDesc c i).calls ∧
        (constrainedLoop e table index d p dbDesc c n).err =
          (fallbackScan e table index d p dbDesc c i).err := by
  have hfall : ∀ n key received matched err,
      Call.index key received matched err ∉ (fallbackScan e table index d p dbDesc c n).calls := by
    intro n key received matched err hmem
    have := (fallbackScan_error e table index d p dbDesc c n _ hmem).2.2
    cases this
  intro n
  induction n with
  | zero => intro key received h; simp [constrainedLoop] at h
  | succ n ih =>
    intro key received hmiss
    rcases constrainedLoop_succ_cases e table index d p dbDesc c n with
      ⟨err0, h⟩ | ⟨span, _, _, h⟩ | ⟨key0, vi0, hspan, hvi0, h⟩
    · rw [h] at hmiss; simp at hmiss
    · rw [h] at hmiss
      exact absurd hmiss (hfall n _ _ _ _)
    · rw [hvi] at hvi0
      cases hvi0
      rcases h with ⟨err1, _, h⟩ | ⟨_, _, _, h⟩ | ⟨_, hcont, h⟩
      · rw [h] at hmiss
        simp at hmiss
      · rw [h] at hmiss ⊢
        simp only [Scan.after, List.mem_cons] at hmiss ⊢
        rcases hmiss with hhead | htail
        · simp only [Call.index.injEq] at hhead
          obtain ⟨hk, _⟩ := hhead
          subst hk
          exact ⟨n,
            (feedRows (addRowIfPassesFilter e table index c)
              (vi.populate key p dbDesc).rows).1,
            [Call.index key
              (feedRows (addRowIfPassesFilter e table index c)
                (vi.populate key p dbDesc).rows).2.1 false none], hspan, rfl, rfl, rfl⟩
        · exact absurd htail (hfall n _ _ _ _)
      · rw [h] at hmiss ⊢
        simp only [Scan.after, List.mem_cons] at hmiss ⊢
        rcases hmiss with hhead | htail
        · simp only [Call.index.injEq] at hhead
          obtain ⟨_, _, hm, _⟩ := hhead
          rcases hcont with hc | hc
          · rw [hc] at hm; cases hm
          · rw [hpart] at hc; cases hc
        · obtain ⟨i, preRows, preCalls, hi, hrows, hcalls, herr⟩ := ih key received htail
          refine ⟨i,
            (feedRows (addRowIfPassesFilter e table index c)
              (vi.populate key0 p dbDesc).rows).1 ++ preRows,
            Call.index key0
              (feedRows (addRowIfPassesFilter e table index c)
                (vi.populate key0 p dbDesc).rows).2.1
              (vi.populate key0 p dbDesc).matched none :: preCalls, hi, ?_, ?_, herr⟩
          · rw [hrows, List.append_assoc]
          · rw [hcalls]; rfl

/-- C2, as stated, fails: the bulk routine of `abortingPartialDef` emits
`(3,'x')` and then `(3,30)`; on the constraint `k = 3` the partial index
reports no match, the fallback runs and stops with the validation error of
`(3,'x')`, and the valid row `(3,30)`, whose key lies in the span, is not
emitted. -/
theorem valid_row_after_invalid_not_emitted :
    ∃ node,
      (getPlanInfo (Sample.kvEntry Sample.abortingPartialDef true) Sample.kvDesc Sample.kIndex
        (some ⟨[Sample.pointSpan 3]⟩)).2 Sample.testPlanner "db" = .ok node ∧
      node.scan.calls =
        [Call.index (.DInt 3) [] false none,
         Call.populate [[.DInt 3, .DString "x"]]
          (some (.assertionFailed
            "datum column \"v\" expected to be type int; found type string"))] ∧
      node.scan.rows = [] ∧
      Sample.kvRow 3 30 ∈
        (Sample.emits [[.DInt 3, .DString "x"], Sample.kvRow 3 30] Sample.testPlanner
          Sample.dbDesc).rows ∧
      validateRow (Sample.kvEntry Sample.abortingPartialDef true) (Sample.kvRow 3 30) = .ok () ∧
      indexKeyDatums Sample.kvDesc (Sample.kvRow 3 30) Sample.kIndex.ColumnIDs
        = some [.DInt 3] ∧
      (Sample.pointSpan 3).Contains (keySpan [.DInt 3]) = true ∧
      Sample.kvRow 3 30 ∉ node.scan.rows :=
  ⟨_, rfl, by decide, by decide, by decide, rfl, by decide, by decide, by decide⟩

/-- One turn of the loop on a span that is not a single key: the scan leaves
for the fallback. -/
theorem constrainedLoop_range_step (e : virtualDefEntry) (table : TableDescriptor)
    (index : IndexDescriptor) (d : virtualSchemaTable) (p : planner)
    (dbDesc : Option DatabaseDescriptor) (c : Constraint) (n : Nat) (span : Span)
    (hspan : c.Spans[n]? = some span) (hlen : ¬ span.StartKey.length > 1)
    (hsingle : span.HasSingleKey = false) :
    constrainedLoop e table index d p dbDesc c (n + 1) =
      fallbackScan e table index d p dbDesc c n := by
  rw [constrainedLoop]
  simp only [hspan, hlen, if_false, hsingle, Bool.not_false, if_true]

/-- The scan of a constraint whose loop gets to the span at position `i` is
the scan from that span on, after point lookups that returned no error. -/
theorem constrainedLoop_reaches (e : virtualDefEntry) (table : TableDescriptor)
    (index : IndexDescriptor) (d : virtualSchemaTable) (p : planner)
    (dbDesc : Option DatabaseDescriptor) (c : Constraint) (i : Nat)
    (hreach : reachesSpan e table index d p dbDesc c i) :
    ∀ n, i < n → n ≤ c.Spans.length →
      ∃ preRows preCalls,
        (constrainedLoop e table index d p dbDesc c n).rows =
          preRows ++ (constrainedLoop e table index d p dbDesc c (i + 1)).rows ∧
        (constrainedLoop e table index d p dbDesc c n).calls =
          preCalls ++ (constrainedLoop e table index d p dbDesc c (i + 1)).calls ∧
        (constrainedLoop e table index d p dbDesc c n).err =
          (constrainedLoop e table index d p dbDesc c (i + 1)).err ∧
        ∀ call ∈ preCalls, call.isIndex = true ∧ call.err = none := by
  intro n
  induction n with
  | zero => intro h; omega
  | succ n ih =>
    intro hin hn
    by_cases heq : n = i
    · subst heq
      exact ⟨[], [], rfl, rfl, rfl, by simp⟩
    · have hi : i < n := by omega
      obtain ⟨key, vi, hspan, hvi, hcont⟩ := hreach n hi (by omega)
      obtain ⟨preRows, preCalls, hrows, hcalls, herr, hpre⟩ := ih hi (by omega)
      rw [constrainedLoop_continue e table index d p dbDesc c n key vi hspan hvi hcont]
      refine ⟨(feedRows (addRowIfPassesFilter e table index c)
          (vi.populate key p dbDesc).rows).1 ++ preRows,
        Call.index key
          (feedRows (addRowIfPassesFilter e table index c) (vi.populate key p dbDesc).rows).2.1
          (vi.populate key p dbDesc).matched none :: preCalls, ?_, ?_, ?_, ?_⟩
      · simp only [Scan.after, hrows, List.append_assoc]
      · simp only [Scan.after, hcalls, List.cons_append]
      · simp only [Scan.after, herr]
      · intro call hcall
        simp only [List.mem_cons] at hcall
        rcases hcall with hcall | hcall
        · subst hcall; exact ⟨rfl, rfl⟩
        · exact hpre call hcall

theorem constrainedLoop_bails (e : virtualDefEntry) (table : TableDescriptor)
    (index : IndexDescriptor) (d : virtualSchemaTable) (p : planner)
    (dbDesc : Option DatabaseDescriptor) (c : Constraint) (i : Nat)
    (hbail : bailsOutAt e table index d p dbDesc c i) :
    ∃ preRows preCalls,
      (constrainedLoop e table index d p dbDesc c (i + 1)).rows =
        preRows ++ (fallbackScan e table index d p dbDesc c i).rows ∧
      (constrainedLoop e table index d p dbDesc c (i + 1)).calls =
        preCalls ++ (fallbackScan e table index d p dbDesc c i).calls ∧
      (constrainedLoop e table index d p dbDesc c (i + 1)).err =
        (fallbackScan e table index d p dbDesc c i).err ∧
      ∀ call ∈ preCalls, call.isIndex = true ∧ call.err = none := by
  rcases hbail with ⟨span, hspan, hlen, hsingle⟩ | ⟨key, vi, hspan, hvi, hpart, hmiss⟩
  · rw [constrainedLoop_range_step e table index d p dbDesc c i span hspan hlen hsingle]
    exact ⟨[], [], rfl, rfl, rfl, by simp⟩
  · rw [constrainedLoop_miss_step e table index d p dbDesc c i key vi hspan hvi hpart hmiss]
    refine ⟨(feedRows (addRowIfPassesFilter e table index c)
        (vi.populate key p dbDesc).rows).1,
      [Call.index key
        (feedRows (addRowIfPassesFilter e table index c) (vi.populate key p dbDesc).rows).2.1
        false none], rfl, rfl, rfl, ?_⟩
    intro call hcall
    simp only [List.mem_singleton] at hcall
    subst hcall
    exact ⟨rfl, rfl⟩

/-- A scan that ends with the fallback at position `i` of a span `keySpan [key]`
holds the bulk routine's invocation, and the rows of the bulk routine that lie
in that span, up to the first row that makes the callback fail. -/
theorem fallback_covers_span (e : virtualDefEntry) (table : TableDescriptor)
    (index : IndexDescriptor) (d : virtualSchemaTable) (p : planner)
    (dbDesc : Option DatabaseDescriptor) (c : Constraint)
    (populate : planner → Option DatabaseDescriptor → PopulateRun) (i : Nat) (key : Datum)
    (s : Scan) (preRows : List Row) (preCalls : List Call)
    (hpop : d.populate = some populate)
    (hi : c.Spans[i]? = some (keySpan [key]))
    (hrows : s.rows = preRows ++ (fallbackScan e table index d p dbDesc c i).rows)
    (hcalls : s.calls = preCalls ++ (fallbackScan e table index d p dbDesc c i).calls)
    (herr : s.err = (fallbackScan e table index d p dbDesc c i).err) :
    Call.populate
        (feedRows (addRowIfPassesFilter e table index (c.Truncate (i + 1)))
          (populate p dbDesc).rows).2.1
        s.err ∈ s.calls ∧
    (∀ pre row post, (populate p dbDesc).rows = pre ++ row :: post →
      (∀ r ∈ pre, ∀ err,
        addRowIfPassesFilter e table index (c.Truncate (i + 1)) r ≠ .error err) →
      validateRow e row = .ok () →
      ∀ k, indexKeyDatums table row index.ColumnIDs = some k →
        (keySpan [key]).Contains (keySpan k) = true → row ∈ s.rows) ∧
    ((∀ r ∈ (populate p dbDesc).rows,
        validateRow e r = .ok () ∧ (indexKeyDatums table r index.ColumnIDs).isSome = true) →
      ∀ row ∈ (populate p dbDesc).rows,
        ∀ k, indexKeyDatums table row index.ColumnIDs = some k →
          (keySpan [key]).Contains (keySpan k) = true → row ∈ s.rows) := by
  obtain ⟨hfcalls, hferr⟩ := fallbackScan_calls_eq e table index d p dbDesc c i populate hpop
  obtain ⟨hfrows, _⟩ := fallbackScan_rows_eq e table index d p dbDesc c i populate hpop
  have hsharp : ∀ pre row post, (populate p dbDesc).rows = pre ++ row :: post →
      (∀ r ∈ pre, ∀ err,
        addRowIfPassesFilter e table index (c.Truncate (i + 1)) r ≠ .error err) →
      validateRow e row = .ok () →
      ∀ k, indexKeyDatums table row index.ColumnIDs = some k →
        (keySpan [key]).Contains (keySpan k) = true → row ∈ s.rows := by
    intro pre row post hsplit hpre hv k hk hin
    have hadd := addRowIfPassesFilter_of_valid e table index (c.Truncate (i + 1)) row k hv hk
    rw [if_pos (truncate_containsSpan c i _ _ hi hin)] at hadd
    have hmem := feedRows_append_pushed _ pre row post [row] hpre hadd row
      (List.mem_singleton.2 rfl)
    rw [← hsplit, ← hfrows] at hmem
    rw [hrows]
    exact List.mem_append_right _ hmem
  refine ⟨?_, hsharp, ?_⟩
  · rw [hcalls, herr, hfcalls, hferr]
    exact List.mem_append_right _ (List.mem_singleton.2 rfl)
  · intro hall row hrow k hk hin
    obtain ⟨pre, post, hsplit⟩ := List.append_of_mem hrow
    refine hsharp pre row post hsplit ?_ (hall row hrow).1 k hk hin
    intro r hr err herr2
    have hrmem : r ∈ (populate p dbDesc).rows := by
      rw [hsplit]; exact List.mem_append_left _ hr
    obtain ⟨hv, hsome⟩ := hall r hrmem
    obtain ⟨kr, hkr⟩ := Option.isSome_iff_exists.1 hsome
    rw [addRowIfPassesFilter_of_valid e table index _ r kr hv hkr] at herr2
    cases herr2

/-- C2, amended: for a bulk-population table with a partial secondary index,
when the loop of a constrained scan gets to a single-key span and the index
routine, invoked for the key of that span, reports no match (returns false and
no error), the scan runs the table's bulk population routine, filtered by the
constraint truncated after that span; a valid row the bulk routine emits whose
indexed-column value lies in that span is emitted by the scan provided no row
the routine emits before it makes the scan fail (a row that lies in the
truncated constraint and does not pass the validator, or that has no value in
the indexed column); in particular, when every row the bulk routine emits
passes the validator and has a value in the indexed column, every row of the
bulk routine whose indexed-column value lies in that span is emitted. The same
holds for every invocation of the index routine that the scan records with
the result "no match, no error". -/
theorem partial_miss_runs_fallback (e : virtualDefEntry) (d : virtualSchemaTable)
    (table : TableDescriptor) (index : IndexDescriptor) (c : Constraint)
    (populate : planner → Option DatabaseDescriptor → PopulateRun) (vi : virtualIndex)
    (p : planner) (dbName : String) (dbDesc : Option DatabaseDescriptor)
    (node : virtualTableNode)
    (hdef : e.virtualDef = .table d) (hpop : d.populate = some populate)
    (hgen : d.generator = none) (hvi : d.getIndex index.ID = some vi)
    (hpart : vi.isPartial = true)
    (hdb : resolveDatabase e p dbName = .ok dbDesc)
    (hnode : (getPlanInfo e table index (some c)).2 p dbName = .ok node) :
    (∀ i key, c.IsUnconstrained = false → c.Spans[i]? = some (keySpan [key]) →
      reachesSpan e table index d p dbDesc c i →
      lookupResult e table index vi p dbDesc c key = (false, none) →
      Call.populate
          (feedRows (addRowIfPassesFilter e table index (c.Truncate (i + 1)))
            (populate p dbDesc).rows).2.1
          node.scan.err ∈ node.scan.calls ∧
      (∀ pre row post, (populate p dbDesc).rows = pre ++ row :: post →
        (∀ r ∈ pre, ∀ err,
          addRowIfPassesFilter e table index (c.Truncate (i + 1)) r ≠ .error err) →
        validateRow e row = .ok () →
        ∀ k, indexKeyDatums table row index.ColumnIDs = some k →
          (keySpan [key]).Contains (keySpan k) = true → row ∈ node.scan.rows) ∧
      ((∀ r ∈ (populate p dbDesc).rows,
          validateRow e r = .ok () ∧ (indexKeyDatums table r index.ColumnIDs).isSome = true) →
        ∀ row ∈ (populate p dbDesc).rows,
          ∀ k, indexKeyDatums table row index.ColumnIDs = some k →
            (keySpan [key]).Contains (keySpan k) = true → row ∈ node.scan.rows)) ∧
    (∀ key received, Call.index key received false none ∈ node.scan.calls →
      ∃ i, c.Spans[i]? = some (keySpan [key]) ∧
        Call.populate
            (feedRows (addRowIfPassesFilter e table index (c.Truncate (i + 1)))
              (populate p dbDesc).rows).2.1
            node.scan.err ∈ node.scan.calls ∧
        (∀ pre row post, (populate p dbDesc).rows = pre ++ row :: post →
          (∀ r ∈ pre, ∀ err,
            addRowIfPassesFilter e table index (c.Truncate (i + 1)) r ≠ .error err) →
          validateRow e row = .ok () →
          ∀ k, indexKeyDatums table row index.ColumnIDs = some k →
            (keySpan [key]).Contains (keySpan k) = true → row ∈ node.scan.rows) ∧
        ((∀ r ∈ (populate p dbDesc).rows,
            validateRow e r = .ok () ∧
              (indexKeyDatums table r index.ColumnIDs).isSome = true) →
          ∀ row ∈ (populate p dbDesc).rows,
            ∀ k, indexKeyDatums table row index.ColumnIDs = some k →
              (keySpan [key]).Contains (keySpan k) = true → row ∈ node.scan.rows)) := by
  constructor
  · intro i key hcs hspan hreach hmiss
    obtain ⟨_, hscan⟩ := constrained_scan_eq e d table index c p dbName dbDesc node hdef hgen
      hcs hdb hnode
    have hi : i < c.Spans.length := by
      by_contra hge
      rw [List.getElem?_eq_none (by omega)] at hspan
      cases hspan
    obtain ⟨preRows, preCalls, hrows, hcalls, herr, _⟩ :=
      constrainedLoop_reaches e table index d p dbDesc c i hreach c.Spans.length hi
        (Nat.le_refl _)
    obtain ⟨bRows, bCalls, hbrows, hbcalls, hberr, _⟩ :=
      constrainedLoop_bails e table index d p dbDesc c i
        (Or.inr ⟨key, vi, hspan, hvi, hpart, hmiss⟩)
    rw [hscan]
    exact fallback_covers_span e table index d p dbDesc c populate i key _
      (preRows ++ bRows) (preCalls ++ bCalls) hpop hspan
      (by rw [hrows, hbrows, List.append_assoc])
      (by rw [hcalls, hbcalls, List.append_assoc])
      (by rw [herr, hberr])
  · intro key received hmiss
    obtain ⟨dbDesc2, hdb2, hplan⟩ := getPlanInfo_ok e table index (some c) p dbName node hnode
    rw [hdb] at hdb2
    cases hdb2
    rcases planVirtualDef_bulk e d table index (some c) p dbDesc node hdef hgen hplan with
      ⟨_, hscan⟩ | ⟨c2, hc2, _, _, hscan⟩
    · rw [hscan] at hmiss
      obtain ⟨r, er, hcall⟩ := unconstrainedWorker_calls e d p dbDesc (some c) _ hmiss
      cases hcall
    · cases hc2
      rw [hscan] at hmiss ⊢
      obtain ⟨i, preRows, preCalls, hi, hrows, hcalls, herr⟩ :=
        constrainedLoop_miss_at e table index d p dbDesc c vi hvi hpart _ key received hmiss
      exact ⟨i, hi, fallback_covers_span e table index d p dbDesc c populate i key _
        preRows preCalls hpop hi hrows hcalls herr⟩

theorem partial_miss_runs_fallback_witness :
    (Sample.scanNode Sample.sparseIndexDef
      ⟨[Sample.pointSpan 1, Sample.pointSpan 3, Sample.pointSpan 7]⟩).scan.rows
      = [Sample.kvRow 7 70, Sample.kvRow 1 10, Sample.kvRow 3 30, Sample.kvRow 3 31] ∧
    lookupResult (Sample.kvEntry Sample.sparseIndexDef true) Sample.kvDesc Sample.kIndex
      (Sample.lookupIn [Sample.kvRow 7 70] true) Sample.testPlanner Sample.dbDesc
      ⟨[Sample.pointSpan 1, Sample.pointSpan 3, Sample.pointSpan 7]⟩ (.DInt 3) = (false, none) ∧
    Call.populate
        [Sample.kvRow 1 10, Sample.kvRow 3 30, Sample.kvRow 7 70, Sample.kvRow 3 31] none ∈
      (Sample.scanNode Sample.sparseIndexDef
        ⟨[Sample.pointSpan 1, Sample.pointSpan 3, Sample.pointSpan 7]⟩).scan.calls ∧
    Sample.kvRow 3 30 ∈
      (Sample.scanNode Sample.sparseIndexDef
        ⟨[Sample.pointSpan 1, Sample.pointSpan 3, Sample.pointSpan 7]⟩).scan.rows ∧
    Sample.kvRow 3 31 ∈
      (Sample.scanNode Sample.sparseIndexDef
        ⟨[Sample.pointSpan 1, Sample.pointSpan 3, Sample.pointSpan 7]⟩).scan.rows ∧
    (∃ i, (Constraint.mk [Sample.pointSpan 1, Sample.pointSpan 3, Sample.pointSpan 7]).Spans[i]?
        = some (keySpan [.DInt 3]) ∧
      Call.populate
          (feedRows
            (addRowIfPassesFilter (Sample.kvEntry Sample.sparseIndexDef true) Sample.kvDesc
              Sample.kIndex
              ((Constraint.mk [Sample.pointSpan 1, Sample.pointSpan 3,
                Sample.pointSpan 7]).Truncate (i + 1)))
            (Sample.emits
              [Sample.kvRow 1 10, Sample.kvRow 3 30, Sample.kvRow 7 70, Sample.kvRow 3 31]
              Sample.testPlanner Sample.dbDesc).rows).2.1
          (Sample.scanNode Sample.sparseIndexDef
            ⟨[Sample.pointSpan 1, Sample.pointSpan 3, Sample.pointSpan 7]⟩).scan.err ∈
        (Sample.scanNode Sample.sparseIndexDef
          ⟨[Sample.pointSpan 1, Sample.pointSpan 3, Sample.pointSpan 7]⟩).scan.calls) :=
  have h := partial_miss_runs_fallback (Sample.kvEntry Sample.sparseIndexDef true)
    Sample.sparseIndexDef Sample.kvDesc Sample.kIndex
    ⟨[Sample.pointSpan 1, Sample.pointSpan 3, Sample.pointSpan 7]⟩
    (Sample.emits [Sample.kvRow 1 10, Sample.kvRow 3 30, Sample.kvRow 7 70, Sample.kvRow 3 31])
    (Sample.lookupIn [Sample.kvRow 7 70] true)
    Sample.testPlanner "db" Sample.dbDesc
    (Sample.scanNode Sample.sparseIndexDef
      ⟨[Sample.pointSpan 1, Sample.pointSpan 3, Sample.pointSpan 7]⟩)
    rfl rfl rfl rfl rfl rfl rfl
  have h1 := h.1 1 (.DInt 3) rfl rfl
    (by
      intro j hj1 hj2
      have hj : j = 2 := by
        have : j < 3 := hj2
        omega
      subst hj
      exact ⟨.DInt 7, _, rfl, rfl, rfl⟩)
    rfl
  have hall : ∀ r ∈ (Sample.emits
        [Sample.kvRow 1 10, Sample.kvRow 3 30, Sample.kvRow 7 70, Sample.kvRow 3 31]
        Sample.testPlanner Sample.dbDesc).rows,
      validateRow (Sample.kvEntry Sample.sparseIndexDef true) r = .ok () ∧
        (indexKeyDatums Sample.kvDesc r Sample.kIndex.ColumnIDs).isSome = true := by
    intro r hr
    have hr2 : r ∈ [Sample.kvRow 1 10, Sample.kvRow 3 30, Sample.kvRow 7 70, Sample.kvRow 3 31] :=
      hr
    simp only [List.mem_cons, List.mem_singleton, List.not_mem_nil, or_false] at hr2
    rcases hr2 with h | h | h | h <;> subst h <;> exact ⟨rfl, rfl⟩
  ⟨by decide, rfl, h1.1,
    h1.2.2 hall (Sample.kvRow 3 30) (by decide) [.DInt 3] rfl (by decide),
    h1.2.2 hall (Sample.kvRow 3 31) (by decide) [.DInt 3] rfl (by decide),
    (h.2 (.DInt 3) [] (by decide)).elim fun i hi => ⟨i, hi.1, hi.2.1⟩⟩

end VirtualSchema
